import Mathlib

/-!
# Netopeer2 server operations: lock arbitration, edit-config walk, filter compiler

A shallow embedding of `src/server/operations.c`.

* A NETCONF session (`struct nc_session *`) is a record holding its address
  (pointer identity), its numeric id (`nc_session_get_id`) and its sysrepo
  handles (`nc_session_get_data`).
* The global `dslock` table and the log of sysrepo calls made so far form the
  `World` that every operation transforms.
* The sysrepo backend is an arbitrary function from the calls made so far and
  the call being made to a status code, so that every sequence of backend
  results can be produced.
* The operations are sequential: `pthread_rwlock_*` calls have no effect in them.
  Calls of `op_lock` that run at the same time are modelled by `op_lock_section`
  and `lock_race`: a call is a sequence of critical sections, and sections of
  different calls interleave in any order.
* The conversions `%u`, `%lu`, `%d`, `%ld` of `sprintf` print the decimal digits
  that `Nat.toDigits 10` gives; `long` has 64 bits. The conversion `%.*f` is a
  parameter.
* `ERR`/`VRB` logging and the message text attached by `nc_err_set_msg` are
  not represented.
* Memory allocation (`malloc`, `realloc`) is taken to succeed, and the text of
  `path` is an unbounded character list: the 1024-byte limit of the C buffer is
  not enforced by the model.
* A C string is the list of its characters; `strlen` is the length of the list.
* XML and data trees keep the shape of the C structures: an element has a first
  child and a next sibling, and a loop over siblings is a recursion along `next`.
* Namespace strings of one libyang context are dictionary entries, so the pointer
  comparison `elem->ns->value != *last_ns` is a comparison of the strings.
-/

namespace Netopeer2

/-! ## Sessions and the lock table -/

/-- Handle of a sysrepo session (`sr_session_ctx_t *`). -/
abbrev sr_session_ctx := Nat

/-- Sysrepo handles bound to one NETCONF session (`struct np2sr_sessions`). -/
structure np2sr_sessions where
  running : sr_session_ctx
  running_config : sr_session_ctx
  startup : sr_session_ctx
  candidate : sr_session_ctx
  deriving DecidableEq, Repr

/-- NETCONF session object: `addr` is the identity of the pointed object, `id`
is what `nc_session_get_id` returns, `data` what `nc_session_get_data` returns. -/
structure nc_session where
  addr : Nat
  id : Nat
  data : np2sr_sessions
  deriving DecidableEq, Repr

/-- Local information about locks (`static struct { ... } dslock`); `none` is `NULL`. -/
structure dslock_t where
  running : Option nc_session
  startup : Option nc_session
  candidate : Option nc_session
  deriving DecidableEq, Repr

/-- Initial value of the table: `{NULL, NULL, NULL}`. -/
def dslock_init : dslock_t := ⟨none, none, none⟩

/-! ## Sysrepo backend -/

/-- Status codes of sysrepo that the code distinguishes; every other code is `SR_ERR_OTHER`. -/
inductive sr_error_t where
  | SR_ERR_OK
  | SR_ERR_UNAUTHORIZED
  | SR_ERR_DATA_EXISTS
  | SR_ERR_DATA_MISSING
  | SR_ERR_OTHER (code : Nat)
  deriving DecidableEq, Repr

/-- Edit flags passed to `sr_set_item` / `sr_delete_item`: `0` or `SR_EDIT_STRICT`. -/
inductive sr_edit_flag where
  | SR_EDIT_DEFAULT
  | SR_EDIT_STRICT
  deriving DecidableEq, Repr

/-- One call into sysrepo together with its arguments. The datastore argument of
the item calls is `none` when the C variable `ds` was never assigned. -/
inductive sr_call where
  | lock_datastore (ds : sr_session_ctx)
  | unlock_datastore (ds : sr_session_ctx)
  | set_item (ds : Option sr_session_ctx) (path : String) (value : Option String)
      (opts : sr_edit_flag)
  | delete_item (ds : Option sr_session_ctx) (path : String) (opts : sr_edit_flag)
  deriving DecidableEq, Repr

/-- Backend behaviour: the status returned for a call, given the calls made before it. -/
abbrev Backend := List sr_call → sr_call → sr_error_t

/-- Process state seen by the operations: the lock table and the log of backend
calls, oldest first. -/
structure World where
  dslock : dslock_t
  calls : List sr_call
  deriving DecidableEq, Repr

/-- Perform one backend call: its status and the world with the call logged. -/
def sr_do (sr : Backend) (c : sr_call) (w : World) : sr_error_t × World :=
  (sr w.calls c, { w with calls := w.calls ++ [c] })

/-! ## NETCONF replies -/

/-- Error tags used by the operations (`NC_ERR`). -/
inductive NC_ERR where
  | NC_ERR_OP_FAILED
  | NC_ERR_INVALID_VALUE
  | NC_ERR_LOCK_DENIED
  | NC_ERR_ACCESS_DENIED
  | NC_ERR_DATA_EXISTS
  | NC_ERR_DATA_MISSING
  deriving DecidableEq, Repr

/-- Error types (`NC_ERR_TYPE`). -/
inductive NC_ERR_TYPE where
  | NC_ERR_TYPE_PROT
  | NC_ERR_TYPE_APP
  deriving DecidableEq, Repr

/-- Structured error built by `nc_err`: `nc_err(NC_ERR_LOCK_DENIED, sid)` carries a
session id, the other tags carry an error type and optionally a path set by
`nc_err_set_path`; `libyang` is the result of `nc_err_libyang()`. -/
inductive nc_server_error where
  | lock_denied (sid : Nat)
  | typed (tag : NC_ERR) (type : NC_ERR_TYPE) (path : Option String)
  | libyang
  deriving DecidableEq, Repr

/-- Reply returned by an operation (`struct nc_server_reply *`). -/
inductive nc_server_reply where
  | ok
  | err (e : nc_server_error)
  deriving DecidableEq, Repr

/-! ## `np2srv_clean_dslock` -/

/-- Embedding of `np2srv_clean_dslock`: three independent tests, each clearing one entry. -/
def np2srv_clean_dslock (ncs : nc_session) (w : World) : World :=
  let d := w.dslock
  let d := if d.running = some ncs then { d with running := none } else d
  let d := if d.startup = some ncs then { d with startup := none } else d
  let d := if d.candidate = some ncs then { d with candidate := none } else d
  { w with dslock := d }

/-! ## `op_lock` / `op_unlock` -/

/-- The entry of the table a `struct nc_session **dsl` points to. -/
inductive dsl_ptr where
  | running
  | startup
  deriving DecidableEq, Repr

/-- Read through `dsl` (`*dsl`). -/
def dsl_ptr.get (p : dsl_ptr) (d : dslock_t) : Option nc_session :=
  match p with
  | .running => d.running
  | .startup => d.startup

/-- Write through `dsl` (`*dsl = v`). -/
def dsl_ptr.put (p : dsl_ptr) (v : Option nc_session) (d : dslock_t) : dslock_t :=
  match p with
  | .running => { d with running := v }
  | .startup => { d with startup := v }

/-- Target selection shared by `op_lock` and `op_unlock`: the `strcmp` chain on
`dsname`, giving the sysrepo handle `ds` and the table entry `dsl`; `none` is the
final `else` branch (the candidate branch is commented out in the source). -/
def lock_target (dsname : String) (sessions : np2sr_sessions) :
    Option (sr_session_ctx × dsl_ptr) :=
  if dsname = "running" then some (sessions.running, dsl_ptr.running)
  else if dsname = "startup" then some (sessions.startup, dsl_ptr.startup)
  else none

/-- Embedding of `op_lock`; `dsname` is the schema name of the node selected by
`/ietf-netconf:lock/target/*`. -/
def op_lock (sr : Backend) (dsname : String) (ncs : nc_session) (w : World) :
    nc_server_reply × World :=
  let sessions := ncs.data
  match lock_target dsname sessions with
  | none =>
    (.err (.typed .NC_ERR_INVALID_VALUE .NC_ERR_TYPE_PROT none), w)
  | some (ds, dsl) =>
    -- check under the read lock
    match dsl.get w.dslock with
    | some holder => (.err (.lock_denied holder.id), w)
    | none =>
      -- check again under the write lock
      match dsl.get w.dslock with
      | some holder => (.err (.lock_denied holder.id), w)
      | none =>
        let (rc, w1) := sr_do sr (.lock_datastore ds) w
        if rc ≠ .SR_ERR_OK then
          (.err (.lock_denied 0), w1)
        else
          (.ok, { w1 with dslock := dsl.put (some ncs) w1.dslock })

/-- Embedding of `op_unlock`; `dsname` is the schema name of the node selected by
`/ietf-netconf:unlock/target/*`. -/
def op_unlock (sr : Backend) (dsname : String) (ncs : nc_session) (w : World) :
    nc_server_reply × World :=
  let sessions := ncs.data
  match lock_target dsname sessions with
  | none =>
    (.err (.typed .NC_ERR_INVALID_VALUE .NC_ERR_TYPE_PROT none), w)
  | some (ds, dsl) =>
    match dsl.get w.dslock with
    | none =>
      (.err (.typed .NC_ERR_OP_FAILED .NC_ERR_TYPE_PROT none), w)
    | some holder =>
      if holder ≠ ncs then
        (.err (.lock_denied holder.id), w)
      else
        let (rc, w1) := sr_do sr (.unlock_datastore ds) w
        if rc ≠ .SR_ERR_OK then
          (.err (.lock_denied 0), w1)
        else
          (.ok, { w1 with dslock := dsl.put none w1.dslock })

/-! ## Sequential runs of lock and unlock requests -/

/-- The two requests handled by the lock manager. -/
inductive lock_req where
  | lock
  | unlock
  deriving DecidableEq, Repr

/-- One step of a run: session `ncs` sends `lock` or `unlock` for the datastore named `dsname`. -/
structure lock_step where
  req : lock_req
  dsname : String
  ncs : nc_session
  deriving DecidableEq, Repr

/-- Execute one step with `op_lock` or `op_unlock`. -/
def lock_step.exec (sr : Backend) (s : lock_step) (w : World) : nc_server_reply × World :=
  match s.req with
  | .lock => op_lock sr s.dsname s.ncs w
  | .unlock => op_unlock sr s.dsname s.ncs w

/-- Run the steps in order from world `w`; the result pairs every step with its reply. -/
def lock_run (sr : Backend) : List lock_step → World → List (lock_step × nc_server_reply)
  | [], _ => []
  | s :: rest, w => (s, (s.exec sr w).1) :: lock_run sr rest (s.exec sr w).2

/-- The world at start-up: empty lock table, no backend call made. -/
def World.init : World := ⟨dslock_init, []⟩

/-! ## Edit trees -/

/-- Modelled from the spec: the enumeration `NP2_EDIT_OP` of `operations.h`, which is not
among the sources; the spec gives the closed set none, merge, replace, create, delete,
remove. `NP2_EDIT_ERROR` is the negative member, the others are numbered from zero. -/
inductive NP2_EDIT_OP where
  | NP2_EDIT_ERROR
  | NP2_EDIT_NONE
  | NP2_EDIT_MERGE
  | NP2_EDIT_REPLACE
  | NP2_EDIT_CREATE
  | NP2_EDIT_DELETE
  | NP2_EDIT_REMOVE
  deriving DecidableEq, Repr

/-- Numeric value of an `NP2_EDIT_OP` enumerator. -/
def NP2_EDIT_OP.val : NP2_EDIT_OP → Int
  | .NP2_EDIT_ERROR => -1
  | .NP2_EDIT_NONE => 0
  | .NP2_EDIT_MERGE => 1
  | .NP2_EDIT_REPLACE => 2
  | .NP2_EDIT_CREATE => 3
  | .NP2_EDIT_DELETE => 4
  | .NP2_EDIT_REMOVE => 5

/-- Modelled from the spec: the enumeration `NP2_EDIT_DEFOP` of `operations.h`, which is not
among the sources; the spec gives the closed set merge, replace, none. -/
inductive NP2_EDIT_DEFOP where
  | NP2_EDIT_DEFOP_NONE
  | NP2_EDIT_DEFOP_MERGE
  | NP2_EDIT_DEFOP_REPLACE
  deriving DecidableEq, Repr

/-- The cast `(enum NP2_EDIT_OP) defop`: the enumerators of equal numeric value. -/
def NP2_EDIT_DEFOP.cast : NP2_EDIT_DEFOP → NP2_EDIT_OP
  | .NP2_EDIT_DEFOP_NONE => .NP2_EDIT_NONE
  | .NP2_EDIT_DEFOP_MERGE => .NP2_EDIT_MERGE
  | .NP2_EDIT_DEFOP_REPLACE => .NP2_EDIT_REPLACE

/-- Schema node types that the code distinguishes (`LYS_NODE`). -/
inductive LYS_NODE where
  | LYS_CONTAINER
  | LYS_LEAF
  | LYS_LEAFLIST
  | LYS_LIST
  | LYS_ANYXML
  | LYS_GROUPING
  | LYS_RPC
  | LYS_NOTIF
  | LYS_OTHER
  deriving DecidableEq, Repr

/-- Attribute of a data node (`struct lyd_attr`): name, name of its module, value. -/
structure lyd_attr where
  name : String
  module : String
  value : String
  deriving DecidableEq, Repr

/-- What the walk reads from one data node apart from its links: the name of
`lyd_node_module(iter)`, `schema->name`, `schema->nodetype`, whether a container has a
presence statement, `keys_size` of a list, `value_str` of a leaf, and the attributes. -/
structure lyd_info where
  module : String
  name : String
  nodetype : LYS_NODE
  presence : Bool
  keys_size : Nat
  value_str : String
  attr : List lyd_attr
  deriving DecidableEq, Repr

/-- Data tree in the shape of `struct lyd_node`: `null` is the `NULL` pointer, a node has
its own fields, its first child (`child`) and its following sibling (`next`). -/
inductive lyd_node where
  | null
  | node (info : lyd_info) (child : lyd_node) (next : lyd_node)
  deriving DecidableEq, Repr

/-- The value of the `default-operation` leaf; its type is the schema enumeration. -/
inductive defop_leaf where
  | merge
  | replace
  | none
  deriving DecidableEq, Repr

/-- What `lyd_parse_xml` made of the `config` anyxml: an error (`ly_errno` set) or a data
tree, `null` when the configuration is empty. -/
inductive parsed_config where
  | failed
  | tree (config : lyd_node)
  deriving DecidableEq, Repr

/-- The parts of an `edit-config` RPC that `op_editconfig` reads: the schema name of the
node under `target`, the `default-operation` leaf when present, and the parsed `config`
when a `config` node is present. The `test-option` leaf is never found by the lookup of
`test-otion`, and the value computed from it is only logged. -/
structure edit_rpc where
  target : String
  default_operation : Option defop_leaf
  config : Option parsed_config
  deriving DecidableEq, Repr

/-! ## `get_edit_op` -/

/-- The attribute loop of `get_edit_op`: the first `operation` attribute of module
`ietf-netconf` whose value is one of the five names decides; `merge` gives
`NP2_EDIT_REPLACE`. -/
def get_edit_op_attr : List lyd_attr → Option NP2_EDIT_OP
  | [] => none
  | attr :: rest =>
    if attr.name = "operation" ∧ attr.module = "ietf-netconf" then
      if attr.value = "create" then some .NP2_EDIT_CREATE
      else if attr.value = "delete" then some .NP2_EDIT_DELETE
      else if attr.value = "remove" then some .NP2_EDIT_REMOVE
      else if attr.value = "replace" then some .NP2_EDIT_REPLACE
      else if attr.value = "merge" then some .NP2_EDIT_REPLACE
      else get_edit_op_attr rest
    else get_edit_op_attr rest

/-- Embedding of `get_edit_op`. -/
def get_edit_op (node : lyd_info) (parentop : NP2_EDIT_OP) (defop : NP2_EDIT_DEFOP) :
    NP2_EDIT_OP :=
  match get_edit_op_attr node.attr with
  | some op => op
  | none => if parentop.val > 0 then parentop else defop.cast

/-! ## `op_editconfig` -/

/-- Local variables of the walk: the `op` array (as a map from index to content),
`op_index`, the text in `path` up to its terminator, and `missing_keys`. `path_index`
always equals the length of that text. -/
structure edit_state where
  op : Nat → NP2_EDIT_OP
  op_index : Nat
  path : List Char
  missing_keys : Nat

/-- The variable `path_index`. -/
def edit_state.path_index (st : edit_state) : Nat := st.path.length

/-- The statement group run when the walk leaves a node: `op_index--` and the cut of
`path` at its last `'/'` (`strrchr`), or to the empty string when there is none. -/
def edit_pop (st : edit_state) : edit_state :=
  { st with
    op_index := st.op_index - 1
    path := ((st.path.reverse.dropWhile (fun c => c ≠ '/')).drop 1).reverse }

/-- The three `sprintf` calls that maintain `path` for the node `iter` under `parent`. -/
def edit_path (parent : Option lyd_info) (iter : lyd_info) (missing_keys : Nat)
    (path : List Char) : List Char :=
  if parent.all (fun p => decide (iter.module ≠ p.module)) then
    path ++ '/' :: (iter.module.toList ++ ':' :: iter.name.toList)
  else if missing_keys ≠ 0 then
    path ++ '[' :: (iter.name.toList ++ '=' :: '\'' :: (iter.value_str.toList ++ ['\'', ']']))
  else
    path ++ '/' :: iter.name.toList

/-- The switch "apply change to sysrepo": the backend call for operation `op` on `path`;
`none` is the value `-1` that `ret` keeps when no call is made. -/
def edit_apply (sr : Backend) (ds : Option sr_session_ctx) (op : NP2_EDIT_OP)
    (path : List Char) (w : World) : Option sr_error_t × World :=
  match op with
  | .NP2_EDIT_MERGE | .NP2_EDIT_REPLACE =>
    let (rc, w1) := sr_do sr (.set_item ds (String.mk path) none .SR_EDIT_DEFAULT) w
    (some rc, w1)
  | .NP2_EDIT_CREATE =>
    let (rc, w1) := sr_do sr (.set_item ds (String.mk path) none .SR_EDIT_STRICT) w
    (some rc, w1)
  | .NP2_EDIT_DELETE =>
    let (rc, w1) := sr_do sr (.delete_item ds (String.mk path) .SR_EDIT_STRICT) w
    (some rc, w1)
  | .NP2_EDIT_REMOVE =>
    let (rc, w1) := sr_do sr (.delete_item ds (String.mk path) .SR_EDIT_DEFAULT) w
    (some rc, w1)
  | _ => (none, w)

/-- The switch "check the result": `none` lets the walk go on, otherwise the error of the
reply (`goto cleanup` with `e` set, or `goto internalerror`). -/
def edit_check (ret : Option sr_error_t) (path : List Char) : Option nc_server_error :=
  match ret with
  | none => none
  | some .SR_ERR_OK => none
  | some .SR_ERR_UNAUTHORIZED =>
    some (.typed .NC_ERR_ACCESS_DENIED .NC_ERR_TYPE_PROT (some (String.mk path)))
  | some .SR_ERR_DATA_EXISTS =>
    some (.typed .NC_ERR_DATA_EXISTS .NC_ERR_TYPE_PROT (some (String.mk path)))
  | some .SR_ERR_DATA_MISSING =>
    some (.typed .NC_ERR_DATA_MISSING .NC_ERR_TYPE_PROT (some (String.mk path)))
  | some (.SR_ERR_OTHER _) =>
    some (.typed .NC_ERR_OP_FAILED .NC_ERR_TYPE_APP none)

/-- The body of the loop for the node `iter` up to the label `dfs_continue`: the upkeep
of `op` and `path`, the switch on the node type, and, unless that switch jumps to
`dfs_continue`, the backend call and the check of its result. -/
def edit_visit (sr : Backend) (ds : Option sr_session_ctx) (defop : NP2_EDIT_DEFOP)
    (parent : Option lyd_info) (iter : lyd_info) (st : edit_state) (w : World) :
    Except nc_server_error edit_state × World :=
  let op_index := st.op_index + 1
  let cur := get_edit_op iter (st.op (op_index - 1)) defop
  let op := fun i => if i = op_index then cur else st.op i
  let path := edit_path parent iter st.missing_keys st.path
  let st1 : edit_state := { op := op, op_index := op_index, path := path,
                            missing_keys := st.missing_keys }
  let apply : Except nc_server_error edit_state × World :=
    match edit_apply sr ds cur path w with
    | (ret, w1) =>
      match edit_check ret path with
      | some e => (.error e, w1)
      | none => (.ok st1, w1)
  match iter.nodetype with
  | .LYS_CONTAINER =>
    -- both branches leave the switch by `break`
    if !iter.presence then apply else apply
  | .LYS_LEAF =>
    if st.missing_keys ≠ 0 then
      (.ok { st1 with missing_keys := st.missing_keys - 1, path := path ++ ['/'] }, w)
    else apply
  | .LYS_LIST => (.ok { st1 with missing_keys := iter.keys_size }, w)
  | _ => apply

/-- Whether `nodetype & (LYS_LEAF | LYS_LEAFLIST | LYS_ANYXML)` is non-zero. -/
def LYS_NODE.leaflike : LYS_NODE → Bool
  | .LYS_LEAF | .LYS_LEAFLIST | .LYS_ANYXML => true
  | _ => false

/-- The depth-first loop of `op_editconfig` from node `iter` on, where `parent` is
`iter->parent`: visit the node, walk its children unless it is leaf-like, leave the node
(`edit_pop`), and go on with `iter->next`. Reaching `null` with no node left is the end of
the loop; an error ends the walk at once. -/
def edit_walk (sr : Backend) (ds : Option sr_session_ctx) (defop : NP2_EDIT_DEFOP)
    (parent : Option lyd_info) :
    lyd_node → edit_state → World → Except nc_server_error edit_state × World
  | .null, st, w => (.ok st, w)
  | .node iter child next, st, w =>
    match edit_visit sr ds defop parent iter st w with
    | (.error e, w1) => (.error e, w1)
    | (.ok st1, w1) =>
      if iter.nodetype.leaflike then
        edit_walk sr ds defop parent next (edit_pop st1) w1
      else
        match edit_walk sr ds defop (some iter) child st1 w1 with
        | (.error e, w2) => (.error e, w2)
        | (.ok st2, w2) => edit_walk sr ds defop parent next (edit_pop st2) w2

/-- Embedding of `op_editconfig`. -/
def op_editconfig (sr : Backend) (rpc : edit_rpc) (ncs : nc_session) (w : World) :
    nc_server_reply × World :=
  let sessions := ncs.data
  -- target: `ds` is assigned for "running" only, there is no `else`
  let ds : Option sr_session_ctx :=
    if rpc.target = "running" then some sessions.running else none
  let defop : NP2_EDIT_DEFOP :=
    match rpc.default_operation with
    | some .merge => .NP2_EDIT_DEFOP_MERGE
    | some .replace => .NP2_EDIT_DEFOP_REPLACE
    | some .none => .NP2_EDIT_DEFOP_NONE
    | none => .NP2_EDIT_DEFOP_MERGE
  match rpc.config with
  | none => (.err (.typed .NC_ERR_OP_FAILED .NC_ERR_TYPE_APP none), w)
  | some .failed => (.err .libyang, w)
  | some (.tree .null) => (.ok, w)
  | some (.tree config) =>
    let st0 : edit_state :=
      { op := fun _ => .NP2_EDIT_NONE, op_index := 0, path := [], missing_keys := 0 }
    match edit_walk sr ds defop none config st0 w with
    | (.error e, w1) => (.err e, w1)
    | (.ok _, w1) => (.ok, w1)

/-! ## Schema registry -/

/-- Top-level schema node of a module (`struct lys_node`): name and node type. -/
structure lys_node where
  name : String
  nodetype : LYS_NODE
  deriving DecidableEq, Repr

/-- Schema module (`struct lys_module`): name, namespace and the top-level schema nodes
reached through `module->data`. -/
structure lys_module where
  name : String
  ns : String
  data : List lys_node
  deriving DecidableEq, Repr

/-- Schema registry (`struct ly_ctx`): its modules in the order in which
`ly_ctx_get_module_iter` enumerates them. -/
structure ly_ctx where
  modules : List lys_module
  deriving DecidableEq, Repr

/-- The lookup `ly_ctx_get_module_by_ns(ctx, ns, NULL)`: the module with that namespace. -/
def ly_ctx_get_module_by_ns (ctx : ly_ctx) (ns : String) : Option lys_module :=
  ctx.modules.find? (fun m => m.ns = ns)

/-- The nodes enumerated by `lys_getnext(node, NULL, module, 0)`: the top-level nodes of
the module, groupings left out. -/
def lys_getnext_all (m : lys_module) : List lys_node :=
  m.data.filter (fun n => n.nodetype ≠ .LYS_GROUPING)

/-! ## XML filter trees -/

/-- XML attribute (`struct lyxml_attr`): `std` tells `type == LYXML_ATTR_STD`, `ns` is
`ns->value` when the attribute has a namespace. -/
structure lyxml_attr where
  std : Bool
  ns : Option String
  name : String
  value : String
  deriving DecidableEq, Repr

/-- Fields of an XML element other than its links: name, `ns->value` when the element has
a namespace, attributes and text content. -/
structure lyxml_info where
  name : String
  ns : Option String
  attr : List lyxml_attr
  content : Option String
  deriving DecidableEq, Repr

/-- XML tree in the shape of `struct lyxml_elem`: `null` is `NULL`, an element has its own
fields, its first child and its following sibling. -/
inductive lyxml_elem where
  | null
  | node (info : lyxml_info) (child : lyxml_elem) (next : lyxml_elem)
  deriving DecidableEq, Repr

/-- The NETCONF base namespace the code compares element namespaces with. -/
def NC_NS_BASE : String := "urn:ietf:params:xml:ns:netconf:base:1.0"

/-! ## Subtree filter compiler -/

/-- The C library predicate `isspace` in the "C" locale: space and the characters
`\t \n \v \f \r`. -/
def isspace (c : Char) : Bool :=
  c.toNat = 32 || (9 ≤ c.toNat && c.toNat ≤ 13)

/-- Embedding of `strws`: true when every character of the string is white space. -/
def strws : List Char → Bool
  | [] => true
  | c :: str => if !isspace c then false else strws str

/-- The test `!elem->child && elem->content && !strws(elem->content)` that selects
content-match nodes, used on top-level elements and on children. -/
def content_match (e : lyxml_info) (child : lyxml_elem) : Bool :=
  child = .null && (match e.content with
    | none => false
    | some content => !strws content.toList)

/-- The loop `for (start = content; isspace(*start); ++start)`: the text at `start`. -/
def skip_ws : List Char → List Char
  | [] => []
  | c :: str => if isspace c then skip_ws str else c :: str

/-- The loop `for (len = strlen(start); isspace(start[len - 1]); --len)` started at
`len`: the final `len`, or `none` when the loop comes to read `start[-1]`. -/
def trim_len (start : List Char) : Nat → Option Nat
  | 0 => none
  | len + 1 =>
    match start.get? len with
    | some c => if isspace c then trim_len start len else some (len + 1)
    | none => some (len + 1)

/-- The text `%.*s` printed for a content: `len` characters from `start`. A loop that
would leave the string counts as length 0; it does not occur for a content-match node. -/
def trimmed (content : String) : List Char :=
  let start := skip_ws content.toList
  start.take ((trim_len start start.length).getD 0)

/-- The effect of `sprintf(buf + off, text)` on the string held in `buf`: the text replaces
everything from offset `off`; an offset beyond the terminator leaves the string as it is. -/
def sprintf_at (buf : List Char) (off : Nat) (text : List Char) : List Char :=
  if off ≤ buf.length then buf.take off ++ text else buf

/-- Embedding of `xpath_add_filter`: the buffer becomes the last entry of `filters`. -/
def xpath_add_filter (new_filter : List Char) (filters : List String) : List String :=
  filters ++ [String.mk new_filter]

/-- Embedding of `xpath_buf_add_attrs`: the returned size and the buffer. -/
def xpath_buf_add_attrs (ctx : ly_ctx) :
    List lyxml_attr → List Char → Nat → Nat × List Char
  | [], buf, size => (size, buf)
  | next :: rest, buf, size =>
    if next.std then
      match next.ns.bind (ly_ctx_get_module_by_ns ctx) with
      | none => xpath_buf_add_attrs ctx rest buf size
      | some module =>
        let new_size := size + 2 + module.name.length + 1 + next.name.length + 2
          + next.value.length + 2
        let buf := sprintf_at buf (size - 1)
          ('[' :: '@' :: (module.name.toList ++ ':' :: (next.name.toList
            ++ '=' :: '\'' :: (next.value.toList ++ ['\'', ']']))))
        xpath_buf_add_attrs ctx rest buf new_size
    else xpath_buf_add_attrs ctx rest buf size

/-- Embedding of `xpath_buf_add_top_content`: the list of filters after the call. -/
def xpath_buf_add_top_content (ctx : ly_ctx) (elem : lyxml_info) (elem_module_name : String)
    (filters : List String) : List String :=
  let text := trimmed (elem.content.getD "")
  let len := text.length
  let size := 1 + elem_module_name.length + 1 + elem.name.length + 9 + len + 3
  let buf := '/' :: (elem_module_name.toList ++ ':' :: (elem.name.toList
    ++ "[text()='".toList ++ text ++ ['\'', ']']))
  match xpath_buf_add_attrs ctx elem.attr buf size with
  | (0, _) => filters
  | (_, buf) => xpath_add_filter buf filters

/-- The namespace step shared by `xpath_buf_add_content` and `xpath_buf_add_node`: `none`
when the namespace of the element is looked up and names no module, otherwise the module
name to print (if any) and the value of `*last_ns`. Namespace strings are compared by
value, as equal strings of one context are one dictionary entry. -/
def xpath_resolve (ctx : ly_ctx) (elem : lyxml_info) (elem_module_name : Option String)
    (last_ns : String) : Option (Option String × String) :=
  match elem_module_name, elem.ns with
  | none, some ns =>
    if ns ≠ last_ns ∧ ns ≠ NC_NS_BASE then
      match ly_ctx_get_module_by_ns ctx ns with
      | none => none
      | some module => some (some module.name, ns)
    else some (none, last_ns)
  | emn, _ => some (emn, last_ns)

/-- The text `%s%s%s` printed for a step: the module name and a colon when there is a
module name, then the element name. -/
def xpath_step_text (elem_module_name : Option String) (name : String) : List Char :=
  match elem_module_name with
  | some m => m.toList ++ ':' :: name.toList
  | none => name.toList

/-- The term `1 + (elem_module_name ? strlen(elem_module_name) + 1 : 0) + strlen(name)`. -/
def xpath_step_size (elem_module_name : Option String) (name : String) : Nat :=
  1 + (match elem_module_name with
    | some m => m.length + 1
    | none => 0) + name.length

/-- Embedding of `xpath_buf_add_content`: the returned size (0 when the branch is to be
dropped), the buffer and `*last_ns`. -/
def xpath_buf_add_content (ctx : ly_ctx) (elem : lyxml_info)
    (elem_module_name : Option String) (last_ns : String) (buf : List Char) (size : Nat) :
    Nat × List Char × String :=
  match xpath_resolve ctx elem elem_module_name last_ns with
  | none => (0, buf, last_ns)
  | some (elem_module_name, last_ns) =>
    let new_size := size + xpath_step_size elem_module_name elem.name
    let buf := sprintf_at buf (size - 1) ('[' :: xpath_step_text elem_module_name elem.name)
    match xpath_buf_add_attrs ctx elem.attr buf new_size with
    | (0, buf) => (0, buf, last_ns)
    | (size, buf) =>
      let text := trimmed (elem.content.getD "")
      let new_size := size + 2 + text.length + 2
      let buf := sprintf_at buf (size - 1) ('=' :: '\'' :: (text ++ ['\'', ']']))
      (new_size, buf, last_ns)

/-- Embedding of `xpath_buf_add_node`: the returned size (0 when the branch is to be
dropped), the buffer and `*last_ns`. -/
def xpath_buf_add_node (ctx : ly_ctx) (elem : lyxml_info)
    (elem_module_name : Option String) (last_ns : String) (buf : List Char) (size : Nat) :
    Nat × List Char × String :=
  match xpath_resolve ctx elem elem_module_name last_ns with
  | none => (0, buf, last_ns)
  | some (elem_module_name, last_ns) =>
    let new_size := size + xpath_step_size elem_module_name elem.name
    let buf := sprintf_at buf (size - 1) ('/' :: xpath_step_text elem_module_name elem.name)
    match xpath_buf_add_attrs ctx elem.attr buf new_size with
    | (size, buf) => (size, buf, last_ns)

/-- The first loop of `xpath_buf_add` over the children from `child` on: every
content-match child is printed with `xpath_buf_add_content` and then freed. The result is
the size (0 when a content returned 0, which ends the loop), the buffer, `last_ns`, and
the children that are left in the tree. -/
def xpath_content_loop (ctx : ly_ctx) (elem_module_name : Option String) :
    lyxml_elem → String → List Char → Nat → Nat × List Char × String × lyxml_elem
  | .null, last_ns, buf, size => (size, buf, last_ns, .null)
  | .node child cc next, last_ns, buf, size =>
    if content_match child cc then
      match xpath_buf_add_content ctx child elem_module_name last_ns buf size with
      | (0, buf, last_ns) => (0, buf, last_ns, .node child cc next)
      | (size, buf, last_ns) =>
        xpath_content_loop ctx elem_module_name next last_ns buf size
    else
      match xpath_content_loop ctx elem_module_name next last_ns buf size with
      | (size, buf, last_ns, rest) => (size, buf, last_ns, .node child cc rest)

/-- The start of `xpath_buf_add` for the element `elem` with first child `child`: the step
of the element, then the first loop. The size is 0 when the call ends with `return 0`
before any filter is added. -/
def xpath_buf_add_head (ctx : ly_ctx) (elem : lyxml_info) (child : lyxml_elem)
    (elem_module_name : Option String) (last_ns : String) (buf : List Char) (size : Nat) :
    Nat × List Char × String × lyxml_elem :=
  match xpath_buf_add_node ctx elem elem_module_name last_ns buf size with
  | (0, buf, last_ns) => (0, buf, last_ns, child)
  | (size, buf, last_ns) => xpath_content_loop ctx elem_module_name child last_ns buf size

/-- The second loop of `xpath_buf_add` over the children from `child` on, together with
the calls of `xpath_buf_add` it makes for children that have children. `buf`, `size` are
the path of the parent, copied for every child. The result is the list of filters, the
value of the parent's `last_ns` after the loop and the children as the calls leave them.
A content-match child met here has been freed by the first loop and is passed over:
the loop gives the same result on the chain with and without these children
(`xpath_branch_unlink`). -/
def xpath_branch (ctx : ly_ctx) :
    lyxml_elem → String → List Char → Nat → List String → List String × String × lyxml_elem
  | .null, last_ns, _, _, filters => (filters, last_ns, .null)
  | .node child cc next, last_ns, buf, size, filters =>
    if content_match child cc then
      xpath_branch ctx next last_ns buf size filters
    else if cc ≠ .null then
      -- child containment node: `xpath_buf_add(ctx, child, NULL, last_ns, &buf_new, ...)`
      match xpath_buf_add_head ctx child cc none last_ns buf size with
      | (0, _, _, cc1) =>
        match xpath_branch ctx next last_ns buf size filters with
        | (filters, last_ns, rest) => (filters, last_ns, .node child cc1 rest)
      | (size1, buf1, last_ns1, cc1) =>
        if cc1 = .null then
          match xpath_branch ctx next last_ns buf size (xpath_add_filter buf1 filters) with
          | (filters, last_ns, rest) => (filters, last_ns, .node child .null rest)
        else
          match xpath_branch ctx cc last_ns1 buf1 size1 filters with
          | (filters, _, cc2) =>
            match xpath_branch ctx next last_ns buf size filters with
            | (filters, last_ns, rest) => (filters, last_ns, .node child cc2 rest)
    else
      -- child selection node
      match xpath_buf_add_node ctx child none last_ns buf size with
      | (0, _, _) =>
        match xpath_branch ctx next last_ns buf size filters with
        | (filters, last_ns, rest) => (filters, last_ns, .node child cc rest)
      | (_, buf_new, last_ns) =>
        match xpath_branch ctx next last_ns buf size (xpath_add_filter buf_new filters) with
        | (filters, last_ns, rest) => (filters, last_ns, .node child cc rest)

/-- Embedding of `xpath_buf_add` for the element `elem` with first child `child`: the
filters after the call and the children of the element as the call leaves them. -/
def xpath_buf_add (ctx : ly_ctx) (elem : lyxml_info) (child : lyxml_elem)
    (elem_module_name : Option String) (last_ns : String) (buf : List Char) (size : Nat)
    (filters : List String) : List String × lyxml_elem :=
  match xpath_buf_add_head ctx elem child elem_module_name last_ns buf size with
  | (0, _, _, child1) => (filters, child1)
  | (size1, buf1, last_ns1, child1) =>
    if child1 = .null then
      (xpath_add_filter buf1 filters, .null)
    else
      match xpath_branch ctx child last_ns1 buf1 size1 filters with
      | (filters, _, child2) => (filters, child2)

/-- The modules a top-level filter element is compiled for: the module of its namespace
(`none` when the namespace names no module, the element is then passed over), or, without
a namespace or with the base namespace, every module with a top-level node of that name. -/
def filter_modules (ctx : ly_ctx) (next : lyxml_info) : Option (List lys_module) :=
  match next.ns with
  | some ns =>
    if ns ≠ NC_NS_BASE then
      match ly_ctx_get_module_by_ns ctx ns with
      | none => none
      | some module => some [module]
    else some (ctx.modules.filter (fun module =>
      (lys_getnext_all module).any (fun node => node.name = next.name)))
  | none => some (ctx.modules.filter (fun module =>
      (lys_getnext_all module).any (fun node => node.name = next.name)))

/-- The loop `for (i = 0; i < module_count; ++i)` of `build_xpath_from_subtree_filter`
for the element `next`, whose children are `child` when the loop starts. -/
def filter_fanout (ctx : ly_ctx) (next : lyxml_info) :
    List lys_module → lyxml_elem → List String → List String
  | [], _, filters => filters
  | module :: modules, child, filters =>
    if content_match next child then
      filter_fanout ctx next modules child
        (xpath_buf_add_top_content ctx next module.name filters)
    else
      match xpath_buf_add ctx next child (some module.name) module.ns [] 1 filters with
      | (filters, child1) => filter_fanout ctx next modules child1 filters

/-- The loop of `build_xpath_from_subtree_filter` over the top-level elements. -/
def build_xpath_loop (ctx : ly_ctx) : lyxml_elem → List String → List String
  | .null, filters => filters
  | .node next child rest, filters =>
    match filter_modules ctx next with
    | none => build_xpath_loop ctx rest filters
    | some modules => build_xpath_loop ctx rest (filter_fanout ctx next modules child filters)

/-- Embedding of `build_xpath_from_subtree_filter`: the return value, which is 0 as no
allocation fails, and the filters. -/
def build_xpath_from_subtree_filter (ctx : ly_ctx) (elem : lyxml_elem)
    (filters : List String) : Int × List String :=
  (0, build_xpath_loop ctx elem filters)

/-! ## `op_get`: creation of the filters -/

/-- Value of the `filter` anyxml node: no value at all, a string that
`lyxml_parse_mem` rejects, or an XML tree. -/
inductive filter_value where
  | empty
  | unparsable
  | xml (elem : lyxml_elem)
  deriving DecidableEq, Repr

/-- The `filter` node of a `get` / `get-config` RPC: its attributes and its value. -/
structure get_filter where
  attr : List lyd_attr
  value : filter_value
  deriving DecidableEq, Repr

/-- How the block "create filters" of `op_get` ends: `goto error`, `goto send_reply`, or
the list `filters` with which the function goes on. -/
inductive get_filters where
  | error
  | send_reply
  | filters (l : List String)
  deriving DecidableEq, Repr

/-- The loop over the attributes of the filter node that looks for `type`: the value of
`attr` after it (`none` for a subtree filter, the `select` attribute for an XPath filter),
or an error when an XPath filter has no `select`. `all` is the whole attribute list. -/
def op_get_filter_attr (all : List lyd_attr) : List lyd_attr → Except Unit (Option lyd_attr)
  | [] => .ok none
  | attr :: rest =>
    if attr.name = "type" then
      if attr.value = "xpath" then
        match all.find? (fun a => a.name = "select") with
        | none => .error ()
        | some select => .ok (some select)
      else if attr.value = "subtree" then .ok none
      else op_get_filter_attr all rest
    else op_get_filter_attr all rest

/-- The loop of `op_get` over the modules of the context when the RPC has no filter: a
module gets the filter `/name:*` when the search through `module->data` stops at a node
that is not a grouping, notification or RPC. -/
def op_get_module_filters : List lys_module → List String → List String
  | [], filters => filters
  | module :: rest, filters =>
    match module.data.find? (fun snode =>
      !(snode.nodetype = .LYS_GROUPING || snode.nodetype = .LYS_NOTIF
        || snode.nodetype = .LYS_RPC)) with
    | some _ =>
      op_get_module_filters rest
        (xpath_add_filter ('/' :: (module.name.toList ++ [':', '*'])) filters)
    | none => op_get_module_filters rest filters

/-- The block "create filters" of `op_get`, from the lookup of the `filter` node to the
comment "get with-defaults mode"; `filters` is empty on entry. -/
def op_get_create_filters (ctx : ly_ctx) (filter : Option get_filter) : get_filters :=
  match filter with
  | some node =>
    match op_get_filter_attr node.attr node.attr with
    | .error _ => .error
    | .ok none =>
      match node.value with
      | .empty => .send_reply
      | .unparsable => .error
      | .xml subtree_filter =>
        match build_xpath_from_subtree_filter ctx subtree_filter [] with
        | (0, filters) => .filters filters
        | (_, _) => .error
    | .ok (some attr) =>
      if attr.value = "" then .send_reply
      else .filters (xpath_add_filter attr.value.toList [])
  | none => .filters (op_get_module_filters ctx.modules [])

/-! ## Concrete objects used in examples -/

/-- A backend that accepts every call. -/
def sr_ok : Backend := fun _ _ => .SR_ERR_OK

/-- A backend that refuses every call with a status the code does not single out. -/
def sr_fail : Backend := fun _ _ => .SR_ERR_OTHER 1

/-- First example session, id 1. -/
def ex_S1 : nc_session := ⟨1000, 1, ⟨10, 11, 12, 13⟩⟩

/-- Second example session, id 2. -/
def ex_S2 : nc_session := ⟨2000, 2, ⟨20, 21, 22, 23⟩⟩

/-- A world in which `ex_S1` holds the lock of running. -/
def ex_world_S1_running : World := ⟨⟨some ex_S1, none, none⟩, []⟩

/-- A world in which `ex_S1` holds running and `ex_S2` holds startup and candidate. -/
def ex_world_mixed : World := ⟨⟨some ex_S1, some ex_S2, some ex_S2⟩, []⟩

/-- The contention scenario: `S1` locks running, `S2` tries, `S1` unlocks, `S2` retries. -/
def ex_contention (S1 S2 : nc_session) : List lock_step :=
  [⟨.lock, "running", S1⟩, ⟨.lock, "running", S2⟩, ⟨.unlock, "running", S1⟩,
   ⟨.lock, "running", S2⟩]

/-- An edit tree made of the single leaf `x` of module `ex` with value `1`. -/
def ex_leaf_x : lyd_node := .node ⟨"ex", "x", .LYS_LEAF, false, 0, "1", []⟩ .null .null

/-- An `edit-config` request on running carrying `ex_leaf_x`. -/
def ex_rpc_running : edit_rpc := ⟨"running", none, some (.tree ex_leaf_x)⟩

/-- The entry of the lock table for the datastore named `D`; empty for any other name. -/
def dslock_t.entry (d : dslock_t) (D : String) : Option nc_session :=
  if D = "running" then d.running
  else if D = "startup" then d.startup
  else if D = "candidate" then d.candidate
  else none

/-! ## Reference definitions used to state properties of the filter compiler -/

/-- The predicate text an attribute contributes: `[@mod:name='value']` for a standard
attribute whose namespace names the module `mod`, nothing otherwise. -/
def attr_predicate (ctx : ly_ctx) (a : lyxml_attr) : List Char :=
  if a.std then
    match a.ns.bind (ly_ctx_get_module_by_ns ctx) with
    | some m => "[@".toList ++ m.name.toList ++ ":".toList ++ a.name.toList ++ "='".toList
        ++ a.value.toList ++ "']".toList
    | none => []
  else []

/-- The predicate texts of a list of attributes, in attribute order. -/
def attrs_text (ctx : ly_ctx) : List lyxml_attr → List Char
  | [] => []
  | a :: rest => attr_predicate ctx a ++ attrs_text ctx rest

/-! ## Example filters and registries -/

/-- An XML element without attributes, to write examples with. -/
def xml_elem (name : String) (ns : Option String) (content : Option String)
    (child next : lyxml_elem) : lyxml_elem :=
  .node ⟨name, ns, [], content⟩ child next

/-- A registry with the modules `ex` (namespace `urn:ex`) and `other` (namespace
`urn:other`), each with a top-level container `top`. -/
def ex_ctx : ly_ctx :=
  ⟨[⟨"ex", "urn:ex", [⟨"top", .LYS_CONTAINER⟩]⟩,
    ⟨"other", "urn:other", [⟨"top", .LYS_CONTAINER⟩]⟩]⟩

/-- The filter `<top xmlns="urn:ex"><a><b>7</b></a></top>`. -/
def ex_filter_content : lyxml_elem :=
  xml_elem "top" (some "urn:ex") none
    (xml_elem "a" (some "urn:ex") none
      (xml_elem "b" (some "urn:ex") (some "7") .null .null) .null) .null

/-- The filter `<top xmlns="urn:ex"><a/><b/></top>`. -/
def ex_filter_branch : lyxml_elem :=
  xml_elem "top" (some "urn:ex") none
    (xml_elem "a" (some "urn:ex") none .null
      (xml_elem "b" (some "urn:ex") none .null .null)) .null

/-- A chain of empty sibling elements with the given names, all in namespace `ns`. -/
def selection_chain (ns : String) : List String → lyxml_elem
  | [] => .null
  | name :: rest => xml_elem name (some ns) none .null (selection_chain ns rest)

/-! ## Size-free reading of the filter compiler -/

/-- The children left in a sibling chain once every content-match element is unlinked. -/
def lyxml_unlink_content : lyxml_elem → lyxml_elem
  | .null => .null
  | .node c cc next =>
    if content_match c cc then lyxml_unlink_content next
    else .node c cc (lyxml_unlink_content next)

/-- Size-free reading of the first loop of `xpath_buf_add`: the predicates appended for the
content-match children of a sibling chain and the final `last_ns`, or `none` when a
content-match child has a namespace that names no module. -/
def content_preds (ctx : ly_ctx) (elem_module_name : Option String) :
    lyxml_elem → String → Option (List Char × String)
  | .null, last_ns => some ([], last_ns)
  | .node c cc next, last_ns =>
    if content_match c cc then
      match xpath_resolve ctx c elem_module_name last_ns with
      | none => none
      | some (emn1, ns1) =>
        match content_preds ctx elem_module_name next ns1 with
        | none => none
        | some (t, ns2) =>
          some ('[' :: xpath_step_text emn1 c.name ++ attrs_text ctx c.attr
            ++ '=' :: '\'' :: (trimmed (c.content.getD "") ++ ['\'', ']']) ++ t, ns2)
    else content_preds ctx elem_module_name next last_ns

/-- Size-free reading of the second loop of `xpath_buf_add` (`xpath_branch`): the filters
it adds for a sibling chain under the path `buf`, and the final `last_ns`. -/
def xpath_branch_ref (ctx : ly_ctx) :
    lyxml_elem → String → List Char → List String × String
  | .null, last_ns, _ => ([], last_ns)
  | .node c cc next, last_ns, buf =>
    if content_match c cc then xpath_branch_ref ctx next last_ns buf
    else if cc ≠ .null then
      match xpath_resolve ctx c none last_ns with
      | none => xpath_branch_ref ctx next last_ns buf
      | some (emn1, ns1) =>
        match content_preds ctx none cc ns1 with
        | none => xpath_branch_ref ctx next last_ns buf
        | some (t, ns2) =>
          if lyxml_unlink_content cc = .null then
            (String.mk (buf ++ '/' :: xpath_step_text emn1 c.name ++ attrs_text ctx c.attr ++ t)
              :: (xpath_branch_ref ctx next last_ns buf).1,
             (xpath_branch_ref ctx next last_ns buf).2)
          else
            ((xpath_branch_ref ctx cc ns2
                (buf ++ '/' :: xpath_step_text emn1 c.name ++ attrs_text ctx c.attr ++ t)).1
              ++ (xpath_branch_ref ctx next last_ns buf).1,
             (xpath_branch_ref ctx next last_ns buf).2)
    else
      match xpath_resolve ctx c none last_ns with
      | none => xpath_branch_ref ctx next last_ns buf
      | some (emn1, ns1) =>
        (String.mk (buf ++ '/' :: xpath_step_text emn1 c.name ++ attrs_text ctx c.attr)
          :: (xpath_branch_ref ctx next ns1 buf).1,
         (xpath_branch_ref ctx next ns1 buf).2)

/-- Size-free reading of `xpath_buf_add`: the filters it adds for the element `elem` with
children `child` under the path `buf`. -/
def xpath_buf_add_ref (ctx : ly_ctx) (elem : lyxml_info) (child : lyxml_elem)
    (elem_module_name : Option String) (last_ns : String) (buf : List Char) : List String :=
  match xpath_resolve ctx elem elem_module_name last_ns with
  | none => []
  | some (emn1, ns1) =>
    match content_preds ctx elem_module_name child ns1 with
    | none => []
    | some (t, ns2) =>
      if lyxml_unlink_content child = .null then
        [String.mk (buf ++ '/' :: xpath_step_text emn1 elem.name ++ attrs_text ctx elem.attr
          ++ t)]
      else
        (xpath_branch_ref ctx child ns2
          (buf ++ '/' :: xpath_step_text emn1 elem.name ++ attrs_text ctx elem.attr ++ t)).1

/-! ## Resolvable filters -/

/-- Whether the namespace of an element can be resolved: the element has none, or the
base namespace, or a namespace that names a module of the registry. -/
def ns_resolvable (ctx : ly_ctx) (e : lyxml_info) : Bool :=
  match e.ns with
  | none => true
  | some ns => ns = NC_NS_BASE || (ly_ctx_get_module_by_ns ctx ns).isSome

/-- Whether every element of a sibling chain and every descendant of it has a namespace
that can be resolved. -/
def lyxml_resolvable (ctx : ly_ctx) : lyxml_elem → Bool
  | .null => true
  | .node e cc next => ns_resolvable ctx e && lyxml_resolvable ctx cc && lyxml_resolvable ctx next

/-- The elements of a sibling chain, each with its first child. -/
def lyxml_siblings : lyxml_elem → List (lyxml_info × lyxml_elem)
  | .null => []
  | .node e cc next => (e, cc) :: lyxml_siblings next

/-- The filter `<top xmlns="urn:ex"><a xmlns="urn:unknown"/></top>`. -/
def ex_filter_unknown_ns : lyxml_elem :=
  xml_elem "top" (some "urn:ex") none (xml_elem "a" (some "urn:unknown") none .null .null)
    .null

/-- The filter `<top><b> 7 </b><c/></top>` without namespaces. -/
def ex_filter_fanout : lyxml_elem :=
  xml_elem "top" none none
    (xml_elem "b" none (some " 7 ") .null (xml_elem "c" none none .null .null)) .null

/-! ## Reference definitions for `op_get` and for white space -/

/-- Whether a module has a top-level schema node that is not a grouping, RPC or
notification. -/
def lys_module.has_data (m : lys_module) : Bool :=
  m.data.any (fun n => n.nodetype ≠ .LYS_GROUPING && n.nodetype ≠ .LYS_RPC
    && n.nodetype ≠ .LYS_NOTIF)

/-- A registry with the module `m1` (a data container) and the module `m2` (an RPC only). -/
def ex_ctx_get : ly_ctx :=
  ⟨[⟨"m1", "urn:m1", [⟨"c", .LYS_CONTAINER⟩]⟩, ⟨"m2", "urn:m2", [⟨"r", .LYS_RPC⟩]⟩]⟩

/-- A character list with every leading and every trailing white-space character removed. -/
def strip_ws (l : List Char) : List Char :=
  ((l.dropWhile isspace).reverse.dropWhile isspace).reverse

/-- The element with its content taken away when the content is empty or all white space. -/
def lyxml_info.blank (e : lyxml_info) : lyxml_info :=
  match e.content with
  | some s => if strws s.toList then { e with content := none } else e
  | none => e

/-- The tree in which every element whose content is empty or all white space has no
content. -/
def lyxml_blank : lyxml_elem → lyxml_elem
  | .null => .null
  | .node e cc next => .node e.blank (lyxml_blank cc) (lyxml_blank next)

/-! ## The edit walk with a record of its visits -/

/-- The state of the walk right after the upkeep of `op` and `path` for the node `iter`:
`op_index` is incremented, `op[op_index]` holds the result of `get_edit_op`, and the step
of the node is printed into `path`. -/
def edit_enter (defop : NP2_EDIT_DEFOP) (parent : Option lyd_info) (iter : lyd_info)
    (st : edit_state) : edit_state :=
  { op := fun i =>
      if i = st.op_index + 1 then get_edit_op iter (st.op (st.op_index + 1 - 1)) defop
      else st.op i
    op_index := st.op_index + 1
    path := edit_path parent iter st.missing_keys st.path
    missing_keys := st.missing_keys }

/-- What is noted down when the walk visits a node: the node followed by its ancestors up
to the root, the operation in `op[op_index]` after the upkeep, and the text of `path`
after the upkeep. -/
structure edit_visit_rec where
  chain : List lyd_info
  op : NP2_EDIT_OP
  path : List Char
  deriving DecidableEq, Repr

/-- The walk `edit_walk` with a record of the visits: `anc` holds the ancestors of the
nodes of the chain, nearest first, so that `iter->parent` is its head. The first component
lists the visits in the order in which they happen, the second is the result of the
walk. -/
def edit_walk_log (sr : Backend) (ds : Option sr_session_ctx) (defop : NP2_EDIT_DEFOP)
    (anc : List lyd_info) :
    lyd_node → edit_state → World →
      List edit_visit_rec × (Except nc_server_error edit_state × World)
  | .null, st, w => ([], (.ok st, w))
  | .node iter child next, st, w =>
    let visit : edit_visit_rec :=
      ⟨iter :: anc, (edit_enter defop anc.head? iter st).op
        (edit_enter defop anc.head? iter st).op_index,
        (edit_enter defop anc.head? iter st).path⟩
    match edit_visit sr ds defop anc.head? iter st w with
    | (.error e, w1) => ([visit], (.error e, w1))
    | (.ok st1, w1) =>
      if iter.nodetype.leaflike then
        match edit_walk_log sr ds defop anc next (edit_pop st1) w1 with
        | (l, r) => (visit :: l, r)
      else
        match edit_walk_log sr ds defop (iter :: anc) child st1 w1 with
        | (l1, (.error e, w2)) => (visit :: l1, (.error e, w2))
        | (l1, (.ok st2, w2)) =>
          match edit_walk_log sr ds defop anc next (edit_pop st2) w2 with
          | (l2, r) => (visit :: (l1 ++ l2), r)

/-- The initial values of the local variables of `op_editconfig`: `op[0]` is
`NP2_EDIT_NONE`, `op_index` and `path_index` are 0, `path` is empty. -/
def edit_state_init : edit_state :=
  { op := fun _ => .NP2_EDIT_NONE, op_index := 0, path := [], missing_keys := 0 }

/-- The operation an attribute names: an `operation` attribute of the module
`ietf-netconf` with value create, delete, remove or replace names that operation, and
merge is taken as replace. -/
def attr_edit_op (a : lyd_attr) : Option NP2_EDIT_OP :=
  if a.name = "operation" ∧ a.module = "ietf-netconf" then
    if a.value = "create" then some .NP2_EDIT_CREATE
    else if a.value = "delete" then some .NP2_EDIT_DELETE
    else if a.value = "remove" then some .NP2_EDIT_REMOVE
    else if a.value = "replace" then some .NP2_EDIT_REPLACE
    else if a.value = "merge" then some .NP2_EDIT_REPLACE
    else none
  else none

/-- The operation a node carries: the one named by the first of its attributes that names
one. -/
def node_edit_op (n : lyd_info) : Option NP2_EDIT_OP :=
  n.attr.findSome? attr_edit_op

/-- The effective operation of a node given with its ancestors, nearest first: the
operation carried by the nearest node of the chain that carries one, the default operation
when none does. -/
def effective_op (d : NP2_EDIT_DEFOP) : List lyd_info → NP2_EDIT_OP
  | [] => d.cast
  | n :: anc =>
    match node_edit_op n with
    | some op => op
    | none => effective_op d anc

/-- An edit tree `<c nc:operation="delete"><l>1</l><m nc:operation="merge"/></c><x>1</x>`
of module `ex`: a container with a leaf and a leaf carrying its own operation, followed
by a leaf at the root. -/
def ex_edit_tree : lyd_node :=
  .node ⟨"ex", "c", .LYS_CONTAINER, true, 0, "", [⟨"operation", "ietf-netconf", "delete"⟩]⟩
    (.node ⟨"ex", "l", .LYS_LEAF, false, 0, "1", []⟩ .null
      (.node ⟨"ex", "m", .LYS_LEAF, false, 0, "2", [⟨"operation", "ietf-netconf", "merge"⟩]⟩
        .null .null))
    (.node ⟨"ex", "x", .LYS_LEAF, false, 0, "1", []⟩ .null .null)

/-! ## Backend calls of the edit walk -/

/-- The path argument of an item call. -/
def sr_call.path : sr_call → Option String
  | .set_item _ path _ _ => some path
  | .delete_item _ path _ => some path
  | _ => none

/-- The statuses the backend `sr` returns for the calls `cs` made in this order after the
calls `base`. -/
def calls_status (sr : Backend) : List sr_call → List sr_call → List sr_error_t
  | _, [] => []
  | base, c :: cs => sr base c :: calls_status sr (base ++ [c]) cs

/-- The error reply for a backend status other than OK, as the error table gives it:
access-denied, data-exists and data-missing of protocol type with the path of the failing
call, operation-failed of application type for every other status. -/
def edit_error_of (rc : sr_error_t) (path : Option String) : nc_server_error :=
  match rc with
  | .SR_ERR_UNAUTHORIZED => .typed .NC_ERR_ACCESS_DENIED .NC_ERR_TYPE_PROT path
  | .SR_ERR_DATA_EXISTS => .typed .NC_ERR_DATA_EXISTS .NC_ERR_TYPE_PROT path
  | .SR_ERR_DATA_MISSING => .typed .NC_ERR_DATA_MISSING .NC_ERR_TYPE_PROT path
  | _ => .typed .NC_ERR_OP_FAILED .NC_ERR_TYPE_APP none

/-- What a stretch of the walk from world `w` to world `w1` does to the backend: it only
adds calls; when it goes on (`res` is `none`) every added call returned OK; when it ends
with the error `e` the last added call is the only one that did not return OK, and `e` is
the error reply for its status and path. -/
def edit_calls_ok (sr : Backend) (w w1 : World) (res : Option nc_server_error) : Prop :=
  ∃ cs, w1.calls = w.calls ++ cs ∧
    match res with
    | none => ∀ s ∈ calls_status sr w.calls cs, s = .SR_ERR_OK
    | some e => ∃ pre c, cs = pre ++ [c] ∧
        (∀ s ∈ calls_status sr w.calls pre, s = .SR_ERR_OK) ∧
        sr (w.calls ++ pre) c ≠ .SR_ERR_OK ∧
        e = edit_error_of (sr (w.calls ++ pre) c) c.path

/-- The error of a result of the walk, if any. -/
def edit_result_error (r : Except nc_server_error edit_state) : Option nc_server_error :=
  match r with
  | .error e => some e
  | .ok _ => none

/-- A backend that keeps track of the nodes created: a strict `sr_set_item` on a path
that an earlier `sr_set_item` has set returns data-exists, every other call returns OK. -/
def sr_exists : Backend := fun calls c =>
  match c with
  | .set_item _ path _ .SR_EDIT_STRICT =>
    if calls.any (fun c1 => match c1 with
      | .set_item _ p _ _ => p = path
      | _ => false) then .SR_ERR_DATA_EXISTS
    else .SR_ERR_OK
  | _ => .SR_ERR_OK

/-- An `edit-config` request on running with `<x nc:operation="create">1</x>` of module
`ex`. -/
def ex_rpc_create : edit_rpc :=
  ⟨"running", none, some (.tree (.node
    ⟨"ex", "x", .LYS_LEAF, false, 0, "1", [⟨"operation", "ietf-netconf", "create"⟩]⟩
    .null .null))⟩

/-! ## Example edit trees for containers and lists -/

/-- An edit tree made of the single container `c` of module `ex`, which has no presence
statement. -/
def ex_edit_container : lyd_node :=
  .node ⟨"ex", "c", .LYS_CONTAINER, false, 0, "", []⟩ .null .null

/-- An edit tree `<item><k1>a</k1><k2>b</k2><v>1</v></item>` of module `ex`: one instance of
the list `item` with the keys `k1`, `k2` and the leaf `v`. -/
def ex_edit_item : lyd_node :=
  .node ⟨"ex", "item", .LYS_LIST, false, 2, "", []⟩
    (.node ⟨"ex", "k1", .LYS_LEAF, false, 0, "a", []⟩ .null
      (.node ⟨"ex", "k2", .LYS_LEAF, false, 0, "b", []⟩ .null
        (.node ⟨"ex", "v", .LYS_LEAF, false, 0, "1", []⟩ .null .null)))
    .null

/-- An edit tree `<l><k>a/b</k></l><x>1</x>` of module `ex`: an instance of the list `l`
whose key `k` has the value `a/b`, followed by the leaf `x` at the root. -/
def ex_edit_slash_key : lyd_node :=
  .node ⟨"ex", "l", .LYS_LIST, false, 1, "", []⟩
    (.node ⟨"ex", "k", .LYS_LEAF, false, 0, "a/b", []⟩ .null .null)
    (.node ⟨"ex", "x", .LYS_LEAF, false, 0, "1", []⟩ .null .null)

/-- An edit tree `<l><k>aaa...</k></l>` of module `ex`: an instance of the list `l` whose
key `k` has a value of `n` letters. -/
def ex_edit_long_key (n : Nat) : lyd_node :=
  .node ⟨"ex", "l", .LYS_LIST, false, 1, "", []⟩
    (.node ⟨"ex", "k", .LYS_LEAF, false, 0, String.mk (List.replicate n 'a'), []⟩ .null .null)
    .null

/-- The filter `<top xmlns="urn:ex"><a xmlns="urn:other"/><b xmlns="urn:other"/></top>`. -/
def ex_filter_two_ns : lyxml_elem :=
  xml_elem "top" (some "urn:ex") none
    (xml_elem "a" (some "urn:other") none .null
      (xml_elem "b" (some "urn:other") none .null .null)) .null

/-- The filter `<top xmlns="urn:ex"><b xmlns="urn:other"/></top>`. -/
def ex_filter_one_ns : lyxml_elem :=
  xml_elem "top" (some "urn:ex") none
    (xml_elem "b" (some "urn:other") none .null .null) .null

/-! ## The edit walk with a record of its backend calls -/

/-- The value argument of an `sr_set_item` call; `none` is `NULL`. -/
def sr_call.value : sr_call → Option String
  | .set_item _ _ value _ => value
  | _ => none

/-- What is noted down when the walk visits a node: the node, its ancestors up to the
root (nearest first), the text of `path` after the upkeep, and the backend calls made
while the node is visited. -/
structure edit_trace_rec where
  node : lyd_info
  anc : List lyd_info
  path : List Char
  calls : List sr_call
  deriving DecidableEq, Repr

/-- The walk `edit_walk` with a record of every visit and of the backend calls made in
it: `anc` holds the ancestors of the nodes of the chain, nearest first. The first
component lists the visits in the order in which they happen, the second is the result of
the walk. -/
def edit_walk_trace (sr : Backend) (ds : Option sr_session_ctx) (defop : NP2_EDIT_DEFOP)
    (anc : List lyd_info) :
    lyd_node → edit_state → World →
      List edit_trace_rec × (Except nc_server_error edit_state × World)
  | .null, st, w => ([], (.ok st, w))
  | .node iter child next, st, w =>
    match edit_visit sr ds defop anc.head? iter st w with
    | (.error e, w1) =>
      ([⟨iter, anc, edit_path anc.head? iter st.missing_keys st.path,
          w1.calls.drop w.calls.length⟩], (.error e, w1))
    | (.ok st1, w1) =>
      let visit : edit_trace_rec :=
        ⟨iter, anc, edit_path anc.head? iter st.missing_keys st.path,
          w1.calls.drop w.calls.length⟩
      if iter.nodetype.leaflike then
        match edit_walk_trace sr ds defop anc next (edit_pop st1) w1 with
        | (l, r) => (visit :: l, r)
      else
        match edit_walk_trace sr ds defop (iter :: anc) child st1 w1 with
        | (l1, (.error e, w2)) => (visit :: l1, (.error e, w2))
        | (l1, (.ok st2, w2)) =>
          match edit_walk_trace sr ds defop anc next (edit_pop st2) w2 with
          | (l2, r) => (visit :: (l1 ++ l2), r)

/-- The nodes of an edit tree in depth-first pre-order, siblings left to right. A node of
a leaf kind has no children: its structure holds the value where the others hold the
first child. -/
def lyd_preorder : lyd_node → List lyd_info
  | .null => []
  | .node iter child next =>
    iter :: ((if iter.nodetype.leaflike then [] else lyd_preorder child) ++ lyd_preorder next)

/-! ## Edit trees whose paths can be cut at the last slash -/

/-- Whether a string is free of the character `'/'`. -/
def slash_free (s : String) : Bool := s.toList.all (fun c => c ≠ '/')

/-- The predicates `[name='value']` of the first `mk` nodes of a sibling chain. -/
def key_preds : Nat → lyd_node → List Char
  | 0, _ => []
  | _ + 1, .null => []
  | mk + 1, .node k _ next =>
    '[' :: (k.name.toList ++ '=' :: '\'' :: (k.value_str.toList ++ ['\'', ']']))
      ++ key_preds mk next

/-- The first `mk` nodes of a sibling chain. -/
def lyd_first : Nat → lyd_node → List lyd_info
  | 0, _ => []
  | _ + 1, .null => []
  | mk + 1, .node k _ next => k :: lyd_first mk next

/-- A sibling chain of an edit tree as the schema shapes it, read for a parent of module
`pmod` that still waits for `mk` keys: the chain starts with `mk` leaves of the parent's
module, the keys; below, every list instance starts with as many keys as its schema
node declares; and no module name, node name or key value holds the character `'/'`. -/
def lyd_plain : Nat → String → lyd_node → Bool
  | mk, _, .null => mk = 0
  | mk, pmod, .node iter child next =>
    slash_free iter.module && slash_free iter.name &&
    (if mk ≠ 0 then
      decide (iter.nodetype = .LYS_LEAF) && decide (iter.module = pmod)
        && slash_free iter.value_str && lyd_plain (mk - 1) pmod next
    else
      (match iter.nodetype with
        | .LYS_LIST => lyd_plain iter.keys_size iter.module child
        | .LYS_LEAF | .LYS_LEAFLIST | .LYS_ANYXML => true
        | _ => lyd_plain 0 iter.module child)
      && lyd_plain 0 pmod next)

/-- An edit tree `<lp><k>1</k><l><j>2</j><c>3</c></l></lp>` of module `ex`: the list `l`
with key `j` and leaf `c` inside the list `lp` with key `k`. -/
def ex_edit_nested_list : lyd_node :=
  .node ⟨"ex", "lp", .LYS_LIST, false, 1, "", []⟩
    (.node ⟨"ex", "k", .LYS_LEAF, false, 0, "1", []⟩ .null
      (.node ⟨"ex", "l", .LYS_LIST, false, 1, "", []⟩
        (.node ⟨"ex", "j", .LYS_LEAF, false, 0, "2", []⟩ .null
          (.node ⟨"ex", "c", .LYS_LEAF, false, 0, "3", []⟩ .null .null))
        .null))
    .null

/-! ## `op_lock` in critical sections, for calls that run at the same time -/

/-- Where a call of `op_lock` stands with respect to its two critical sections: before the
section under the read lock, between the two sections (with `ds` and `dsl` selected), or
returned with its reply. -/
inductive op_lock_pc where
  | start
  | checked (ds : sr_session_ctx) (dsl : dsl_ptr)
  | returned (reply : nc_server_reply)
  deriving DecidableEq, Repr

/-- The next critical section of a call of `op_lock` by `ncs` on `dsname`. From `start`:
the target selection and the test of `*dsl` between `pthread_rwlock_rdlock` and
`pthread_rwlock_unlock`. From `checked`: the section between `pthread_rwlock_wrlock` and
`pthread_rwlock_unlock`, with the second test of `*dsl`, the backend call and the update
of the table. The lock `dslock_rwl` keeps a section under the write lock apart from every
other section, and sections under the read lock only read, so that sections are the steps
that calls running at the same time interleave. The lock-denied reply reads the id of
`*dsl` right after the section; calls of `op_lock` never change an entry that is set, so
the id is the one seen in the section. -/
def op_lock_section (sr : Backend) (dsname : String) (ncs : nc_session) :
    op_lock_pc → World → op_lock_pc × World
  | .start, w =>
    match lock_target dsname ncs.data with
    | none =>
      (.returned (.err (.typed .NC_ERR_INVALID_VALUE .NC_ERR_TYPE_PROT none)), w)
    | some (ds, dsl) =>
      match dsl.get w.dslock with
      | some holder => (.returned (.err (.lock_denied holder.id)), w)
      | none => (.checked ds dsl, w)
  | .checked ds dsl, w =>
    match dsl.get w.dslock with
    | some holder => (.returned (.err (.lock_denied holder.id)), w)
    | none =>
      let (rc, w1) := sr_do sr (.lock_datastore ds) w
      if rc ≠ .SR_ERR_OK then
        (.returned (.err (.lock_denied 0)), w1)
      else
        (.returned .ok, { w1 with dslock := dsl.put (some ncs) w1.dslock })
  | .returned reply, w => (.returned reply, w)

/-- Two calls of `op_lock` in progress, by the sessions `S1` and `S2`, and the world they
share. -/
structure lock_race where
  pc1 : op_lock_pc
  pc2 : op_lock_pc
  world : World
  deriving DecidableEq, Repr

/-- One step of the two calls: the call of `S1` (`first` true) or the call of `S2` runs
its next critical section. -/
def lock_race.step (sr : Backend) (dsname : String) (S1 S2 : nc_session) (first : Bool)
    (s : lock_race) : lock_race :=
  if first then
    match op_lock_section sr dsname S1 s.pc1 s.world with
    | (pc, w) => ⟨pc, s.pc2, w⟩
  else
    match op_lock_section sr dsname S2 s.pc2 s.world with
    | (pc, w) => ⟨s.pc1, pc, w⟩

/-- The two calls run under a schedule: the list tells, step after step, which call runs
its next critical section. -/
def lock_race.run (sr : Backend) (dsname : String) (S1 S2 : nc_session) :
    List Bool → lock_race → lock_race
  | [], s => s
  | first :: rest, s => lock_race.run sr dsname S1 S2 rest (s.step sr dsname S1 S2 first)

/-- How many critical sections a call has behind it. -/
def op_lock_pc.rank : op_lock_pc → Nat
  | .start => 0
  | .checked _ _ => 1
  | .returned _ => 2

/-- What holds of two calls of `op_lock` on the datastore whose entry is `dsl`, at every
point of every schedule: a call between its sections has selected `dsl`; a call that has
replied ok has left the entry held; the two calls have not both replied ok; and a reply
is ok or lock-denied. -/
def lock_race.inv (dsl : dsl_ptr) (s : lock_race) : Prop :=
  (∀ ds d, s.pc1 = .checked ds d → d = dsl) ∧
  (∀ ds d, s.pc2 = .checked ds d → d = dsl) ∧
  (s.pc1 = .returned .ok → dsl.get s.world.dslock ≠ none) ∧
  (s.pc2 = .returned .ok → dsl.get s.world.dslock ≠ none) ∧
  ¬ (s.pc1 = .returned .ok ∧ s.pc2 = .returned .ok) ∧
  (∀ r, s.pc1 = .returned r → r = .ok ∨ ∃ sid, r = .err (.lock_denied sid)) ∧
  (∀ r, s.pc2 = .returned r → r = .ok ∨ ∃ sid, r = .err (.lock_denied sid))

/-! ## `get_srval_value` -/

/-- The kinds of a sysrepo value (`sr_type_t`) that `get_srval_value` names; every other
kind, handled by `default`, is `SR_OTHER_T`. -/
inductive sr_type_t where
  | SR_STRING_T
  | SR_BINARY_T
  | SR_BITS_T
  | SR_ENUM_T
  | SR_IDENTITYREF_T
  | SR_INSTANCEID_T
  | SR_LEAFREF_T
  | SR_LEAF_EMPTY_T
  | SR_BOOL_T
  | SR_DECIMAL64_T
  | SR_UINT8_T
  | SR_UINT16_T
  | SR_UINT32_T
  | SR_UINT64_T
  | SR_INT8_T
  | SR_INT16_T
  | SR_INT32_T
  | SR_INT64_T
  | SR_OTHER_T
  deriving DecidableEq, Repr

/-- A C `double`, kept as its 64 bits; its arithmetic is not modelled. -/
structure c_double where
  bits : Nat
  deriving DecidableEq, Repr

/-- The members of the union `data` of an `sr_val_t`, each as a field of its own: reading
a member reads its field. Unsigned members are naturals and signed members integers; the
width of a member bounds its value. `string_val` is `none` for a `NULL` pointer. -/
structure sr_data_t where
  string_val : Option String
  bool_val : Bool
  decimal64_val : c_double
  uint8_val : Nat
  uint16_val : Nat
  uint32_val : Nat
  uint64_val : Nat
  int8_val : Int
  int16_val : Int
  int32_val : Int
  int64_val : Int
  deriving DecidableEq, Repr

/-- The fields of `sr_val_t` that `get_srval_value` reads. -/
structure sr_val_t where
  xpath : String
  type : sr_type_t
  data : sr_data_t
  deriving DecidableEq, Repr

/-- The text printed by the conversions `%u` and `%lu` of `sprintf` for an unsigned value:
its decimal digits, most significant first, a single `0` for zero. `long` is taken to have
64 bits, so that `%lu` fits `uint64_t`. -/
def printf_u (n : Nat) : List Char := Nat.toDigits 10 n

/-- The text printed by the conversions `%d` and `%ld` of `sprintf` for a signed value: a
minus sign for a negative value, then the decimal digits of its magnitude. -/
def printf_d (i : Int) : List Char :=
  if i < 0 then '-' :: Nat.toDigits 10 i.natAbs else Nat.toDigits 10 i.toNat

/-- Embedding of `get_srval_value`: `none` is the `NULL` return value, otherwise the string
the returned pointer points to (a member of the value, a literal, or `buf` after
`sprintf`). `fraction_digits` stands for the lookup `ly_ctx_get_node(ctx, NULL, xpath)`
followed by the read of `type.info.dec64.dig`, and `printf_f` for the conversion `%.*f`
of a `double`, which is not modelled. -/
def get_srval_value (fraction_digits : String → Option Nat)
    (printf_f : Nat → c_double → List Char) (value : Option sr_val_t) : Option String :=
  match value with
  | none => none
  | some value =>
    match value.type with
    | .SR_STRING_T | .SR_BINARY_T | .SR_BITS_T | .SR_ENUM_T | .SR_IDENTITYREF_T
    | .SR_INSTANCEID_T | .SR_LEAFREF_T => value.data.string_val
    | .SR_LEAF_EMPTY_T => none
    | .SR_BOOL_T => some (if value.data.bool_val then "true" else "false")
    | .SR_DECIMAL64_T =>
      match fraction_digits value.xpath with
      | none => none
      | some dig => some (String.mk (printf_f dig value.data.decimal64_val))
    | .SR_UINT8_T => some (String.mk (printf_u value.data.uint8_val))
    | .SR_UINT16_T => some (String.mk (printf_u value.data.uint16_val))
    | .SR_UINT32_T => some (String.mk (printf_u value.data.uint32_val))
    | .SR_UINT64_T => some (String.mk (printf_u value.data.uint64_val))
    | .SR_INT8_T => some (String.mk (printf_d value.data.int8_val))
    | .SR_INT16_T => some (String.mk (printf_d value.data.int16_val))
    | .SR_INT32_T => some (String.mk (printf_d value.data.int32_val))
    | .SR_INT64_T => some (String.mk (printf_d value.data.int64_val))
    | _ => none

/-! ## Reference definitions for decimal numerals -/

/-- The value of a decimal digit. -/
def decimal_digit (c : Char) : Option Nat :=
  if '0' ≤ c ∧ c ≤ '9' then some (c.toNat - 48) else none

/-- The number a string of decimal digits denotes after the number `acc` already read. -/
def parse_digits : List Char → Nat → Option Nat
  | [], acc => some acc
  | c :: cs, acc =>
    match decimal_digit c with
    | none => none
    | some v => parse_digits cs (10 * acc + v)

/-- The integer a decimal numeral denotes: an optional minus sign, then at least one
digit. -/
def parse_decimal (s : List Char) : Option Int :=
  match s with
  | [] => none
  | c :: ds =>
    if c = '-' then
      if ds = [] then none
      else
        match parse_digits ds 0 with
        | none => none
        | some n => some (-(n : Int))
    else
      match parse_digits (c :: ds) 0 with
      | none => none
      | some n => some (n : Int)

/-- Whether a string is a string of decimal digits without leading zero, or the single
digit `0` when `zero` allows it. -/
def canonical_digits (zero : Bool) (ds : List Char) : Bool :=
  ds.all (fun c => (decimal_digit c).isSome) &&
    (match ds with
      | [] => false
      | c :: rest => c ≠ '0' || (zero && rest.isEmpty))

/-- Whether a string is the canonical decimal numeral of an integer: a minus sign and the
digits of a non-zero magnitude without leading zero, or the digits of a magnitude without
leading zero, the single digit `0` for zero. -/
def canonical_decimal (s : List Char) : Bool :=
  match s with
  | [] => false
  | c :: ds => if c = '-' then canonical_digits false ds else canonical_digits true (c :: ds)

/-- The number held by a value of an integer kind whose member is within the range of
its width; `none` for every other value. -/
def sr_val_t.integer (v : sr_val_t) : Option Int :=
  match v.type with
  | .SR_UINT8_T => if v.data.uint8_val < 2 ^ 8 then some v.data.uint8_val else none
  | .SR_UINT16_T => if v.data.uint16_val < 2 ^ 16 then some v.data.uint16_val else none
  | .SR_UINT32_T => if v.data.uint32_val < 2 ^ 32 then some v.data.uint32_val else none
  | .SR_UINT64_T => if v.data.uint64_val < 2 ^ 64 then some v.data.uint64_val else none
  | .SR_INT8_T =>
    if -(2 ^ 7) ≤ v.data.int8_val ∧ v.data.int8_val < 2 ^ 7 then some v.data.int8_val
    else none
  | .SR_INT16_T =>
    if -(2 ^ 15) ≤ v.data.int16_val ∧ v.data.int16_val < 2 ^ 15 then some v.data.int16_val
    else none
  | .SR_INT32_T =>
    if -(2 ^ 31) ≤ v.data.int32_val ∧ v.data.int32_val < 2 ^ 31 then some v.data.int32_val
    else none
  | .SR_INT64_T =>
    if -(2 ^ 63) ≤ v.data.int64_val ∧ v.data.int64_val < 2 ^ 63 then some v.data.int64_val
    else none
  | _ => none

/-- An `sr_val_t` of kind `SR_INT64_T` with the least value of its width. -/
def ex_srval_int64_min : sr_val_t :=
  ⟨"/ex:x", .SR_INT64_T, ⟨none, false, ⟨0⟩, 0, 0, 0, 0, 0, 0, 0, -(2 ^ 63)⟩⟩

/-! ## Reference reading of a compiled filter: one XPath for every leaf -/

/-- The tree `T` of a filter: the sibling chain with every content-match element taken
out, at every depth. -/
def lyxml_prune : lyxml_elem → lyxml_elem
  | .null => .null
  | .node c cc next =>
    if content_match c cc then lyxml_prune next
    else .node c (lyxml_prune cc) (lyxml_prune next)

/-- The number of leaves of a forest: the elements without child. -/
def lyxml_leaves : lyxml_elem → Nat
  | .null => 0
  | .node _ cc next => (if cc = .null then 1 else lyxml_leaves cc) + lyxml_leaves next

/-- The module names a step can be printed with: none, or the name of a module of the
registry. -/
def step_module (ctx : ly_ctx) (p : Option String) : Prop :=
  ∀ name, p = some name → ∃ m ∈ ctx.modules, m.name = name

/-- The predicates for the content-match elements of a sibling chain, in document order:
for each such element one predicate `[step attributes='text']`, made of the step of the
element (its name, with or without a module name), its attribute predicates and its
content without the white space around it. -/
inductive content_predicates (ctx : ly_ctx) : lyxml_elem → List Char → Prop where
  | null : content_predicates ctx .null []
  | other (c : lyxml_info) (cc next : lyxml_elem) (t : List Char) :
      content_match c cc = false → content_predicates ctx next t →
      content_predicates ctx (.node c cc next) t
  | content (c : lyxml_info) (cc next : lyxml_elem) (p : Option String) (t : List Char) :
      content_match c cc = true → step_module ctx p → content_predicates ctx next t →
      content_predicates ctx (.node c cc next)
        ('[' :: xpath_step_text p c.name ++ attrs_text ctx c.attr
          ++ '=' :: '\'' :: (strip_ws (c.content.getD "").toList ++ ['\'', ']']) ++ t)

/-- The XPaths of a sibling chain under the path `path`, one for every leaf: the
content-match elements are taken out; every other element adds to the path its step
(`/name` or `/module:name`), its attribute predicates and the predicates of its
content-match children; an element that is a leaf of the tree so pruned gives one XPath,
the path so extended; any other element gives the XPaths of its children under the path
so extended; and the XPaths of the chain follow the order of its elements. -/
inductive leaf_xpaths (ctx : ly_ctx) : lyxml_elem → List Char → List String → Prop where
  | null (path : List Char) : leaf_xpaths ctx .null path []
  | content (c : lyxml_info) (cc next : lyxml_elem) (path : List Char) (out : List String) :
      content_match c cc = true → leaf_xpaths ctx next path out →
      leaf_xpaths ctx (.node c cc next) path out
  | leaf (c : lyxml_info) (cc next : lyxml_elem) (path : List Char) (p : Option String)
      (t : List Char) (out : List String) :
      content_match c cc = false → lyxml_prune cc = .null → step_module ctx p →
      content_predicates ctx cc t → leaf_xpaths ctx next path out →
      leaf_xpaths ctx (.node c cc next) path
        (String.mk (path ++ '/' :: xpath_step_text p c.name ++ attrs_text ctx c.attr ++ t)
          :: out)
  | inner (c : lyxml_info) (cc next : lyxml_elem) (path : List Char) (p : Option String)
      (t : List Char) (out1 out2 : List String) :
      content_match c cc = false → lyxml_prune cc ≠ .null → step_module ctx p →
      content_predicates ctx cc t →
      leaf_xpaths ctx cc
        (path ++ '/' :: xpath_step_text p c.name ++ attrs_text ctx c.attr ++ t) out1 →
      leaf_xpaths ctx next path out2 →
      leaf_xpaths ctx (.node c cc next) path (out1 ++ out2)

/-- The filter `<top xmlns="urn:ex">7</top>`: a content-match element at the top. -/
def ex_filter_top_content : lyxml_elem :=
  xml_elem "top" (some "urn:ex") (some "7") .null .null

/-! ## Auxiliary lemmas -/

/-- A held entry stays held across any `op_lock`. -/
theorem op_lock_entry_mono (sr : Backend) (D1 D : String) (S : nc_session) (w : World)
    (h : w.dslock.entry D ≠ none) : (op_lock sr D1 S w).2.dslock.entry D ≠ none := by
  obtain ⟨⟨r, s, c⟩, calls⟩ := w
  unfold op_lock lock_target
  simp only [dslock_t.entry] at h ⊢
  by_cases h1 : D1 = "running"
  · subst h1
    cases r <;> simp [dsl_ptr.get, sr_do, dsl_ptr.put] at h ⊢
    · split_ifs <;> simp_all
    · split_ifs <;> simp_all
  · by_cases h2 : D1 = "startup"
    · subst h2
      cases s <;> simp [dsl_ptr.get, sr_do, dsl_ptr.put] at h ⊢
      · split_ifs <;> simp_all
      · split_ifs <;> simp_all
    · simpa [h1, h2] using h

/-- A held entry can only be emptied by an `op_unlock` on that very name that replies ok. -/
theorem op_unlock_entry_mono (sr : Backend) (D1 D : String) (S : nc_session) (w : World)
    (h : w.dslock.entry D ≠ none)
    (h0 : (op_unlock sr D1 S w).2.dslock.entry D = none) :
    D1 = D ∧ (op_unlock sr D1 S w).1 = .ok := by
  obtain ⟨⟨r, s, c⟩, calls⟩ := w
  unfold op_unlock lock_target at *
  simp only [dslock_t.entry] at h h0
  by_cases h1 : D1 = "running"
  · subst h1
    cases r <;> simp [dsl_ptr.get, sr_do, dsl_ptr.put] at h h0 ⊢
    · split_ifs at h h0 <;> simp_all
    · split_ifs at h h0 ⊢ <;> simp_all
  · by_cases h2 : D1 = "startup"
    · subst h2
      cases s <;> simp [dsl_ptr.get, sr_do, dsl_ptr.put] at h h0 ⊢
      · split_ifs at h h0 <;> simp_all
      · split_ifs at h h0 ⊢ <;> simp_all
    · simp [h1, h2] at h0
      split_ifs at h h0 <;> simp_all

/-- An `op_lock` that replies ok found the entry empty and leaves it held by the caller. -/
theorem op_lock_ok_entry (sr : Backend) (D : String) (S : nc_session) (w : World)
    (h : (op_lock sr D S w).1 = .ok) :
    w.dslock.entry D = none ∧ (op_lock sr D S w).2.dslock.entry D = some S := by
  unfold op_lock lock_target at *
  by_cases h1 : D = "running"
  · subst h1
    cases hr : w.dslock.running <;>
      simp [dsl_ptr.get, hr, dslock_t.entry, sr_do, dsl_ptr.put] at h ⊢
    split_ifs at h ⊢
    simp_all
  · by_cases h2 : D = "startup"
    · subst h2
      cases hr : w.dslock.startup <;>
        simp [dsl_ptr.get, hr, dslock_t.entry, sr_do, dsl_ptr.put] at h ⊢
      split_ifs at h ⊢
      simp_all
    · simp [h1, h2] at h

/-- From a world where `D` is held, a lock step on `D` replying ok is preceded by an
unlock step on `D` replying ok. -/
theorem lock_run_held (sr : Backend) (D : String) (steps : List lock_step) :
    ∀ (w : World) (j : Nat) (S2 : nc_session), w.dslock.entry D ≠ none →
      (lock_run sr steps w)[j]? = some (⟨.lock, D, S2⟩, .ok) →
      ∃ k S3, k < j ∧ (lock_run sr steps w)[k]? = some (⟨.unlock, D, S3⟩, .ok) := by
  induction steps with
  | nil => intro w j S2 _ hj; simp [lock_run] at hj
  | cons s rest ih =>
    intro w j S2 hheld hj
    cases j with
    | zero =>
      simp only [lock_run, List.getElem?_cons_zero, Option.some.injEq, Prod.mk.injEq] at hj
      obtain ⟨hs, hr⟩ := hj
      subst hs
      have := (op_lock_ok_entry sr D S2 w (by simpa [lock_step.exec] using hr)).1
      exact absurd this hheld
    | succ j =>
      simp only [lock_run, List.getElem?_cons_succ] at hj
      by_cases hw : (s.exec sr w).2.dslock.entry D = none
      · obtain ⟨req, D1, S3⟩ := s
        cases req with
        | lock =>
          exact absurd hw (op_lock_entry_mono sr D1 D S3 w hheld)
        | unlock =>
          obtain ⟨hD, hok⟩ := op_unlock_entry_mono sr D1 D S3 w hheld hw
          subst hD
          exact ⟨0, S3, Nat.succ_pos j, by simp [lock_run, lock_step.exec, hok]⟩
      · obtain ⟨k, S3, hk, hk2⟩ := ih _ j S2 hw hj
        exact ⟨k + 1, S3, Nat.succ_lt_succ hk, by simpa [lock_run] using hk2⟩

/-- Two lock steps on `D` replying ok have an unlock step on `D` replying ok between them. -/
theorem lock_run_separated (sr : Backend) (D : String) (steps : List lock_step) :
    ∀ (w : World) (i j : Nat) (S1 S2 : nc_session), i < j →
      (lock_run sr steps w)[i]? = some (⟨.lock, D, S1⟩, .ok) →
      (lock_run sr steps w)[j]? = some (⟨.lock, D, S2⟩, .ok) →
      ∃ k S3, i < k ∧ k < j ∧ (lock_run sr steps w)[k]? = some (⟨.unlock, D, S3⟩, .ok) := by
  induction steps with
  | nil => intro w i j S1 S2 _ hi _; simp [lock_run] at hi
  | cons s rest ih =>
    intro w i j S1 S2 hij hi hj
    cases j with
    | zero => exact absurd hij (Nat.not_lt_zero i)
    | succ j =>
      simp only [lock_run, List.getElem?_cons_succ] at hj
      cases i with
      | zero =>
        simp only [lock_run, List.getElem?_cons_zero, Option.some.injEq, Prod.mk.injEq] at hi
        obtain ⟨hs, hr⟩ := hi
        subst hs
        have hheld : (op_lock sr D S1 w).2.dslock.entry D ≠ none := by
          rw [(op_lock_ok_entry sr D S1 w (by simpa [lock_step.exec] using hr)).2]
          simp
        obtain ⟨k, S3, hk, hk2⟩ := lock_run_held sr D rest _ j S2 hheld hj
        exact ⟨k + 1, S3, Nat.succ_pos k, Nat.succ_lt_succ hk, by simpa [lock_run] using hk2⟩
      | succ i =>
        simp only [lock_run, List.getElem?_cons_succ] at hi
        obtain ⟨k, S3, hk1, hk2, hk3⟩ := ih _ i j S1 S2 (Nat.lt_of_succ_lt_succ hij) hi hj
        exact ⟨k + 1, S3, Nat.succ_lt_succ hk1, Nat.succ_lt_succ hk2,
          by simpa [lock_run] using hk3⟩

/-- The backend call of the edit walk does not touch the lock table. -/
theorem edit_apply_dslock (sr : Backend) (ds : Option sr_session_ctx) (op : NP2_EDIT_OP)
    (path : List Char) (w : World) : (edit_apply sr ds op path w).2.dslock = w.dslock := by
  cases op <;> simp [edit_apply, sr_do]

/-- Visiting one node does not touch the lock table. -/
theorem edit_visit_dslock (sr : Backend) (ds : Option sr_session_ctx) (defop : NP2_EDIT_DEFOP)
    (parent : Option lyd_info) (iter : lyd_info) (st : edit_state) (w : World) :
    (edit_visit sr ds defop parent iter st w).2.dslock = w.dslock := by
  have key := edit_apply_dslock sr ds (get_edit_op iter (st.op (st.op_index + 1 - 1)) defop)
    (edit_path parent iter st.missing_keys st.path) w
  unfold edit_visit
  cases hnt : iter.nodetype <;> simp only [] <;> (try split_ifs) <;>
    first
      | rfl
      | (split <;> exact key)

/-- The whole walk does not touch the lock table. -/
theorem edit_walk_dslock (sr : Backend) (ds : Option sr_session_ctx) (defop : NP2_EDIT_DEFOP)
    (n : lyd_node) : ∀ (parent : Option lyd_info) (st : edit_state) (w : World),
    (edit_walk sr ds defop parent n st w).2.dslock = w.dslock := by
  induction n with
  | null => intro parent st w; simp [edit_walk]
  | node iter child next ihc ihn =>
    intro parent st w
    have hv := edit_visit_dslock sr ds defop parent iter st w
    unfold edit_walk
    split
    · rename_i e w1 heq; rw [heq] at hv; exact hv
    · rename_i st1 w1 heq
      rw [heq] at hv
      split_ifs
      · rw [ihn]; exact hv
      · have hc := ihc (some iter) st1 w1
        split
        · rename_i e w2 heq2; rw [heq2] at hc; exact hc.trans hv
        · rename_i st2 w2 heq2; rw [heq2] at hc; rw [ihn]; exact hc.trans hv

/-- `op_editconfig` does not touch the lock table. -/
theorem op_editconfig_dslock (sr : Backend) (rpc : edit_rpc) (ncs : nc_session) (w : World) :
    (op_editconfig sr rpc ncs w).2.dslock = w.dslock := by
  unfold op_editconfig
  simp only []
  split
  · rfl
  · rfl
  · rfl
  · generalize hres : edit_walk sr _ _ none _ _ w = res
    have key : res.2.dslock = w.dslock := by
      rw [← hres]; exact edit_walk_dslock _ _ _ _ _ _ _
    rcases res with ⟨_ | _, w1⟩ <;> exact key

/-! ## Theorems: lock manager -/

/-- C2: when the entry of running (resp. startup) is held by a session `O`, also when `O`
is the caller, `op_lock` on that datastore replies lock-denied with the id of `O` and
returns the world as it was: no backend call is logged and no entry changes. -/
theorem op_lock_held_denied (sr : Backend) (w : World) (S O : nc_session) :
    (w.dslock.running = some O →
      op_lock sr "running" S w = (.err (.lock_denied O.id), w)) ∧
    (w.dslock.startup = some O →
      op_lock sr "startup" S w = (.err (.lock_denied O.id), w)) := by
  constructor <;> intro h <;> simp [op_lock, lock_target, dsl_ptr.get, h]

/-- Witness of C2: `ex_S2` asks for running while `ex_S1` holds it. -/
theorem op_lock_held_denied_witness :
    op_lock sr_ok "running" ex_S2 ex_world_S1_running
      = (.err (.lock_denied 1), ex_world_S1_running) :=
  (op_lock_held_denied sr_ok ex_world_S1_running ex_S2 ex_S1).1 rfl

/-- C3: when the entry of running (resp. startup) is empty and the backend lock call
returns OK, `op_lock` replies ok, the entry becomes the caller, the other two entries keep
their values, and the one backend call made is the lock call on the caller's handle. -/
theorem op_lock_free_ok (sr : Backend) (w : World) (S : nc_session) :
    (w.dslock.running = none →
      sr w.calls (.lock_datastore S.data.running) = .SR_ERR_OK →
      op_lock sr "running" S w =
        (.ok, ⟨⟨some S, w.dslock.startup, w.dslock.candidate⟩,
               w.calls ++ [.lock_datastore S.data.running]⟩)) ∧
    (w.dslock.startup = none →
      sr w.calls (.lock_datastore S.data.startup) = .SR_ERR_OK →
      op_lock sr "startup" S w =
        (.ok, ⟨⟨w.dslock.running, some S, w.dslock.candidate⟩,
               w.calls ++ [.lock_datastore S.data.startup]⟩)) := by
  constructor <;> intro h hrc <;>
    simp [op_lock, lock_target, dsl_ptr.get, dsl_ptr.put, sr_do, h, hrc]

/-- Witness of C3: `ex_S2` locks the free startup datastore. -/
theorem op_lock_free_ok_witness :
    op_lock sr_ok "startup" ex_S2 ex_world_S1_running =
      (.ok, ⟨⟨some ex_S1, some ex_S2, none⟩, [.lock_datastore 22]⟩) :=
  (op_lock_free_ok sr_ok ex_world_S1_running ex_S2).2 rfl rfl

/-- C4: when the entry of running (resp. startup) is empty and the backend lock call
returns a status other than OK, `op_lock` replies lock-denied with session id 0 and the
lock table is unchanged; the backend call is the only thing added to the world. -/
theorem op_lock_backend_refused (sr : Backend) (w : World) (S : nc_session) :
    (w.dslock.running = none →
      sr w.calls (.lock_datastore S.data.running) ≠ .SR_ERR_OK →
      op_lock sr "running" S w =
        (.err (.lock_denied 0), ⟨w.dslock, w.calls ++ [.lock_datastore S.data.running]⟩)) ∧
    (w.dslock.startup = none →
      sr w.calls (.lock_datastore S.data.startup) ≠ .SR_ERR_OK →
      op_lock sr "startup" S w =
        (.err (.lock_denied 0), ⟨w.dslock, w.calls ++ [.lock_datastore S.data.startup]⟩)) := by
  constructor <;> intro h hrc <;>
    simp [op_lock, lock_target, dsl_ptr.get, sr_do, h, hrc]

/-- Witness of C4: the backend refuses the lock of the free startup datastore. -/
theorem op_lock_backend_refused_witness :
    op_lock sr_fail "startup" ex_S2 ex_world_S1_running =
      (.err (.lock_denied 0), ⟨⟨some ex_S1, none, none⟩, [.lock_datastore 22]⟩) :=
  (op_lock_backend_refused sr_fail ex_world_S1_running ex_S2).2 rfl (by decide)

/-- C5: `op_unlock` by a session that does not own the entry of running (resp. startup)
returns the world as it was (no backend call, no entry changed); the reply is
operation-failed of protocol type when the entry is empty and lock-denied with the owner's
id when the entry is held by another session. -/
theorem op_unlock_not_owner (sr : Backend) (w : World) (S O : nc_session) :
    (w.dslock.running = none →
      op_unlock sr "running" S w =
        (.err (.typed .NC_ERR_OP_FAILED .NC_ERR_TYPE_PROT none), w)) ∧
    (w.dslock.startup = none →
      op_unlock sr "startup" S w =
        (.err (.typed .NC_ERR_OP_FAILED .NC_ERR_TYPE_PROT none), w)) ∧
    (w.dslock.running = some O → O ≠ S →
      op_unlock sr "running" S w = (.err (.lock_denied O.id), w)) ∧
    (w.dslock.startup = some O → O ≠ S →
      op_unlock sr "startup" S w = (.err (.lock_denied O.id), w)) := by
  refine ⟨?_, ?_, ?_, ?_⟩
  · intro h; simp [op_unlock, lock_target, dsl_ptr.get, h]
  · intro h; simp [op_unlock, lock_target, dsl_ptr.get, h]
  · intro h hne; simp [op_unlock, lock_target, dsl_ptr.get, h, hne]
  · intro h hne; simp [op_unlock, lock_target, dsl_ptr.get, h, hne]

/-- Witness of C5: `ex_S2` unlocks the free startup and the running held by `ex_S1`. -/
theorem op_unlock_not_owner_witness :
    op_unlock sr_ok "startup" ex_S2 ex_world_S1_running =
        (.err (.typed .NC_ERR_OP_FAILED .NC_ERR_TYPE_PROT none), ex_world_S1_running) ∧
    op_unlock sr_ok "running" ex_S2 ex_world_S1_running =
        (.err (.lock_denied 1), ex_world_S1_running) :=
  ⟨(op_unlock_not_owner sr_ok ex_world_S1_running ex_S2 ex_S1).2.1 rfl,
   (op_unlock_not_owner sr_ok ex_world_S1_running ex_S2 ex_S1).2.2.1 rfl (by decide)⟩

/-- C7: after `np2srv_clean_dslock` for session `S`, each of the three entries is empty
if it was `S` and has its former value otherwise; hence no entry is `S` afterwards, an
entry held by another session is still held by it, and no backend call is made. -/
theorem np2srv_clean_dslock_entries (S : nc_session) (w : World) :
    (np2srv_clean_dslock S w).dslock.running
        = (if w.dslock.running = some S then none else w.dslock.running) ∧
    (np2srv_clean_dslock S w).dslock.startup
        = (if w.dslock.startup = some S then none else w.dslock.startup) ∧
    (np2srv_clean_dslock S w).dslock.candidate
        = (if w.dslock.candidate = some S then none else w.dslock.candidate) ∧
    (np2srv_clean_dslock S w).dslock.running ≠ some S ∧
    (np2srv_clean_dslock S w).dslock.startup ≠ some S ∧
    (np2srv_clean_dslock S w).dslock.candidate ≠ some S ∧
    (∀ O, O ≠ S → (w.dslock.running = some O →
        (np2srv_clean_dslock S w).dslock.running = some O) ∧
      (w.dslock.startup = some O → (np2srv_clean_dslock S w).dslock.startup = some O) ∧
      (w.dslock.candidate = some O →
        (np2srv_clean_dslock S w).dslock.candidate = some O)) ∧
    (np2srv_clean_dslock S w).calls = w.calls := by
  obtain ⟨⟨r, s, c⟩, calls⟩ := w
  simp only [np2srv_clean_dslock]
  refine ⟨?_, ?_, ?_, ?_, ?_, ?_, ?_, ?_⟩
  · split_ifs <;> simp_all
  · split_ifs <;> simp_all
  · split_ifs <;> simp_all
  · split_ifs <;> simp_all
  · split_ifs <;> simp_all
  · split_ifs <;> simp_all
  · intro O hO
    refine ⟨?_, ?_, ?_⟩ <;> intro h <;> subst h <;> split_ifs <;> simp_all
  · trivial

/-- Witness of C7: tearing down `ex_S2` keeps the lock of running held by `ex_S1`. -/
theorem np2srv_clean_dslock_entries_witness :
    (np2srv_clean_dslock ex_S2 ex_world_mixed).dslock.running = some ex_S1 :=
  ((np2srv_clean_dslock_entries ex_S2 ex_world_mixed).2.2.2.2.2.2.1 ex_S1 (by decide)).1 rfl

/-- C9: with a target name other than running and startup (candidate for one), both
`op_lock` and `op_unlock` reply invalid-value of protocol type and return the world as it
was: no backend call is made and the lock table is unchanged. -/
theorem lock_unlock_invalid_target (sr : Backend) (w : World) (S : nc_session)
    (D : String) (h1 : D ≠ "running") (h2 : D ≠ "startup") :
    op_lock sr D S w = (.err (.typed .NC_ERR_INVALID_VALUE .NC_ERR_TYPE_PROT none), w) ∧
    op_unlock sr D S w = (.err (.typed .NC_ERR_INVALID_VALUE .NC_ERR_TYPE_PROT none), w) := by
  simp [op_lock, op_unlock, lock_target, h1, h2]

/-- Witness of C9: target candidate. -/
theorem lock_unlock_invalid_target_witness :
    op_lock sr_ok "candidate" ex_S1 ex_world_mixed
      = (.err (.typed .NC_ERR_INVALID_VALUE .NC_ERR_TYPE_PROT none), ex_world_mixed) ∧
    op_unlock sr_ok "candidate" ex_S1 ex_world_mixed
      = (.err (.typed .NC_ERR_INVALID_VALUE .NC_ERR_TYPE_PROT none), ex_world_mixed) :=
  lock_unlock_invalid_target sr_ok ex_world_mixed ex_S1 "candidate" (by decide) (by decide)

/-- C1: in every run of `op_lock` / `op_unlock` steps, from any lock table (the empty one
included) and with any backend results, between two lock steps on the same datastore name
that both reply ok there is an unlock step on that name that replies ok. In the contention
scenario with an accepting backend the replies are ok, lock-denied with the id of the
first session, ok, ok. -/
theorem lock_run_mutual_exclusion :
    (∀ (sr : Backend) (steps : List lock_step) (w : World) (D : String) (i j : Nat)
        (S1 S2 : nc_session), i < j →
        (lock_run sr steps w)[i]? = some (⟨.lock, D, S1⟩, .ok) →
        (lock_run sr steps w)[j]? = some (⟨.lock, D, S2⟩, .ok) →
        ∃ k S3, i < k ∧ k < j ∧
          (lock_run sr steps w)[k]? = some (⟨.unlock, D, S3⟩, .ok)) ∧
    (∀ S1 S2 : nc_session,
        (lock_run sr_ok (ex_contention S1 S2) World.init).map Prod.snd =
          [.ok, .err (.lock_denied S1.id), .ok, .ok]) := by
  constructor
  · intro sr steps w D i j S1 S2 hij hi hj
    exact lock_run_separated sr D steps w i j S1 S2 hij hi hj
  · intro S1 S2
    simp [lock_run, ex_contention, lock_step.exec, op_lock, op_unlock, lock_target,
      dsl_ptr.get, dsl_ptr.put, sr_do, sr_ok, World.init, dslock_init]

/-- Witness of C1: the contention scenario, lock steps at positions 0 and 3. -/
theorem lock_run_mutual_exclusion_witness :
    ∃ k S3, 0 < k ∧ k < 3 ∧
      (lock_run sr_ok (ex_contention ex_S1 ex_S2) World.init)[k]?
        = some (⟨.unlock, "running", S3⟩, .ok) :=
  lock_run_mutual_exclusion.1 sr_ok (ex_contention ex_S1 ex_S2) World.init "running" 0 3
    ex_S1 ex_S2 (by decide) (by decide) (by decide)

/-- C6 (as amended): when the caller owns the entry of running (resp. startup),
`op_unlock` makes the backend unlock call on the caller's handle; if that call returns OK
the reply is ok, the entry becomes empty and the other two entries keep their values; if it
returns any other status the reply is lock-denied with session id 0 and the lock table is
unchanged. -/
theorem op_unlock_owner (sr : Backend) (w : World) (S : nc_session) :
    (w.dslock.running = some S →
      (sr w.calls (.unlock_datastore S.data.running) = .SR_ERR_OK →
        op_unlock sr "running" S w =
          (.ok, ⟨⟨none, w.dslock.startup, w.dslock.candidate⟩,
                 w.calls ++ [.unlock_datastore S.data.running]⟩)) ∧
      (sr w.calls (.unlock_datastore S.data.running) ≠ .SR_ERR_OK →
        op_unlock sr "running" S w =
          (.err (.lock_denied 0),
            ⟨w.dslock, w.calls ++ [.unlock_datastore S.data.running]⟩))) ∧
    (w.dslock.startup = some S →
      (sr w.calls (.unlock_datastore S.data.startup) = .SR_ERR_OK →
        op_unlock sr "startup" S w =
          (.ok, ⟨⟨w.dslock.running, none, w.dslock.candidate⟩,
                 w.calls ++ [.unlock_datastore S.data.startup]⟩)) ∧
      (sr w.calls (.unlock_datastore S.data.startup) ≠ .SR_ERR_OK →
        op_unlock sr "startup" S w =
          (.err (.lock_denied 0),
            ⟨w.dslock, w.calls ++ [.unlock_datastore S.data.startup]⟩))) := by
  refine ⟨fun h => ⟨fun hrc => ?_, fun hrc => ?_⟩, fun h => ⟨fun hrc => ?_, fun hrc => ?_⟩⟩ <;>
    simp [op_unlock, lock_target, dsl_ptr.get, dsl_ptr.put, sr_do, h, hrc]

/-- Witness of C6 as amended: `ex_S1` unlocks running with an accepting and with a refusing backend. -/
theorem op_unlock_owner_witness :
    op_unlock sr_ok "running" ex_S1 ex_world_S1_running =
        (.ok, ⟨⟨none, none, none⟩, [.unlock_datastore 10]⟩) ∧
    op_unlock sr_fail "running" ex_S1 ex_world_S1_running =
        (.err (.lock_denied 0), ⟨⟨some ex_S1, none, none⟩, [.unlock_datastore 10]⟩) :=
  ⟨((op_unlock_owner sr_ok ex_world_S1_running ex_S1).1 rfl).1 rfl,
   ((op_unlock_owner sr_fail ex_world_S1_running ex_S1).1 rfl).2 (by decide)⟩

/-- C6 (counterexample to the claim as stated): `ex_S1` owns running and the backend
refuses the unlock call; `op_unlock` does not reply ok and the entry is not emptied. -/
theorem op_unlock_owner_backend_refusal :
    ex_world_S1_running.dslock.running = some ex_S1 ∧
    (op_unlock sr_fail "running" ex_S1 ex_world_S1_running).1 = .err (.lock_denied 0) ∧
    (op_unlock sr_fail "running" ex_S1 ex_world_S1_running).1 ≠ .ok ∧
    (op_unlock sr_fail "running" ex_S1 ex_world_S1_running).2.dslock.running
      = some ex_S1 := by
  decide

/-- C8 (as amended): for a session `S` that does not already own running (resp.
startup), and a backend whose unlock call returns OK in case the lock step replied ok,
running `op_lock`, then `op_editconfig` with any request, then `op_unlock` leaves the lock
table equal to the initial one. -/
theorem lock_edit_unlock_restores (sr : Backend) (rpc : edit_rpc) (S : nc_session)
    (w : World) :
    (w.dslock.running ≠ some S →
      ((op_lock sr "running" S w).1 = .ok →
        sr (op_editconfig sr rpc S (op_lock sr "running" S w).2).2.calls
          (.unlock_datastore S.data.running) = .SR_ERR_OK) →
      (op_unlock sr "running" S
        (op_editconfig sr rpc S (op_lock sr "running" S w).2).2).2.dslock = w.dslock) ∧
    (w.dslock.startup ≠ some S →
      ((op_lock sr "startup" S w).1 = .ok →
        sr (op_editconfig sr rpc S (op_lock sr "startup" S w).2).2.calls
          (.unlock_datastore S.data.startup) = .SR_ERR_OK) →
      (op_unlock sr "startup" S
        (op_editconfig sr rpc S (op_lock sr "startup" S w).2).2).2.dslock = w.dslock) := by
  obtain ⟨⟨r, s, c⟩, calls⟩ := w
  constructor
  · intro hne hrc
    have he := op_editconfig_dslock sr rpc S (op_lock sr "running" S ⟨⟨r, s, c⟩, calls⟩).2
    generalize op_editconfig sr rpc S (op_lock sr "running" S ⟨⟨r, s, c⟩, calls⟩).2 = res
      at he hrc ⊢
    obtain ⟨rep, ⟨d2, calls2⟩⟩ := res
    simp only at he hrc ⊢
    subst he
    cases r with
    | some O =>
      have hO : O ≠ S := fun h => hne (by rw [h])
      simp [op_lock, op_unlock, lock_target, dsl_ptr.get, hO]
    | none =>
      by_cases hl : sr calls (.lock_datastore S.data.running) = .SR_ERR_OK
      · simp [op_lock, lock_target, dsl_ptr.get, dsl_ptr.put, sr_do, hl] at hrc ⊢
        simp [op_unlock, lock_target, dsl_ptr.get, dsl_ptr.put, sr_do, hrc]
      · simp [op_lock, op_unlock, lock_target, dsl_ptr.get, sr_do, hl]
  · intro hne hrc
    have he := op_editconfig_dslock sr rpc S (op_lock sr "startup" S ⟨⟨r, s, c⟩, calls⟩).2
    generalize op_editconfig sr rpc S (op_lock sr "startup" S ⟨⟨r, s, c⟩, calls⟩).2 = res
      at he hrc ⊢
    obtain ⟨rep, ⟨d2, calls2⟩⟩ := res
    simp only at he hrc ⊢
    subst he
    cases s with
    | some O =>
      have hO : O ≠ S := fun h => hne (by rw [h])
      simp [op_lock, op_unlock, lock_target, dsl_ptr.get, hO]
    | none =>
      by_cases hl : sr calls (.lock_datastore S.data.startup) = .SR_ERR_OK
      · simp [op_lock, lock_target, dsl_ptr.get, dsl_ptr.put, sr_do, hl] at hrc ⊢
        simp [op_unlock, lock_target, dsl_ptr.get, dsl_ptr.put, sr_do, hrc]
      · simp [op_lock, op_unlock, lock_target, dsl_ptr.get, sr_do, hl]

/-- Witness of C8 as amended: `ex_S2` on a running held by `ex_S1`, and `ex_S1` on the free startup. -/
theorem lock_edit_unlock_restores_witness :
    (op_unlock sr_ok "running" ex_S2
      (op_editconfig sr_ok ex_rpc_running ex_S2
        (op_lock sr_ok "running" ex_S2 ex_world_mixed).2).2).2.dslock = ex_world_mixed.dslock ∧
    (op_unlock sr_ok "startup" ex_S1
      (op_editconfig sr_ok ex_rpc_running ex_S1
        (op_lock sr_ok "startup" ex_S1 World.init).2).2).2.dslock = World.init.dslock :=
  ⟨(lock_edit_unlock_restores sr_ok ex_rpc_running ex_S2 ex_world_mixed).1 (by decide)
      (fun _ => rfl),
   (lock_edit_unlock_restores sr_ok ex_rpc_running ex_S1 World.init).2 (by decide)
      (fun _ => rfl)⟩

/-- C8 (counterexample to the claim as stated): `ex_S1` already owns running; its lock
is denied, its edit is applied and its unlock succeeds, so the entry of running ends
empty and the lock table differs from the initial one. -/
theorem lock_edit_unlock_owner_counterexample :
    (op_unlock sr_ok "running" ex_S1
      (op_editconfig sr_ok ex_rpc_running ex_S1
        (op_lock sr_ok "running" ex_S1 ex_world_S1_running).2).2).2.dslock
      ≠ ex_world_S1_running.dslock := by
  decide

/-- C10 (evaluation at the failing input): with target candidate `op_editconfig` does
not reply invalid-value. With an empty configuration it replies ok; with the leaf `x` it
issues a set call whose datastore argument was never assigned and replies ok; with no
`config` node it replies operation-failed of application type. -/
theorem op_editconfig_candidate_target :
    op_editconfig sr_ok ⟨"candidate", none, some (.tree .null)⟩ ex_S1 World.init
      = (.ok, World.init) ∧
    op_editconfig sr_ok ⟨"candidate", none, some (.tree ex_leaf_x)⟩ ex_S1 World.init
      = (.ok, ⟨dslock_init, [.set_item none "/ex:x" none .SR_EDIT_DEFAULT]⟩) ∧
    op_editconfig sr_ok ⟨"candidate", none, none⟩ ex_S1 World.init
      = (.err (.typed .NC_ERR_OP_FAILED .NC_ERR_TYPE_APP none), World.init) := by
  decide

/-! ## Theorems: filter compiler -/

/-- Writing at the terminator of the string appends the text. -/
theorem sprintf_at_end (buf text : List Char) (size : Nat) (h : buf.length + 1 = size) :
    sprintf_at buf (size - 1) text = buf ++ text := by
  have h1 : size - 1 = buf.length := by omega
  simp [sprintf_at, h1]

/-- The length of a string is the length of its character list. -/
theorem str_len (s : String) : s.length = s.toList.length := rfl

/-- `xpath_buf_add_attrs` on a buffer holding a string of length `size - 1`. -/
theorem xpath_buf_add_attrs_sized (ctx : ly_ctx) (attrs : List lyxml_attr) :
    ∀ (buf : List Char) (size : Nat), buf.length + 1 = size →
      xpath_buf_add_attrs ctx attrs buf size
        = (size + (attrs_text ctx attrs).length, buf ++ attrs_text ctx attrs) := by
  induction attrs with
  | nil => intro b s _; simp [xpath_buf_add_attrs, attrs_text]
  | cons a rest ih =>
    intro b s h
    unfold xpath_buf_add_attrs
    by_cases hstd : a.std = true
    · cases hm : a.ns.bind (ly_ctx_get_module_by_ns ctx) with
      | none => simp [hstd, hm, attrs_text, attr_predicate, ih b s h]
      | some m =>
        simp only [hstd, hm, if_true]
        rw [sprintf_at_end b _ s h, ih _ _ (by
          simp only [str_len, List.length_append, List.length_cons, List.length_nil]; omega)]
        simp only [attrs_text, attr_predicate, hstd, hm, if_true, str_len,
          List.length_append, List.length_cons, List.length_nil, Prod.mk.injEq]
        constructor
        · simp only [String.toList, List.length_cons, List.length_nil]; omega
        · simp [String.toList]
    · simp [hstd, attrs_text, attr_predicate, ih b s h]

/-- C15: for a buffer holding a string of length `size - 1`, `xpath_buf_add_attrs` appends
the predicate texts of the attributes in attribute order (`[@mod:name='value']` for each
standard attribute whose namespace names a module, nothing for the others) and returns
the old size plus the number of characters appended. -/
theorem xpath_buf_add_attrs_appends (ctx : ly_ctx) (attrs : List lyxml_attr)
    (buf : List Char) (size : Nat) (h : buf.length + 1 = size) :
    xpath_buf_add_attrs ctx attrs buf size
      = (size + (attrs_text ctx attrs).length, buf ++ attrs_text ctx attrs) ∧
    (∀ a : lyxml_attr, a.std = true → ∀ ns m, a.ns = some ns →
      ly_ctx_get_module_by_ns ctx ns = some m →
      attr_predicate ctx a = ("[@" ++ m.name ++ ":" ++ a.name ++ "='" ++ a.value ++ "']").toList) ∧
    (∀ a : lyxml_attr, a.ns = none → attr_predicate ctx a = []) ∧
    (∀ a : lyxml_attr, ∀ ns, a.ns = some ns → ly_ctx_get_module_by_ns ctx ns = none →
      attr_predicate ctx a = []) := by
  refine ⟨xpath_buf_add_attrs_sized ctx attrs buf size h, ?_, ?_, ?_⟩
  · intro a hstd ns m hns hm
    simp [attr_predicate, hstd, hns, hm, String.toList]
  · intro a hns
    simp [attr_predicate, hns]
  · intro a ns hns hm
    simp [attr_predicate, hns, hm]

/-- The size added for a step is the length of its text and one more character. -/
theorem xpath_step_size_eq (emn : Option String) (name : String) :
    xpath_step_size emn name = (xpath_step_text emn name).length + 1 := by
  cases emn <;>
    simp only [xpath_step_size, xpath_step_text, str_len, List.length_append,
      List.length_cons] <;> omega

/-- `xpath_buf_add_attrs` on a buffer whose size is the length of its string plus one. -/
theorem xpath_buf_add_attrs_eq (ctx : ly_ctx) (attrs : List lyxml_attr) (buf : List Char) :
    xpath_buf_add_attrs ctx attrs buf (buf.length + 1)
      = ((buf ++ attrs_text ctx attrs).length + 1, buf ++ attrs_text ctx attrs) := by
  rw [xpath_buf_add_attrs_sized ctx attrs buf _ rfl]
  simp only [List.length_append, Prod.mk.injEq, and_true]
  omega

/-- `xpath_buf_add_node` on a buffer whose size is the length of its string plus one: a
drop when the namespace names no module, otherwise the step and the attribute predicates
are appended. -/
theorem xpath_buf_add_node_eq (ctx : ly_ctx) (e : lyxml_info) (emn : Option String)
    (ns : String) (buf : List Char) :
    xpath_buf_add_node ctx e emn ns buf (buf.length + 1) =
      match xpath_resolve ctx e emn ns with
      | none => (0, buf, ns)
      | some (emn1, ns1) =>
        ((buf ++ '/' :: xpath_step_text emn1 e.name ++ attrs_text ctx e.attr).length + 1,
          buf ++ '/' :: xpath_step_text emn1 e.name ++ attrs_text ctx e.attr, ns1) := by
  unfold xpath_buf_add_node
  cases hr : xpath_resolve ctx e emn ns with
  | none => rfl
  | some p =>
    obtain ⟨emn1, ns1⟩ := p
    simp only []
    rw [sprintf_at_end buf _ _ rfl]
    have hsz : buf.length + 1 + xpath_step_size emn1 e.name
        = (buf ++ '/' :: xpath_step_text emn1 e.name).length + 1 := by
      rw [xpath_step_size_eq]; simp only [List.length_append, List.length_cons]; omega
    rw [hsz, xpath_buf_add_attrs_eq]

/-- `xpath_buf_add_content` on a buffer whose size is the length of its string plus one:
a drop when the namespace names no module, otherwise `[step attrs='text']` is appended,
the text being the trimmed content. -/
theorem xpath_buf_add_content_eq (ctx : ly_ctx) (e : lyxml_info) (emn : Option String)
    (ns : String) (buf : List Char) :
    xpath_buf_add_content ctx e emn ns buf (buf.length + 1) =
      match xpath_resolve ctx e emn ns with
      | none => (0, buf, ns)
      | some (emn1, ns1) =>
        ((buf ++ '[' :: xpath_step_text emn1 e.name ++ attrs_text ctx e.attr
            ++ '=' :: '\'' :: (trimmed (e.content.getD "") ++ ['\'', ']'])).length + 1,
          buf ++ '[' :: xpath_step_text emn1 e.name ++ attrs_text ctx e.attr
            ++ '=' :: '\'' :: (trimmed (e.content.getD "") ++ ['\'', ']']), ns1) := by
  unfold xpath_buf_add_content
  cases hr : xpath_resolve ctx e emn ns with
  | none => rfl
  | some p =>
    obtain ⟨emn1, ns1⟩ := p
    simp only []
    rw [sprintf_at_end buf _ _ rfl]
    have hsz : buf.length + 1 + xpath_step_size emn1 e.name
        = (buf ++ '[' :: xpath_step_text emn1 e.name).length + 1 := by
      rw [xpath_step_size_eq]; simp only [List.length_append, List.length_cons]; omega
    rw [hsz, xpath_buf_add_attrs_eq]
    simp only []
    rw [sprintf_at_end _ _ _ rfl]
    simp only [List.length_append, List.length_cons, List.length_nil, List.append_assoc,
      Prod.mk.injEq, and_true]
    omega



/-- The first loop of `xpath_buf_add` when no content-match child is dropped: the
predicates are appended and the content-match children are unlinked. -/
theorem xpath_content_loop_some (ctx : ly_ctx) (emn : Option String) (chain : lyxml_elem) :
    ∀ (ns : String) (buf t : List Char) (ns2 : String),
      content_preds ctx emn chain ns = some (t, ns2) →
      xpath_content_loop ctx emn chain ns buf (buf.length + 1)
        = ((buf ++ t).length + 1, buf ++ t, ns2, lyxml_unlink_content chain) := by
  induction chain with
  | null =>
    intro ns buf t ns2 h
    simp only [content_preds, Option.some.injEq, Prod.mk.injEq] at h
    obtain ⟨rfl, rfl⟩ := h
    simp [xpath_content_loop, lyxml_unlink_content]
  | node c cc next _ ihn =>
    intro ns buf t ns2 h
    unfold content_preds at h
    unfold xpath_content_loop lyxml_unlink_content
    by_cases hc : content_match c cc = true
    · simp only [hc, if_true] at h ⊢
      rw [xpath_buf_add_content_eq]
      cases hr : xpath_resolve ctx c emn ns with
      | none => simp [hr] at h
      | some p =>
        obtain ⟨emn1, ns1⟩ := p
        simp only [hr] at h ⊢
        cases hp : content_preds ctx emn next ns1 with
        | none => simp [hp] at h
        | some q =>
          obtain ⟨t1, ns3⟩ := q
          simp only [hp, Option.some.injEq, Prod.mk.injEq] at h
          obtain ⟨rfl, rfl⟩ := h
          rw [ihn ns1 _ t1 ns3 hp]
          simp [List.append_assoc]
    · simp only [hc] at h ⊢
      rw [ihn ns buf t ns2 h]
      simp

/-- The first loop of `xpath_buf_add` returns 0 when a content-match child is dropped. -/
theorem xpath_content_loop_none (ctx : ly_ctx) (emn : Option String) (chain : lyxml_elem) :
    ∀ (ns : String) (buf : List Char), content_preds ctx emn chain ns = none →
      (xpath_content_loop ctx emn chain ns buf (buf.length + 1)).1 = 0 := by
  induction chain with
  | null => intro ns buf h; simp [content_preds] at h
  | node c cc next _ ihn =>
    intro ns buf h
    unfold content_preds at h
    unfold xpath_content_loop
    by_cases hc : content_match c cc = true
    · simp only [hc, if_true] at h ⊢
      rw [xpath_buf_add_content_eq]
      cases hr : xpath_resolve ctx c emn ns with
      | none => simp
      | some p =>
        obtain ⟨emn1, ns1⟩ := p
        simp only [hr] at h ⊢
        cases hp : content_preds ctx emn next ns1 with
        | none => exact ihn ns1 _ hp
        | some q => simp [hp] at h
    · simp only [hc] at h ⊢
      exact ihn ns buf h

/-- The start of `xpath_buf_add` when nothing is dropped. -/
theorem xpath_buf_add_head_some (ctx : ly_ctx) (e : lyxml_info) (child : lyxml_elem)
    (emn : Option String) (ns : String) (buf : List Char) (emn1 : Option String)
    (ns1 : String) (t : List Char) (ns2 : String)
    (hr : xpath_resolve ctx e emn ns = some (emn1, ns1))
    (hp : content_preds ctx emn child ns1 = some (t, ns2)) :
    xpath_buf_add_head ctx e child emn ns buf (buf.length + 1)
      = ((buf ++ '/' :: xpath_step_text emn1 e.name ++ attrs_text ctx e.attr ++ t).length + 1,
          buf ++ '/' :: xpath_step_text emn1 e.name ++ attrs_text ctx e.attr ++ t, ns2,
          lyxml_unlink_content child) := by
  unfold xpath_buf_add_head
  rw [xpath_buf_add_node_eq, hr]
  simp only []
  rw [xpath_content_loop_some ctx emn child ns1 _ t ns2 hp]

/-- The start of `xpath_buf_add` returns 0 when the element or a content-match child is
dropped. -/
theorem xpath_buf_add_head_none (ctx : ly_ctx) (e : lyxml_info) (child : lyxml_elem)
    (emn : Option String) (ns : String) (buf : List Char)
    (h : xpath_resolve ctx e emn ns = none ∨
      ∃ emn1 ns1, xpath_resolve ctx e emn ns = some (emn1, ns1) ∧
        content_preds ctx emn child ns1 = none) :
    (xpath_buf_add_head ctx e child emn ns buf (buf.length + 1)).1 = 0 := by
  unfold xpath_buf_add_head
  rw [xpath_buf_add_node_eq]
  rcases h with hr | ⟨emn1, ns1, hr, hp⟩
  · simp [hr]
  · simp only [hr]
    exact xpath_content_loop_none ctx emn child ns1 _ hp

/-- The second loop of `xpath_buf_add` gives the same result on the unlinked chain and on
the chain in which the content-match children are still present. -/
theorem xpath_branch_unlink (ctx : ly_ctx) (chain : lyxml_elem) :
    ∀ (ns : String) (buf : List Char) (size : Nat) (fs : List String),
      xpath_branch ctx (lyxml_unlink_content chain) ns buf size fs
        = xpath_branch ctx chain ns buf size fs := by
  induction chain with
  | null => intro ns buf size fs; rfl
  | node c cc next _ ihn =>
    intro ns buf size fs
    cases hc : content_match c cc with
    | true =>
      simp only [lyxml_unlink_content, hc, if_true]
      rw [ihn]
      conv_rhs => unfold xpath_branch
      simp only [hc, if_true]
    | false =>
      simp only [lyxml_unlink_content, hc, Bool.false_eq_true, if_false]
      unfold xpath_branch
      simp only [hc, Bool.false_eq_true, if_false, ihn]

/-- The filters and the final `last_ns` of the second loop of `xpath_buf_add`, for a
buffer whose size is the length of its string plus one. -/
theorem xpath_branch_eq_ref (ctx : ly_ctx) (chain : lyxml_elem) :
    ∀ (ns : String) (buf : List Char) (fs : List String),
      (xpath_branch ctx chain ns buf (buf.length + 1) fs).1
          = fs ++ (xpath_branch_ref ctx chain ns buf).1 ∧
      (xpath_branch ctx chain ns buf (buf.length + 1) fs).2.1
          = (xpath_branch_ref ctx chain ns buf).2 := by
  induction chain with
  | null => intro ns buf fs; simp [xpath_branch, xpath_branch_ref]
  | node c cc next ihc ihn =>
    intro ns buf fs
    unfold xpath_branch xpath_branch_ref
    by_cases hc : content_match c cc = true
    · simp only [hc, if_true]
      exact ihn ns buf fs
    · simp only [hc]
      by_cases hcc : cc = .null
      · -- selection node
        simp only [hcc, ne_eq, not_true_eq_false, if_false]
        rw [xpath_buf_add_node_eq]
        cases hr : xpath_resolve ctx c none ns with
        | none =>
          simp only []
          exact ⟨(ihn ns buf fs).1, (ihn ns buf fs).2⟩
        | some p =>
          obtain ⟨emn1, ns1⟩ := p
          simp only [xpath_add_filter]
          have h := ihn ns1 buf (fs ++ [String.mk
            (buf ++ '/' :: xpath_step_text emn1 c.name ++ attrs_text ctx c.attr)])
          exact ⟨by rw [h.1]; simp, h.2⟩
      · -- containment node
        simp only [hcc, ne_eq, not_false_eq_true, if_true]
        cases hr : xpath_resolve ctx c none ns with
        | none =>
          have h0 := xpath_buf_add_head_none ctx c cc none ns buf (Or.inl hr)
          rcases hh : xpath_buf_add_head ctx c cc none ns buf (buf.length + 1)
            with ⟨s, b, n, c1⟩
          rw [hh] at h0
          simp only at h0
          subst h0
          simp only []
          exact ⟨(ihn ns buf fs).1, (ihn ns buf fs).2⟩
        | some p =>
          obtain ⟨emn1, ns1⟩ := p
          simp only []
          cases hp : content_preds ctx none cc ns1 with
          | none =>
            have h0 := xpath_buf_add_head_none ctx c cc none ns buf
              (Or.inr ⟨emn1, ns1, hr, hp⟩)
            rcases hh : xpath_buf_add_head ctx c cc none ns buf (buf.length + 1)
              with ⟨s, b, n, c1⟩
            rw [hh] at h0
            simp only at h0
            subst h0
            simp only []
            exact ⟨(ihn ns buf fs).1, (ihn ns buf fs).2⟩
          | some q =>
            obtain ⟨t, ns2⟩ := q
            rw [xpath_buf_add_head_some ctx c cc none ns buf emn1 ns1 t ns2 hr hp]
            simp only []
            by_cases hu : lyxml_unlink_content cc = .null
            · simp only [hu, if_true, xpath_add_filter]
              have h := ihn ns buf (fs ++ [String.mk
                (buf ++ '/' :: xpath_step_text emn1 c.name ++ attrs_text ctx c.attr ++ t)])
              exact ⟨by rw [h.1]; simp, h.2⟩
            · simp only [hu, if_false]
              have h1 := ihc ns2
                (buf ++ '/' :: xpath_step_text emn1 c.name ++ attrs_text ctx c.attr ++ t) fs
              have h2 := ihn ns buf (xpath_branch ctx cc ns2
                (buf ++ '/' :: xpath_step_text emn1 c.name ++ attrs_text ctx c.attr ++ t)
                ((buf ++ '/' :: xpath_step_text emn1 c.name ++ attrs_text ctx c.attr
                  ++ t).length + 1) fs).1
              exact ⟨by rw [h2.1, h1.1]; simp, h2.2⟩

/-- The filters added by `xpath_buf_add`, for a buffer whose size is the length of its
string plus one. -/
theorem xpath_buf_add_fst (ctx : ly_ctx) (e : lyxml_info) (child : lyxml_elem)
    (emn : Option String) (ns : String) (buf : List Char) (fs : List String) :
    (xpath_buf_add ctx e child emn ns buf (buf.length + 1) fs).1
      = fs ++ xpath_buf_add_ref ctx e child emn ns buf := by
  unfold xpath_buf_add xpath_buf_add_ref
  cases hr : xpath_resolve ctx e emn ns with
  | none =>
    have h0 := xpath_buf_add_head_none ctx e child emn ns buf (Or.inl hr)
    rcases hh : xpath_buf_add_head ctx e child emn ns buf (buf.length + 1)
      with ⟨s, b, n, c1⟩
    rw [hh] at h0
    simp only at h0
    subst h0
    simp
  | some p =>
    obtain ⟨emn1, ns1⟩ := p
    simp only []
    cases hp : content_preds ctx emn child ns1 with
    | none =>
      have h0 := xpath_buf_add_head_none ctx e child emn ns buf
        (Or.inr ⟨emn1, ns1, hr, hp⟩)
      rcases hh : xpath_buf_add_head ctx e child emn ns buf (buf.length + 1)
        with ⟨s, b, n, c1⟩
      rw [hh] at h0
      simp only at h0
      subst h0
      simp
    | some q =>
      obtain ⟨t, ns2⟩ := q
      rw [xpath_buf_add_head_some ctx e child emn ns buf emn1 ns1 t ns2 hr hp]
      simp only []
      by_cases hu : lyxml_unlink_content child = .null
      · simp [hu, xpath_add_filter]
      · simp only [hu, if_false]
        exact (xpath_branch_eq_ref ctx child ns2 _ fs).1

/-- The filters added by `xpath_buf_add` when it is called with an empty buffer. -/
theorem xpath_buf_add_fst_nil (ctx : ly_ctx) (e : lyxml_info) (child : lyxml_elem)
    (emn : Option String) (ns : String) (fs : List String) :
    (xpath_buf_add ctx e child emn ns [] 1 fs).1
      = fs ++ xpath_buf_add_ref ctx e child emn ns [] :=
  xpath_buf_add_fst ctx e child emn ns [] fs

/-- The filter added by `xpath_buf_add_top_content`. -/
theorem xpath_buf_add_top_content_eq (ctx : ly_ctx) (e : lyxml_info) (m : String)
    (fs : List String) :
    xpath_buf_add_top_content ctx e m fs
      = fs ++ [String.mk ('/' :: (m.toList ++ ':' :: (e.name.toList ++ "[text()='".toList
          ++ trimmed (e.content.getD "") ++ ['\'', ']'])) ++ attrs_text ctx e.attr)] := by
  unfold xpath_buf_add_top_content
  simp only []
  have hsz : 1 + m.length + 1 + e.name.length + 9 + (trimmed (e.content.getD "")).length + 3
      = ('/' :: (m.toList ++ ':' :: (e.name.toList ++ "[text()='".toList
          ++ trimmed (e.content.getD "") ++ ['\'', ']']))).length + 1 := by
    simp only [str_len, List.length_append, List.length_cons, List.length_nil, String.toList]
    omega
  rw [hsz, xpath_buf_add_attrs_eq]
  simp [xpath_add_filter]

/-- The loop over the modules only appends to the list of filters. -/
theorem filter_fanout_appends (ctx : ly_ctx) (e : lyxml_info) (ms : List lys_module) :
    ∀ (child : lyxml_elem) (fs : List String),
      ∃ l, filter_fanout ctx e ms child fs = fs ++ l := by
  induction ms with
  | nil => intro child fs; exact ⟨[], by simp [filter_fanout]⟩
  | cons m rest ih =>
    intro child fs
    unfold filter_fanout
    by_cases hc : content_match e child = true
    · simp only [hc, if_true]
      obtain ⟨l, hl⟩ := ih child (xpath_buf_add_top_content ctx e m.name fs)
      rw [hl, xpath_buf_add_top_content_eq]
      exact ⟨_, List.append_assoc _ _ _⟩
    · simp only [hc]
      obtain ⟨l, hl⟩ := ih (xpath_buf_add ctx e child (some m.name) m.ns [] 1 fs).2
        (xpath_buf_add ctx e child (some m.name) m.ns [] 1 fs).1
      rw [hl, xpath_buf_add_fst_nil]
      exact ⟨_, List.append_assoc _ _ _⟩

/-- The loop over the top-level elements only appends to the list of filters. -/
theorem build_xpath_loop_appends (ctx : ly_ctx) (elem : lyxml_elem) :
    ∀ fs : List String, ∃ l, build_xpath_loop ctx elem fs = fs ++ l := by
  induction elem with
  | null => intro fs; exact ⟨[], by simp [build_xpath_loop]⟩
  | node e child rest _ ihn =>
    intro fs
    unfold build_xpath_loop
    cases hm : filter_modules ctx e with
    | none => exact ihn fs
    | some ms =>
      simp only []
      obtain ⟨l1, h1⟩ := filter_fanout_appends ctx e ms child fs
      obtain ⟨l2, h2⟩ := ihn (filter_fanout ctx e ms child fs)
      rw [h2, h1]
      exact ⟨_, List.append_assoc _ _ _⟩

/-- A top-level element without content-match test that resolves to the one module `m`
compiles to what `xpath_buf_add` adds for `m`. -/
theorem build_xpath_single (ctx : ly_ctx) (e : lyxml_info) (child : lyxml_elem)
    (m : lys_module) (hm : filter_modules ctx e = some [m])
    (hc : content_match e child = false) :
    build_xpath_from_subtree_filter ctx (.node e child .null) []
      = (0, xpath_buf_add_ref ctx e child (some m.name) m.ns []) := by
  simp only [build_xpath_from_subtree_filter, build_xpath_loop, hm, filter_fanout, hc,
    Bool.false_eq_true, if_false]
  rw [xpath_buf_add_fst_nil]
  simp


/-- The module found for a namespace has that namespace. -/
theorem ly_ctx_get_module_by_ns_ns (ctx : ly_ctx) (ns : String) (m : lys_module)
    (h : ly_ctx_get_module_by_ns ctx ns = some m) : m.ns = ns := by
  have := List.find?_some h
  simpa using this

/-- The modules of a top-level element whose namespace names the module `m`. -/
theorem filter_modules_ns (ctx : ly_ctx) (e : lyxml_info) (ns : String) (m : lys_module)
    (he : e.ns = some ns) (hns : ns ≠ NC_NS_BASE)
    (hm : ly_ctx_get_module_by_ns ctx ns = some m) : filter_modules ctx e = some [m] := by
  simp [filter_modules, he, hns, hm]

/-- A chain of empty elements in the namespace in force has no content-match child. -/
theorem content_preds_selection_chain (ctx : ly_ctx) (emn : Option String) (ns : String)
    (names : List String) (last_ns : String) :
    content_preds ctx emn (selection_chain ns names) last_ns = some ([], last_ns) := by
  induction names with
  | nil => rfl
  | cons n rest ih => simp [selection_chain, xml_elem, content_preds, content_match, ih]

/-- Nothing is unlinked from a chain of empty elements. -/
theorem lyxml_unlink_selection_chain (ns : String) (names : List String) :
    lyxml_unlink_content (selection_chain ns names) = selection_chain ns names := by
  induction names with
  | nil => rfl
  | cons n rest ih => simp [selection_chain, xml_elem, lyxml_unlink_content, content_match, ih]

/-- The second loop on a chain of empty elements in the namespace in force: one filter per
element, the path of the parent followed by `/name`. -/
theorem xpath_branch_ref_selection_chain (ctx : ly_ctx) (ns : String) (names : List String)
    (buf : List Char) :
    xpath_branch_ref ctx (selection_chain ns names) ns buf
      = (names.map (fun c => String.mk (buf ++ '/' :: c.toList)), ns) := by
  induction names with
  | nil => rfl
  | cons n rest ih =>
    simp [selection_chain, xml_elem, xpath_branch_ref, content_match, xpath_resolve,
      xpath_step_text, attrs_text]
    simp [selection_chain, xml_elem] at ih
    simp [ih]

/-- C11 (as amended): a top-level element `top` with one containment child `a` that has
one content-match child `b` with content `v`, all in a namespace `ns` that names the
module `m`, compiles to the single XPath `/m:top/a[b='v']`, where `v` is trimmed: only the
top-level step carries the module prefix, as the namespace of `a` and `b` is the one
already in force. -/
theorem filter_containment_content (ctx : ly_ctx) (ns : String) (m : lys_module)
    (top a b v : String) (hns : ns ≠ NC_NS_BASE)
    (hm : ly_ctx_get_module_by_ns ctx ns = some m) (hv : strws v.toList = false) :
    build_xpath_from_subtree_filter ctx
      (xml_elem top (some ns) none
        (xml_elem a (some ns) none (xml_elem b (some ns) (some v) .null .null) .null)
        .null) []
      = (0, [String.mk ('/' :: (m.name.toList ++ ':' :: top.toList) ++ '/' :: a.toList
              ++ '[' :: b.toList ++ '=' :: '\'' :: (trimmed v ++ ['\'', ']']))]) := by
  have hmns := ly_ctx_get_module_by_ns_ns ctx ns m hm
  subst hmns
  unfold xml_elem
  rw [build_xpath_single ctx _ _ m (filter_modules_ns ctx _ m.ns m rfl hns hm)
    (by simp [content_match])]
  have hv1 : strws v.data = false := hv
  simp [xpath_buf_add_ref, xpath_resolve, content_preds, content_match, hv1,
    lyxml_unlink_content, xpath_branch_ref, xpath_step_text, attrs_text]

/-- Witness of C11 as amended: the filter `<top xmlns="urn:ex"><a><b>7</b></a></top>`
compiles to `/ex:top/a[b='7']`. -/
theorem filter_containment_content_witness :
    build_xpath_from_subtree_filter ex_ctx ex_filter_content []
      = (0, ["/ex:top/a[b='7']"]) :=
  filter_containment_content ex_ctx "urn:ex" ⟨"ex", "urn:ex", [⟨"top", .LYS_CONTAINER⟩]⟩
    "top" "a" "b" "7" (by decide) (by decide) (by decide)

/-- C11 (counterexample to the claim as stated): in a registry that maps `urn:ex` to the
module `ex`, the filter `<top xmlns="urn:ex"><a><b>7</b></a></top>` does not compile to
`/ex:top/ex:a[ex:b='7']`. -/
theorem filter_containment_content_unprefixed :
    ly_ctx_get_module_by_ns ex_ctx "urn:ex"
      = some ⟨"ex", "urn:ex", [⟨"top", .LYS_CONTAINER⟩]⟩ ∧
    (build_xpath_from_subtree_filter ex_ctx ex_filter_content []).2
      ≠ ["/ex:top/ex:a[ex:b='7']"] := by
  decide

/-- C12 (as amended): a top-level containment node `top` whose children are `n ≥ 1` empty
elements, all in a namespace `ns` that names the module `m`, compiles to `n` XPaths, one
per child in document order, each being `/m:top` followed by `/child` without a module
prefix. -/
theorem filter_selection_children (ctx : ly_ctx) (ns : String) (m : lys_module)
    (top : String) (names : List String) (hns : ns ≠ NC_NS_BASE)
    (hm : ly_ctx_get_module_by_ns ctx ns = some m) (hn : names ≠ []) :
    build_xpath_from_subtree_filter ctx
      (xml_elem top (some ns) none (selection_chain ns names) .null) []
      = (0, names.map (fun c =>
          String.mk ('/' :: (m.name.toList ++ ':' :: top.toList) ++ '/' :: c.toList))) := by
  have hmns := ly_ctx_get_module_by_ns_ns ctx ns m hm
  subst hmns
  have hne : selection_chain m.ns names ≠ .null := by
    cases names with
    | nil => exact absurd rfl hn
    | cons n rest => simp [selection_chain, xml_elem]
  unfold xml_elem
  rw [build_xpath_single ctx _ _ m (filter_modules_ns ctx _ m.ns m rfl hns hm)
    (by simp [content_match, hne])]
  simp [xpath_buf_add_ref, xpath_resolve, content_preds_selection_chain,
    lyxml_unlink_selection_chain, hne, xpath_branch_ref_selection_chain, xpath_step_text,
    attrs_text]

/-- Witness of C12 as amended: the filter `<top xmlns="urn:ex"><a/><b/></top>` compiles to
`/ex:top/a` followed by `/ex:top/b`. -/
theorem filter_selection_children_witness :
    build_xpath_from_subtree_filter ex_ctx ex_filter_branch []
      = (0, ["/ex:top/a", "/ex:top/b"]) :=
  filter_selection_children ex_ctx "urn:ex" ⟨"ex", "urn:ex", [⟨"top", .LYS_CONTAINER⟩]⟩
    "top" ["a", "b"] (by decide) (by decide) (by decide)

/-- C12 (counterexample to the claim as stated): in a registry that maps `urn:ex` to the
module `ex`, the filter `<top xmlns="urn:ex"><a/><b/></top>` does not compile to
`/ex:top/ex:a` followed by `/ex:top/ex:b`. -/
theorem filter_selection_children_unprefixed :
    ly_ctx_get_module_by_ns ex_ctx "urn:ex"
      = some ⟨"ex", "urn:ex", [⟨"top", .LYS_CONTAINER⟩]⟩ ∧
    (build_xpath_from_subtree_filter ex_ctx ex_filter_branch []).2
      ≠ ["/ex:top/ex:a", "/ex:top/ex:b"] := by
  decide


/-- The namespace step succeeds when a module name is given or the namespace of the
element can be resolved. -/
theorem xpath_resolve_some (ctx : ly_ctx) (e : lyxml_info) (emn : Option String)
    (ns : String) (h : emn.isSome = true ∨ ns_resolvable ctx e = true) :
    ∃ p, xpath_resolve ctx e emn ns = some p := by
  unfold xpath_resolve
  cases emn with
  | some m => exact ⟨_, rfl⟩
  | none =>
    cases hns : e.ns with
    | none => exact ⟨_, rfl⟩
    | some v =>
      by_cases hc : v ≠ ns ∧ v ≠ NC_NS_BASE
      · simp only []
        rw [if_pos hc]
        rcases h with h | h
        · simp at h
        · simp only [ns_resolvable, hns, Bool.or_eq_true, decide_eq_true_eq] at h
          rcases h with h | h
          · exact absurd h hc.2
          · cases hm : ly_ctx_get_module_by_ns ctx v with
            | none => simp [hm] at h
            | some m => exact ⟨_, rfl⟩
      · simp only []
        rw [if_neg hc]
        exact ⟨_, rfl⟩

/-- No content-match child is dropped when a module name is given or the chain can be
resolved. -/
theorem content_preds_some (ctx : ly_ctx) (emn : Option String) (chain : lyxml_elem) :
    ∀ ns : String, emn.isSome = true ∨ lyxml_resolvable ctx chain = true →
      ∃ p, content_preds ctx emn chain ns = some p := by
  induction chain with
  | null => intro ns _; exact ⟨_, rfl⟩
  | node c cc next _ ihn =>
    intro ns h
    have hnext : emn.isSome = true ∨ lyxml_resolvable ctx next = true := by
      rcases h with h | h
      · exact Or.inl h
      · simp only [lyxml_resolvable, Bool.and_eq_true] at h
        exact Or.inr h.2
    have hc1 : emn.isSome = true ∨ ns_resolvable ctx c = true := by
      rcases h with h | h
      · exact Or.inl h
      · simp only [lyxml_resolvable, Bool.and_eq_true] at h
        exact Or.inr h.1.1
    unfold content_preds
    by_cases hc : content_match c cc = true
    · simp only [hc, if_true]
      obtain ⟨⟨emn1, ns1⟩, hr⟩ := xpath_resolve_some ctx c emn ns hc1
      obtain ⟨⟨t, ns2⟩, hp⟩ := ihn ns1 hnext
      simp only [hr, hp]
      exact ⟨_, rfl⟩
    · simp only [hc]
      exact ihn ns hnext

/-- The second loop adds at least one filter for a chain that can be resolved and keeps a
child after the content-match children are unlinked. -/
theorem xpath_branch_ref_ne_nil (ctx : ly_ctx) (chain : lyxml_elem) :
    ∀ (ns : String) (buf : List Char), lyxml_resolvable ctx chain = true →
      lyxml_unlink_content chain ≠ .null → (xpath_branch_ref ctx chain ns buf).1 ≠ [] := by
  induction chain with
  | null => intro ns buf _ h; exact absurd rfl h
  | node c cc next ihc ihn =>
    intro ns buf hres hun
    simp only [lyxml_resolvable, Bool.and_eq_true] at hres
    obtain ⟨⟨hrc, hrcc⟩, hrn⟩ := hres
    unfold xpath_branch_ref
    cases hc : content_match c cc with
    | true =>
      simp only [if_true]
      simp only [lyxml_unlink_content, hc, if_true] at hun
      exact ihn ns buf hrn hun
    | false =>
      simp only [Bool.false_eq_true, if_false]
      obtain ⟨⟨emn1, ns1⟩, hr⟩ := xpath_resolve_some ctx c none ns (Or.inr hrc)
      by_cases hcc : cc = .null
      · simp [hcc, hr]
      · obtain ⟨⟨t, ns2⟩, hp⟩ := content_preds_some ctx none cc ns1 (Or.inr hrcc)
        simp only [hcc, ne_eq, not_false_eq_true, if_true, hr, hp]
        by_cases hu : lyxml_unlink_content cc = .null
        · simp [hu]
        · simp only [hu, if_false]
          have := ihc ns2 (buf ++ '/' :: xpath_step_text emn1 c.name
            ++ attrs_text ctx c.attr ++ t) hrcc hu
          exact fun hab => this (List.append_eq_nil.mp hab).1

/-- `xpath_buf_add` with a module name adds at least one filter when the children of the
element can be resolved. -/
theorem xpath_buf_add_ref_ne_nil (ctx : ly_ctx) (e : lyxml_info) (child : lyxml_elem)
    (m ns : String) (buf : List Char) (h : lyxml_resolvable ctx child = true) :
    xpath_buf_add_ref ctx e child (some m) ns buf ≠ [] := by
  unfold xpath_buf_add_ref
  obtain ⟨⟨emn1, ns1⟩, hr⟩ := xpath_resolve_some ctx e (some m) ns (Or.inl rfl)
  obtain ⟨⟨t, ns2⟩, hp⟩ := content_preds_some ctx (some m) child ns1 (Or.inl rfl)
  simp only [hr, hp]
  by_cases hu : lyxml_unlink_content child = .null
  · simp [hu]
  · simp only [hu, if_false]
    exact xpath_branch_ref_ne_nil ctx child ns2 _ h hu

/-- The loop over a non-empty list of modules adds at least one filter when the children
of the element can be resolved. -/
theorem filter_fanout_grows (ctx : ly_ctx) (e : lyxml_info) (m : lys_module)
    (ms : List lys_module) (child : lyxml_elem) (fs : List String)
    (h : lyxml_resolvable ctx child = true) :
    fs.length + 1 ≤ (filter_fanout ctx e (m :: ms) child fs).length := by
  unfold filter_fanout
  by_cases hc : content_match e child = true
  · simp only [hc, if_true]
    obtain ⟨l, hl⟩ := filter_fanout_appends ctx e ms child
      (xpath_buf_add_top_content ctx e m.name fs)
    rw [hl, xpath_buf_add_top_content_eq]
    simp only [List.length_append, List.length_cons, List.length_nil]
    omega
  · simp only [hc]
    obtain ⟨l, hl⟩ := filter_fanout_appends ctx e ms
      (xpath_buf_add ctx e child (some m.name) m.ns [] 1 fs).2
      (xpath_buf_add ctx e child (some m.name) m.ns [] 1 fs).1
    rw [hl, xpath_buf_add_fst_nil]
    have hne := xpath_buf_add_ref_ne_nil ctx e child m.name m.ns [] h
    have hpos : 1 ≤ (xpath_buf_add_ref ctx e child (some m.name) m.ns []).length :=
      List.length_pos.mpr hne
    simp only [Bool.false_eq_true, if_false, List.length_append]
    omega

/-- The loop over the top-level elements adds at least one filter per element when every
element has a module and descendants that can be resolved. -/
theorem build_xpath_loop_grows (ctx : ly_ctx) (elem : lyxml_elem) :
    ∀ fs : List String,
      (∀ p ∈ lyxml_siblings elem, ∃ m ms, filter_modules ctx p.1 = some (m :: ms)) →
      (∀ p ∈ lyxml_siblings elem, lyxml_resolvable ctx p.2 = true) →
      fs.length + (lyxml_siblings elem).length ≤ (build_xpath_loop ctx elem fs).length := by
  induction elem with
  | null => intro fs _ _; simp [lyxml_siblings, build_xpath_loop]
  | node e child rest _ ihn =>
    intro fs h1 h2
    obtain ⟨m, ms, hm⟩ := h1 (e, child) (by simp [lyxml_siblings])
    have hres := h2 (e, child) (by simp [lyxml_siblings])
    have h1r : ∀ p ∈ lyxml_siblings rest, ∃ m ms, filter_modules ctx p.1 = some (m :: ms) :=
      fun p hp => h1 p (by simp [lyxml_siblings, hp])
    have h2r : ∀ p ∈ lyxml_siblings rest, lyxml_resolvable ctx p.2 = true :=
      fun p hp => h2 p (by simp [lyxml_siblings, hp])
    unfold build_xpath_loop
    simp only [hm, lyxml_siblings, List.length_cons]
    have hg := filter_fanout_grows ctx e m ms child fs hres
    have hi := ihn (filter_fanout ctx e (m :: ms) child fs) h1r h2r
    omega

/-- C14 (as amended): when each of the `K` top-level elements of a filter resolves to at
least one module and every element below them has a namespace that can be resolved (none,
the base namespace, or the namespace of a module), `build_xpath_from_subtree_filter`
returns 0 with at least `K` XPaths. -/
theorem build_xpath_at_least_one_per_element (ctx : ly_ctx) (elem : lyxml_elem)
    (h1 : ∀ p ∈ lyxml_siblings elem, ∃ m ms, filter_modules ctx p.1 = some (m :: ms))
    (h2 : ∀ p ∈ lyxml_siblings elem, lyxml_resolvable ctx p.2 = true) :
    (build_xpath_from_subtree_filter ctx elem []).1 = 0 ∧
    (lyxml_siblings elem).length ≤ (build_xpath_from_subtree_filter ctx elem []).2.length := by
  refine ⟨rfl, ?_⟩
  have := build_xpath_loop_grows ctx elem [] h1 h2
  simpa [build_xpath_from_subtree_filter] using this

/-- Witness of C14 as amended: the filter `<top xmlns="urn:ex"><a/><b/></top>` has one
top-level element and compiles to two XPaths. -/
theorem build_xpath_at_least_one_per_element_witness :
    (build_xpath_from_subtree_filter ex_ctx ex_filter_branch []).1 = 0 ∧
    (lyxml_siblings ex_filter_branch).length
      ≤ (build_xpath_from_subtree_filter ex_ctx ex_filter_branch []).2.length :=
  build_xpath_at_least_one_per_element ex_ctx ex_filter_branch
    (fun p hp => by
      simp only [ex_filter_branch, xml_elem, lyxml_siblings, List.mem_singleton] at hp
      subst hp
      exact ⟨⟨"ex", "urn:ex", [⟨"top", .LYS_CONTAINER⟩]⟩, [], by decide⟩)
    (by decide)

/-- C14 (counterexample to the claim as stated): the one top-level element of
`<top xmlns="urn:ex"><a xmlns="urn:unknown"/></top>` resolves to the module `ex`, and the
filter compiles to no XPath at all, as the child is dropped. -/
theorem build_xpath_unknown_child_dropped :
    (∀ p ∈ lyxml_siblings ex_filter_unknown_ns,
      ∃ m ms, filter_modules ex_ctx p.1 = some (m :: ms)) ∧
    (lyxml_siblings ex_filter_unknown_ns).length = 1 ∧
    build_xpath_from_subtree_filter ex_ctx ex_filter_unknown_ns [] = (0, []) := by
  refine ⟨?_, by decide, by decide⟩
  intro p hp
  simp only [ex_filter_unknown_ns, xml_elem, lyxml_siblings, List.mem_singleton] at hp
  subst hp
  exact ⟨⟨"ex", "urn:ex", [⟨"top", .LYS_CONTAINER⟩]⟩, [], by decide⟩

/-- C13 (evaluation at the failing input): the filter `<top><b> 7 </b><c/></top>` without
namespace fans out to the modules `ex` and `other`. Compiled for `other` alone it gives
`/other:top[other:b='7']/c`, but in the fan-out the branch of `other` has lost the
content-match predicate, which the call for `ex` unlinked from the tree. -/
theorem filter_fanout_loses_content_match :
    filter_modules ex_ctx ⟨"top", none, [], none⟩
      = some [⟨"ex", "urn:ex", [⟨"top", .LYS_CONTAINER⟩]⟩,
              ⟨"other", "urn:other", [⟨"top", .LYS_CONTAINER⟩]⟩] ∧
    build_xpath_from_subtree_filter ex_ctx ex_filter_fanout []
      = (0, ["/ex:top[ex:b='7']/c", "/other:top/c"]) ∧
    (xpath_buf_add ex_ctx ⟨"top", none, [], none⟩
        (xml_elem "b" none (some " 7 ") .null (xml_elem "c" none none .null .null))
        (some "other") "urn:other" [] 1 []).1
      = ["/other:top[other:b='7']/c"] := by
  decide


/-! ## Theorems: `op_get` without filter -/

/-- The search through `module->data` stops at a node exactly when the module has data. -/
theorem op_get_find_data (m : lys_module) :
    (m.data.find? (fun snode =>
      !(snode.nodetype = .LYS_GROUPING || snode.nodetype = .LYS_NOTIF
        || snode.nodetype = .LYS_RPC))).isSome = m.has_data := by
  unfold lys_module.has_data
  induction m.data with
  | nil => rfl
  | cons n rest ih =>
    simp only [List.find?_cons, List.any_cons]
    cases n.nodetype <;> simp_all

/-- The loop over the modules appends `/name:*` for every module with data, in order. -/
theorem op_get_module_filters_eq (ms : List lys_module) :
    ∀ fs : List String, op_get_module_filters ms fs
      = fs ++ (ms.filter (fun m => m.has_data)).map (fun m => "/" ++ m.name ++ ":*") := by
  induction ms with
  | nil => intro fs; simp [op_get_module_filters]
  | cons m rest ih =>
    intro fs
    have hf := op_get_find_data m
    unfold op_get_module_filters
    cases hfind : m.data.find? (fun snode =>
      !(snode.nodetype = .LYS_GROUPING || snode.nodetype = .LYS_NOTIF
        || snode.nodetype = .LYS_RPC)) with
    | none =>
      rw [hfind] at hf
      simp only [Option.isSome_none] at hf
      simp only [ih, List.filter_cons, ← hf]
      simp
    | some n =>
      rw [hfind] at hf
      simp only [Option.isSome_some] at hf
      simp only [ih, List.filter_cons, ← hf, xpath_add_filter, if_true, List.map_cons,
        List.append_assoc, List.singleton_append]
      congr 2

/-- C17: for a request without `filter` node, the filters built by `op_get` are, in the
iteration order of the registry, `/name:*` for every module with a top-level schema node
that is not a grouping, RPC or notification, and nothing else. With the modules `m1` (a
data container) and `m2` (an RPC only) the single filter is `/m1:*`. -/
theorem op_get_no_filter (ctx : ly_ctx) :
    op_get_create_filters ctx none
      = .filters ((ctx.modules.filter (fun m => m.has_data)).map
          (fun m => "/" ++ m.name ++ ":*")) ∧
    op_get_create_filters ex_ctx_get none = .filters ["/m1:*"] := by
  constructor
  · simp [op_get_create_filters, op_get_module_filters_eq]
  · decide


/-! ## Theorems: content-match nodes and white space -/

/-- `strws` is false exactly when the string has a character that is not white space. -/
theorem strws_eq_false_iff (l : List Char) :
    strws l = false ↔ ∃ c ∈ l, isspace c = false := by
  induction l with
  | nil => simp [strws]
  | cons c rest ih =>
    unfold strws
    cases hc : isspace c <;> simp [hc, ih]

/-- The loop that skips leading white space drops the longest white-space prefix. -/
theorem skip_ws_eq_dropWhile (l : List Char) : skip_ws l = l.dropWhile isspace := by
  induction l with
  | nil => rfl
  | cons c rest ih =>
    unfold skip_ws
    cases hc : isspace c <;> simp [hc, ih]

/-- The loop that trims trailing white space, started at `n` with a character that is not
white space below `n`, ends inside the string and keeps the first `n` characters without
their trailing white space. -/
theorem trim_len_spec (start : List Char) :
    ∀ n : Nat, n ≤ start.length → (∃ i c, i < n ∧ start.get? i = some c ∧ isspace c = false) →
      ∃ len, trim_len start n = some len ∧ 1 ≤ len ∧
        start.take len = ((start.take n).reverse.dropWhile isspace).reverse := by
  intro n
  induction n with
  | zero => intro _ h; obtain ⟨i, _, hi, _⟩ := h; exact absurd hi (Nat.not_lt_zero i)
  | succ n ih =>
    intro hn h
    have hlt : n < start.length := hn
    have hget : start.get? n = some (start.get ⟨n, hlt⟩) := List.get?_eq_get hlt
    have htake : start.take (n + 1) = start.take n ++ [start.get ⟨n, hlt⟩] := by
      rw [List.take_succ]
      simp [List.getElem?_eq_getElem hlt]
    have hrev : (start.take (n + 1)).reverse
        = start.get ⟨n, hlt⟩ :: (start.take n).reverse := by
      rw [htake, List.reverse_append]; rfl
    unfold trim_len
    simp only [hget]
    cases hsp : isspace (start.get ⟨n, hlt⟩) with
    | true =>
      simp only [if_true]
      have h' : ∃ i c, i < n ∧ start.get? i = some c ∧ isspace c = false := by
        obtain ⟨i, c, hi, hic, hc⟩ := h
        refine ⟨i, c, ?_, hic, hc⟩
        rcases Nat.lt_succ_iff_lt_or_eq.mp hi with hlt' | heq
        · exact hlt'
        · subst heq
          rw [hget] at hic
          simp only [Option.some.injEq] at hic
          rw [hic] at hsp
          rw [hsp] at hc
          exact absurd hc (by decide)
      obtain ⟨len, hl1, hl2, hl3⟩ := ih (Nat.le_of_lt hlt) h'
      refine ⟨len, hl1, hl2, ?_⟩
      rw [hl3, hrev, List.dropWhile_cons_of_pos hsp]
    | false =>
      simp only [Bool.false_eq_true, if_false]
      refine ⟨n + 1, rfl, Nat.succ_pos n, ?_⟩
      rw [hrev, List.dropWhile_cons_of_neg (by rw [hsp]; decide), ← hrev, List.reverse_reverse]

/-- For a content with a character that is not white space the trimming loops stay
inside the string and print the content without leading and trailing white space. -/
theorem trimmed_eq_strip (s : String) (h : ∃ c ∈ s.toList, isspace c = false) :
    (trim_len (skip_ws s.toList) (skip_ws s.toList).length).isSome = true ∧
    trimmed s = strip_ws s.toList := by
  have hne : s.toList.dropWhile isspace ≠ [] := by
    intro hnil
    rw [List.dropWhile_eq_nil_iff] at hnil
    obtain ⟨c, hc, hsp⟩ := h
    have := hnil c hc
    rw [hsp] at this
    exact absurd this (by decide)
  have hhead := List.head_dropWhile_not isspace s.toList hne
  have hex : ∃ i c, i < (s.toList.dropWhile isspace).length ∧
      (s.toList.dropWhile isspace).get? i = some c ∧ isspace c = false := by
    refine ⟨0, (s.toList.dropWhile isspace).head hne, List.length_pos.mpr hne, ?_, ?_⟩
    · rw [List.get?_zero, List.head?_eq_head hne]
    · simpa using hhead
  obtain ⟨len, hl1, _, hl3⟩ :=
    trim_len_spec (s.toList.dropWhile isspace) _ (Nat.le_refl _) hex
  unfold trimmed strip_ws
  simp only [skip_ws_eq_dropWhile, hl1, Option.isSome_some, Option.getD_some, true_and]
  rw [hl3, List.take_length]

/-- Blanking a chain keeps it empty or non-empty. -/
theorem lyxml_blank_eq_null (cc : lyxml_elem) : lyxml_blank cc = .null ↔ cc = .null := by
  cases cc <;> simp [lyxml_blank]

/-- Blanking an element changes neither its name, nor its namespace, nor its attributes. -/
theorem lyxml_info_blank_fields (e : lyxml_info) :
    e.blank.name = e.name ∧ e.blank.ns = e.ns ∧ e.blank.attr = e.attr := by
  unfold lyxml_info.blank
  cases e.content with
  | none => exact ⟨rfl, rfl, rfl⟩
  | some s =>
    simp only [String.toList]
    by_cases h : strws s.data = true
    · rw [if_pos h]; exact ⟨rfl, rfl, rfl⟩
    · rw [if_neg h]; exact ⟨rfl, rfl, rfl⟩

/-- A content-match element is not changed by blanking. -/
theorem lyxml_info_blank_of_content_match (e : lyxml_info) (cc : lyxml_elem)
    (h : content_match e cc = true) : e.blank = e := by
  unfold content_match at h
  unfold lyxml_info.blank
  cases hc : e.content with
  | none => rfl
  | some s =>
    rw [hc] at h
    simp only [Bool.and_eq_true, Bool.not_eq_eq_eq_not, Bool.not_true, String.toList] at h
    simp [String.toList, h.2]

/-- Blanking does not change which elements are content-match nodes. -/
theorem content_match_blank (e : lyxml_info) (cc : lyxml_elem) :
    content_match e.blank (lyxml_blank cc) = content_match e cc := by
  have hnull : decide (lyxml_blank cc = .null) = decide (cc = .null) := by
    simp [lyxml_blank_eq_null]
  unfold content_match lyxml_info.blank
  rw [hnull]
  cases hc : e.content with
  | none => simp [hc]
  | some s =>
    simp only [String.toList]
    by_cases h : strws s.data = true
    · rw [if_pos h]; simp [h]
    · rw [if_neg h]; simp [hc, String.toList]

/-- The namespace step does not read the content. -/
theorem xpath_resolve_blank (ctx : ly_ctx) (e : lyxml_info) (emn : Option String)
    (ns : String) : xpath_resolve ctx e.blank emn ns = xpath_resolve ctx e emn ns := by
  unfold xpath_resolve
  rw [(lyxml_info_blank_fields e).2.1]

/-- `xpath_buf_add_node` does not read the content. -/
theorem xpath_buf_add_node_blank (ctx : ly_ctx) (e : lyxml_info) (emn : Option String)
    (ns : String) (buf : List Char) (size : Nat) :
    xpath_buf_add_node ctx e.blank emn ns buf size = xpath_buf_add_node ctx e emn ns buf size := by
  unfold xpath_buf_add_node
  rw [xpath_resolve_blank, (lyxml_info_blank_fields e).1, (lyxml_info_blank_fields e).2.2]

/-- The first loop of `xpath_buf_add` on a blanked chain. -/
theorem xpath_content_loop_blank (ctx : ly_ctx) (emn : Option String) (chain : lyxml_elem) :
    ∀ (ns : String) (buf : List Char) (size : Nat),
      xpath_content_loop ctx emn (lyxml_blank chain) ns buf size
        = ((xpath_content_loop ctx emn chain ns buf size).1,
           (xpath_content_loop ctx emn chain ns buf size).2.1,
           (xpath_content_loop ctx emn chain ns buf size).2.2.1,
           lyxml_blank (xpath_content_loop ctx emn chain ns buf size).2.2.2) := by
  induction chain with
  | null => intro ns buf size; simp [lyxml_blank, xpath_content_loop]
  | node c cc next _ ihn =>
    intro ns buf size
    simp only [lyxml_blank]
    unfold xpath_content_loop
    rw [content_match_blank]
    cases hc : content_match c cc with
    | true =>
      simp only [if_true]
      rw [lyxml_info_blank_of_content_match c cc hc]
      rcases hh : xpath_buf_add_content ctx c emn ns buf size with ⟨s, b, n⟩
      cases s with
      | zero => simp [lyxml_blank, lyxml_info_blank_of_content_match c cc hc]
      | succ k => simp only []; exact ihn n b (k + 1)
    | false =>
      simp only [Bool.false_eq_true, if_false]
      rw [ihn]
      simp [lyxml_blank]

/-- The start of `xpath_buf_add` on a blanked element. -/
theorem xpath_buf_add_head_blank (ctx : ly_ctx) (e : lyxml_info) (child : lyxml_elem)
    (emn : Option String) (ns : String) (buf : List Char) (size : Nat) :
    xpath_buf_add_head ctx e.blank (lyxml_blank child) emn ns buf size
      = ((xpath_buf_add_head ctx e child emn ns buf size).1,
         (xpath_buf_add_head ctx e child emn ns buf size).2.1,
         (xpath_buf_add_head ctx e child emn ns buf size).2.2.1,
         lyxml_blank (xpath_buf_add_head ctx e child emn ns buf size).2.2.2) := by
  unfold xpath_buf_add_head
  rw [xpath_buf_add_node_blank]
  rcases hh : xpath_buf_add_node ctx e emn ns buf size with ⟨s, b, n⟩
  cases s with
  | zero => simp
  | succ k => simp only []; exact xpath_content_loop_blank ctx emn child n b (k + 1)

/-- The second loop of `xpath_buf_add` on a blanked chain. -/
theorem xpath_branch_blank (ctx : ly_ctx) (chain : lyxml_elem) :
    ∀ (ns : String) (buf : List Char) (size : Nat) (fs : List String),
      xpath_branch ctx (lyxml_blank chain) ns buf size fs
        = ((xpath_branch ctx chain ns buf size fs).1,
           (xpath_branch ctx chain ns buf size fs).2.1,
           lyxml_blank (xpath_branch ctx chain ns buf size fs).2.2) := by
  induction chain with
  | null => intro ns buf size fs; simp [lyxml_blank, xpath_branch]
  | node c cc next ihc ihn =>
    intro ns buf size fs
    simp only [lyxml_blank]
    unfold xpath_branch
    rw [content_match_blank]
    cases hc : content_match c cc with
    | true => simp only [if_true]; exact ihn ns buf size fs
    | false =>
      simp only [Bool.false_eq_true, if_false, ne_eq, lyxml_blank_eq_null]
      by_cases hcc : cc = .null
      · simp only [hcc, not_true_eq_false, if_false, xpath_buf_add_node_blank]
        rcases hh : xpath_buf_add_node ctx c none ns buf size with ⟨s, b, n⟩
        cases s with
        | zero => simp [ihn, lyxml_blank]
        | succ k => simp [ihn, lyxml_blank]
      · simp only [hcc, not_false_eq_true, if_true, xpath_buf_add_head_blank]
        rcases hh : xpath_buf_add_head ctx c cc none ns buf size with ⟨s, b, n, c1⟩
        cases s with
        | zero => simp [ihn, lyxml_blank]
        | succ k =>
          simp only [lyxml_blank_eq_null]
          by_cases hc1 : c1 = .null
          · simp [hc1, ihn, lyxml_blank]
          · simp [hc1, ihn, ihc, lyxml_blank]

/-- `xpath_buf_add` on a blanked element. -/
theorem xpath_buf_add_blank (ctx : ly_ctx) (e : lyxml_info) (child : lyxml_elem)
    (emn : Option String) (ns : String) (buf : List Char) (size : Nat) (fs : List String) :
    xpath_buf_add ctx e.blank (lyxml_blank child) emn ns buf size fs
      = ((xpath_buf_add ctx e child emn ns buf size fs).1,
         lyxml_blank (xpath_buf_add ctx e child emn ns buf size fs).2) := by
  unfold xpath_buf_add
  rw [xpath_buf_add_head_blank]
  rcases hh : xpath_buf_add_head ctx e child emn ns buf size with ⟨s, b, n, c1⟩
  cases s with
  | zero => simp
  | succ k =>
    simp only [lyxml_blank_eq_null]
    by_cases hc1 : c1 = .null
    · simp [hc1, lyxml_blank]
    · simp [hc1, xpath_branch_blank]

/-- The loop over the modules on a blanked element. -/
theorem filter_fanout_blank (ctx : ly_ctx) (e : lyxml_info) (ms : List lys_module) :
    ∀ (child : lyxml_elem) (fs : List String),
      filter_fanout ctx e.blank ms (lyxml_blank child) fs = filter_fanout ctx e ms child fs := by
  induction ms with
  | nil => intro child fs; simp [filter_fanout]
  | cons m rest ih =>
    intro child fs
    unfold filter_fanout
    rw [content_match_blank]
    cases hc : content_match e child with
    | true =>
      simp only [if_true]
      rw [ih, lyxml_info_blank_of_content_match e child hc]
    | false =>
      simp only [Bool.false_eq_true, if_false]
      rw [xpath_buf_add_blank]
      simp only []
      rw [ih]

/-- The modules of a top-level element do not depend on its content. -/
theorem filter_modules_blank (ctx : ly_ctx) (e : lyxml_info) :
    filter_modules ctx e.blank = filter_modules ctx e := by
  unfold filter_modules
  rw [(lyxml_info_blank_fields e).2.1, (lyxml_info_blank_fields e).1]

/-- The loop over the top-level elements on a blanked filter. -/
theorem build_xpath_loop_blank (ctx : ly_ctx) (elem : lyxml_elem) :
    ∀ fs : List String,
      build_xpath_loop ctx (lyxml_blank elem) fs = build_xpath_loop ctx elem fs := by
  induction elem with
  | null => intro fs; rfl
  | node e child rest _ ihn =>
    intro fs
    simp only [lyxml_blank]
    unfold build_xpath_loop
    rw [filter_modules_blank]
    cases hm : filter_modules ctx e with
    | none => exact ihn fs
    | some ms => simp only []; rw [filter_fanout_blank, ihn]

/-- C16: a filter element without child elements is a content-match node exactly when its
content has a character that is not white space. For such a content the trimming loops
stay inside the string, and the text printed between the quotes, by
`xpath_buf_add_content` as by `xpath_buf_add_top_content`, is the content without its
leading and trailing white space. A filter in which every element whose content is empty
or all white space has its content taken away compiles to the same XPaths. -/
theorem content_match_iff_trimmed (ctx : ly_ctx) :
    (∀ e : lyxml_info, content_match e .null = true ↔
      ∃ s, e.content = some s ∧ ∃ c ∈ s.toList, isspace c = false) ∧
    (∀ s : String, (∃ c ∈ s.toList, isspace c = false) →
      (trim_len (skip_ws s.toList) (skip_ws s.toList).length).isSome = true ∧
      trimmed s = strip_ws s.toList) ∧
    (∀ (e : lyxml_info) (s : String) (emn : Option String) (ns : String) (buf : List Char)
        (emn1 : Option String) (ns1 : String),
      e.content = some s → (∃ c ∈ s.toList, isspace c = false) →
      xpath_resolve ctx e emn ns = some (emn1, ns1) →
      (xpath_buf_add_content ctx e emn ns buf (buf.length + 1)).2.1
        = buf ++ '[' :: xpath_step_text emn1 e.name ++ attrs_text ctx e.attr
            ++ '=' :: '\'' :: (strip_ws s.toList ++ ['\'', ']'])) ∧
    (∀ (e : lyxml_info) (s : String) (m : String) (fs : List String),
      e.content = some s → (∃ c ∈ s.toList, isspace c = false) →
      xpath_buf_add_top_content ctx e m fs
        = fs ++ [String.mk ('/' :: (m.toList ++ ':' :: (e.name.toList ++ "[text()='".toList
            ++ strip_ws s.toList ++ ['\'', ']'])) ++ attrs_text ctx e.attr)]) ∧
    (∀ (e : lyxml_info) (s : String), e.content = some s → strws s.toList = true →
      e.blank = { e with content := none }) ∧
    (∀ (elem : lyxml_elem) (fs : List String),
      build_xpath_from_subtree_filter ctx (lyxml_blank elem) fs
        = build_xpath_from_subtree_filter ctx elem fs) := by
  refine ⟨?_, ?_, ?_, ?_, ?_, ?_⟩
  · intro e
    unfold content_match
    cases hc : e.content with
    | none => simp
    | some s =>
      have := strws_eq_false_iff s.toList
      simp only [decide_True, Bool.true_and, Bool.not_eq_eq_eq_not, Bool.not_true,
        Option.some.injEq, exists_eq_left']
      exact this
  · intro s h
    exact trimmed_eq_strip s h
  · intro e s emn ns buf emn1 ns1 hc h hr
    rw [xpath_buf_add_content_eq, hr]
    simp only [hc, Option.getD_some, (trimmed_eq_strip s h).2]
  · intro e s m fs hc h
    rw [xpath_buf_add_top_content_eq]
    simp only [hc, Option.getD_some, (trimmed_eq_strip s h).2]
  · intro e s hc h
    unfold lyxml_info.blank
    simp only [hc]
    rw [if_pos h]
  · intro elem fs
    simp only [build_xpath_from_subtree_filter, build_xpath_loop_blank]

/-- Witness of C16: the content ` 7 ` is printed as `7`; the filter
`<top xmlns="urn:ex"><a> </a></top>` compiles like `<top xmlns="urn:ex"><a/></top>`. -/
theorem content_match_iff_trimmed_witness :
    trimmed " 7 " = strip_ws " 7 ".toList ∧
    strip_ws " 7 ".toList = ['7'] ∧
    build_xpath_from_subtree_filter ex_ctx
      (xml_elem "top" (some "urn:ex") none (xml_elem "a" (some "urn:ex") (some " ") .null .null)
        .null) []
      = build_xpath_from_subtree_filter ex_ctx
        (xml_elem "top" (some "urn:ex") none (xml_elem "a" (some "urn:ex") none .null .null)
          .null) [] :=
  ⟨((content_match_iff_trimmed ex_ctx).2.1 " 7 " ⟨'7', by decide, by decide⟩).2,
   by decide,
   ((content_match_iff_trimmed ex_ctx).2.2.2.2.2
      (xml_elem "top" (some "urn:ex") none
        (xml_elem "a" (some "urn:ex") (some " ") .null .null) .null) []).symm⟩


/-! ## Theorems: edit-config walk -/

/-- The walk with a record of its visits has the result of the walk. -/
theorem edit_walk_log_result (sr : Backend) (ds : Option sr_session_ctx)
    (defop : NP2_EDIT_DEFOP) (n : lyd_node) :
    ∀ (anc : List lyd_info) (st : edit_state) (w : World),
      (edit_walk_log sr ds defop anc n st w).2 = edit_walk sr ds defop anc.head? n st w := by
  induction n with
  | null => intro anc st w; rfl
  | node iter child next ihc ihn =>
    intro anc st w
    unfold edit_walk_log edit_walk
    rcases hv : edit_visit sr ds defop anc.head? iter st w with ⟨res, w1⟩
    cases res with
    | error e => rfl
    | ok st1 =>
      simp only []
      by_cases hl : iter.nodetype.leaflike = true
      · simp only [hl, if_true]
        exact ihn anc (edit_pop st1) w1
      · simp only [hl]
        have hc := ihc (iter :: anc) st1 w1
        simp only [List.head?_cons] at hc
        rcases hcl : edit_walk_log sr ds defop (iter :: anc) child st1 w1 with ⟨l1, res2, w2⟩
        rw [hcl] at hc
        simp only at hc
        rw [← hc]
        cases res2 with
        | error e => rfl
        | ok st2 => simp only []; exact ihn anc (edit_pop st2) w2

/-- The attribute loop of `get_edit_op` finds the operation the node carries. -/
theorem get_edit_op_attr_eq (attrs : List lyd_attr) :
    get_edit_op_attr attrs = attrs.findSome? attr_edit_op := by
  induction attrs with
  | nil => rfl
  | cons a rest ih =>
    unfold get_edit_op_attr
    simp only [List.findSome?_cons, attr_edit_op]
    by_cases h : a.name = "operation" ∧ a.module = "ietf-netconf"
    · simp only [h, and_self, if_true]
      by_cases h1 : a.value = "create"
      · simp [h1]
      · by_cases h2 : a.value = "delete"
        · simp [h1, h2]
        · by_cases h3 : a.value = "remove"
          · simp [h1, h2, h3]
          · by_cases h4 : a.value = "replace"
            · simp [h1, h2, h3, h4]
            · by_cases h5 : a.value = "merge"
              · simp [h1, h2, h3, h4, h5]
              · simp [h1, h2, h3, h4, h5, ih]
    · rw [if_neg h, if_neg h]
      exact ih

/-- An operation carried by a node has a positive numeric value. -/
theorem node_edit_op_pos (n : lyd_info) (op : NP2_EDIT_OP) (h : node_edit_op n = some op) :
    op.val > 0 := by
  unfold node_edit_op at h
  obtain ⟨a, _, ha⟩ := List.exists_of_findSome?_eq_some h
  unfold attr_edit_op at ha
  split_ifs at ha <;> simp_all <;> subst ha <;> decide

/-- The effective operation is positive or is the default operation. -/
theorem effective_op_pos_or_default (d : NP2_EDIT_DEFOP) (chain : List lyd_info) :
    (effective_op d chain).val > 0 ∨ effective_op d chain = d.cast := by
  induction chain with
  | nil => exact Or.inr rfl
  | cons n anc ih =>
    unfold effective_op
    cases h : node_edit_op n with
    | none => exact ih
    | some op => exact Or.inl (node_edit_op_pos n op h)

/-- `get_edit_op` with the effective operation of the parent gives the effective operation
of the node. At a root the parent operation is `NP2_EDIT_NONE`. -/
theorem get_edit_op_effective (d : NP2_EDIT_DEFOP) (iter : lyd_info) (anc : List lyd_info)
    (parentop : NP2_EDIT_OP)
    (h : parentop = effective_op d anc ∨ (anc = [] ∧ parentop = .NP2_EDIT_NONE)) :
    get_edit_op iter parentop d = effective_op d (iter :: anc) := by
  unfold get_edit_op effective_op
  rw [get_edit_op_attr_eq]
  change (match node_edit_op iter with
    | some op => op
    | none => if parentop.val > 0 then parentop else d.cast) = _
  cases hn : node_edit_op iter with
  | some op => rfl
  | none =>
    simp only []
    rcases h with h | ⟨h1, h2⟩
    · subst h
      rcases effective_op_pos_or_default d anc with hp | hd
      · rw [if_pos hp]
      · by_cases hp : (effective_op d anc).val > 0
        · rw [if_pos hp]
        · rw [if_neg hp, hd]
    · subst h1 h2
      rfl

/-- The two ways a visit ends: with the backend call and the check of its result, or, for
a list and for a key leaf, without any call and with `missing_keys` or `path` adjusted. -/
theorem edit_visit_cases (sr : Backend) (ds : Option sr_session_ctx) (d : NP2_EDIT_DEFOP)
    (parent : Option lyd_info) (iter : lyd_info) (st : edit_state) (w : World) :
    edit_visit sr ds d parent iter st w =
      (match edit_check (edit_apply sr ds ((edit_enter d parent iter st).op
            (edit_enter d parent iter st).op_index) (edit_enter d parent iter st).path w).1
          (edit_enter d parent iter st).path with
        | some e => (.error e, (edit_apply sr ds ((edit_enter d parent iter st).op
            (edit_enter d parent iter st).op_index) (edit_enter d parent iter st).path w).2)
        | none => (.ok (edit_enter d parent iter st), (edit_apply sr ds
            ((edit_enter d parent iter st).op (edit_enter d parent iter st).op_index)
            (edit_enter d parent iter st).path w).2)) ∨
    ∃ mk p, edit_visit sr ds d parent iter st w =
      (.ok { edit_enter d parent iter st with missing_keys := mk, path := p }, w) := by
  have hop : (edit_enter d parent iter st).op (edit_enter d parent iter st).op_index
      = get_edit_op iter (st.op (st.op_index + 1 - 1)) d := by
    simp [edit_enter]
  rw [hop]
  cases hnt : iter.nodetype
  case LYS_LEAF =>
    by_cases hk : st.missing_keys ≠ 0
    · right
      simp only [edit_visit, edit_enter, hnt, hk, ne_eq, not_false_eq_true, if_true]
      exact ⟨_, _, rfl⟩
    · left
      simp only [edit_visit, edit_enter, hnt, hk, if_false]
  case LYS_LIST =>
    right
    simp only [edit_visit, edit_enter, hnt]
    exact ⟨_, _, rfl⟩
  case LYS_CONTAINER =>
    left
    simp only [edit_visit, edit_enter, hnt]
    split_ifs <;> rfl
  all_goals
    left
    simp only [edit_visit, edit_enter, hnt]

/-- A visit that lets the walk go on leaves `op` and `op_index` as the upkeep set them. -/
theorem edit_visit_ok_op (sr : Backend) (ds : Option sr_session_ctx) (d : NP2_EDIT_DEFOP)
    (parent : Option lyd_info) (iter : lyd_info) (st st1 : edit_state) (w w1 : World)
    (h : edit_visit sr ds d parent iter st w = (.ok st1, w1)) :
    st1.op = (edit_enter d parent iter st).op ∧ st1.op_index = st.op_index + 1 := by
  rcases edit_visit_cases sr ds d parent iter st w with hc | ⟨mk, p, hc⟩
  · rw [hc] at h
    split at h
    · simp at h
    · simp only [Prod.mk.injEq, Except.ok.injEq] at h
      obtain ⟨rfl, _⟩ := h
      exact ⟨rfl, rfl⟩
  · rw [hc] at h
    simp only [Prod.mk.injEq, Except.ok.injEq] at h
    obtain ⟨rfl, _⟩ := h
    exact ⟨rfl, rfl⟩

/-- Every visit of the walk notes the effective operation of the node, and a walk that
comes to its end leaves `op_index` and the cells of `op` up to `op_index` as they were. -/
theorem edit_walk_log_ops (sr : Backend) (ds : Option sr_session_ctx) (d : NP2_EDIT_DEFOP)
    (n : lyd_node) :
    ∀ (anc : List lyd_info) (st : edit_state) (w : World),
      st.op_index = anc.length →
      (st.op anc.length = effective_op d anc ∨ (anc = [] ∧ st.op 0 = .NP2_EDIT_NONE)) →
      (∀ r ∈ (edit_walk_log sr ds d anc n st w).1, r.op = effective_op d r.chain) ∧
      (∀ st2, (edit_walk_log sr ds d anc n st w).2.1 = .ok st2 →
        st2.op_index = st.op_index ∧ ∀ i, i ≤ st.op_index → st2.op i = st.op i) := by
  induction n with
  | null =>
    intro anc st w _ _
    simp only [edit_walk_log, List.not_mem_nil, false_implies, implies_true, true_and,
      Except.ok.injEq]
    intro st2 h
    subst h
    exact ⟨rfl, fun _ _ => rfl⟩
  | node iter child next ihc ihn =>
    intro anc st w hidx hop
    have hparent : st.op (st.op_index + 1 - 1) = effective_op d anc ∨
        (anc = [] ∧ st.op (st.op_index + 1 - 1) = .NP2_EDIT_NONE) := by
      rw [Nat.add_sub_cancel, hidx]
      rcases hop with h | ⟨h1, h2⟩
      · exact Or.inl h
      · subst h1; exact Or.inr ⟨rfl, h2⟩
    have hrec : (edit_enter d anc.head? iter st).op (edit_enter d anc.head? iter st).op_index
        = effective_op d (iter :: anc) := by
      simp only [edit_enter, if_true]
      exact get_edit_op_effective d iter anc _ hparent
    -- the cells up to `op_index` after the node is left are those before the visit
    have hpop : ∀ st1 : edit_state, st1.op = (edit_enter d anc.head? iter st).op →
        st1.op_index = st.op_index + 1 →
        (edit_pop st1).op_index = anc.length ∧
        ((edit_pop st1).op anc.length = effective_op d anc ∨
          (anc = [] ∧ (edit_pop st1).op 0 = .NP2_EDIT_NONE)) ∧
        ∀ i, i ≤ st.op_index → (edit_pop st1).op i = st.op i := by
      intro st1 h1 h2
      have hcell : ∀ i, i ≤ st.op_index → (edit_pop st1).op i = st.op i := by
        intro i hi
        simp only [edit_pop, h1, edit_enter]
        rw [if_neg (by omega)]
      refine ⟨by simp only [edit_pop, h2]; omega, ?_, hcell⟩
      rcases hop with h | ⟨h3, h4⟩
      · left; rw [hcell _ (by omega), h]
      · right; subst h3; exact ⟨rfl, by rw [hcell 0 (by omega)]; exact h4⟩
    unfold edit_walk_log
    simp only []
    rcases hv : edit_visit sr ds d anc.head? iter st w with ⟨res, w1⟩
    cases res with
    | error e =>
      simp only [List.mem_singleton, forall_eq]
      exact ⟨hrec, fun st2 h => by simp at h⟩
    | ok st1 =>
      obtain ⟨ho1, ho2⟩ := edit_visit_ok_op sr ds d anc.head? iter st st1 w w1 hv
      simp only []
      by_cases hl : iter.nodetype.leaflike = true
      · simp only [hl, if_true]
        obtain ⟨hp1, hp2, hp3⟩ := hpop st1 ho1 ho2
        obtain ⟨hn1, hn2⟩ := ihn anc (edit_pop st1) w1 hp1 hp2
        rcases hnl : edit_walk_log sr ds d anc next (edit_pop st1) w1 with ⟨l, r⟩
        rw [hnl] at hn1 hn2
        simp only [List.mem_cons, forall_eq_or_imp]
        refine ⟨⟨hrec, hn1⟩, ?_⟩
        intro st2 h
        obtain ⟨ha, hb⟩ := hn2 st2 h
        refine ⟨by rw [ha, hp1, hidx], fun i hi => ?_⟩
        rw [hb i (by rw [hp1, ← hidx]; exact hi), hp3 i hi]
      · simp only [hl, Bool.false_eq_true, if_false]
        have hc0 : st1.op_index = (iter :: anc).length := by
          rw [ho2, hidx]; rfl
        have hc1 : st1.op (iter :: anc).length = effective_op d (iter :: anc) := by
          rw [← hrec, ho1]
          simp only [edit_enter, List.length_cons, hidx]
        obtain ⟨hch1, hch2⟩ := ihc (iter :: anc) st1 w1 hc0 (Or.inl hc1)
        rcases hcl : edit_walk_log sr ds d (iter :: anc) child st1 w1 with ⟨l1, res2, w2⟩
        rw [hcl] at hch1 hch2
        cases res2 with
        | error e =>
          simp only [List.mem_cons, forall_eq_or_imp]
          exact ⟨⟨hrec, hch1⟩, fun st2 h => by simp at h⟩
        | ok st2 =>
          obtain ⟨hs1, hs2⟩ := hch2 st2 rfl
          have ho1' : st2.op_index = st.op_index + 1 := by rw [hs1, ho2]
          -- the cells of `st2` up to `op_index` of `st` are those of `st`
          have hcell : ∀ i, i ≤ st.op_index → (edit_pop st2).op i = st.op i := by
            intro i hi
            have := hs2 i (by omega)
            simp only [edit_pop, this, ho1, edit_enter]
            rw [if_neg (by omega)]
          have hp1 : (edit_pop st2).op_index = anc.length := by
            simp only [edit_pop, ho1']; omega
          have hp2 : (edit_pop st2).op anc.length = effective_op d anc ∨
              (anc = [] ∧ (edit_pop st2).op 0 = .NP2_EDIT_NONE) := by
            rcases hop with h | ⟨h3, h4⟩
            · left; rw [hcell _ (by omega), h]
            · right; subst h3; exact ⟨rfl, by rw [hcell 0 (by omega)]; exact h4⟩
          obtain ⟨hn1, hn2⟩ := ihn anc (edit_pop st2) w2 hp1 hp2
          simp only [List.mem_cons, List.mem_append, forall_eq_or_imp]
          refine ⟨⟨hrec, fun r hr => hr.elim (hch1 r) (hn1 r)⟩, ?_⟩
          intro st3 h
          obtain ⟨ha, hb⟩ := hn2 st3 h
          refine ⟨by rw [ha, hp1, hidx], fun i hi => ?_⟩
          rw [hb i (by rw [hp1, ← hidx]; exact hi), hcell i hi]

/-- C18: for every edit tree and default operation `d`, the operation the walk of
`op_editconfig` notes in `op[op_index]` when it visits a node is the effective operation
of the node: the operation named by the `operation` attribute (module `ietf-netconf`) of
the nearest node, among the node and its ancestors, that carries one (merge being noted
as replace), and `d` when none does. It is a function of the node's chain of ancestors and
of `d` alone. The record of visits belongs to the walk: its result is that of
`edit_walk`. -/
theorem edit_walk_effective_op (sr : Backend) (ds : Option sr_session_ctx)
    (d : NP2_EDIT_DEFOP) (config : lyd_node) (w : World) :
    (∀ r ∈ (edit_walk_log sr ds d [] config edit_state_init w).1,
      r.op = effective_op d r.chain) ∧
    (edit_walk_log sr ds d [] config edit_state_init w).2
      = edit_walk sr ds d none config edit_state_init w ∧
    (edit_walk_log sr_ok none .NP2_EDIT_DEFOP_MERGE [] ex_edit_tree edit_state_init
        World.init).1.map (fun r => (r.chain.map (fun n => n.name), r.op))
      = [(["c"], .NP2_EDIT_DELETE), (["l", "c"], .NP2_EDIT_DELETE),
         (["m", "c"], .NP2_EDIT_REPLACE), (["x"], .NP2_EDIT_MERGE)] := by
  refine ⟨(edit_walk_log_ops sr ds d config [] edit_state_init w rfl (Or.inr ⟨rfl, rfl⟩)).1,
    edit_walk_log_result sr ds d config [] edit_state_init w, ?_⟩
  decide


/-- The statuses of a list of calls made in two stretches. -/
theorem calls_status_append (sr : Backend) (a : List sr_call) :
    ∀ (base b : List sr_call),
      calls_status sr base (a ++ b)
        = calls_status sr base a ++ calls_status sr (base ++ a) b := by
  induction a with
  | nil => intro base b; simp [calls_status]
  | cons c rest ih =>
    intro base b
    show sr base c :: calls_status sr (base ++ [c]) (rest ++ b) = _
    rw [ih]
    simp [calls_status, List.append_assoc]

/-- A stretch without error followed by a second stretch. -/
theorem edit_calls_ok_trans (sr : Backend) (w w1 w2 : World) (res : Option nc_server_error)
    (h1 : edit_calls_ok sr w w1 none) (h2 : edit_calls_ok sr w1 w2 res) :
    edit_calls_ok sr w w2 res := by
  obtain ⟨cs1, hc1, hok1⟩ := h1
  obtain ⟨cs2, hc2, hres⟩ := h2
  refine ⟨cs1 ++ cs2, by rw [hc2, hc1, List.append_assoc], ?_⟩
  cases res with
  | none =>
    simp only [] at hres ⊢
    intro s hs
    rw [calls_status_append, List.mem_append] at hs
    rcases hs with hs | hs
    · exact hok1 s hs
    · rw [← hc1] at hs; exact hres s hs
  | some e =>
    simp only [] at hres ⊢
    obtain ⟨pre, c, hcs, hpre, hne, he⟩ := hres
    refine ⟨cs1 ++ pre, c, by rw [hcs, List.append_assoc], ?_, ?_, ?_⟩
    · intro s hs
      rw [calls_status_append, List.mem_append] at hs
      rcases hs with hs | hs
      · exact hok1 s hs
      · rw [← hc1] at hs; exact hpre s hs
    · rw [← List.append_assoc, ← hc1]; exact hne
    · rw [← List.append_assoc, ← hc1]; exact he

/-- A stretch in which nothing happens. -/
theorem edit_calls_ok_refl (sr : Backend) (w : World) : edit_calls_ok sr w w none :=
  ⟨[], by simp, by simp [calls_status]⟩

/-- The backend call of the walk: no call, or one call whose status is returned. -/
theorem edit_apply_cases (sr : Backend) (ds : Option sr_session_ctx) (op : NP2_EDIT_OP)
    (path : List Char) (w : World) :
    edit_apply sr ds op path w = (none, w) ∨
    ∃ c, c.path = some (String.mk path) ∧
      edit_apply sr ds op path w = (some (sr w.calls c), ⟨w.dslock, w.calls ++ [c]⟩) := by
  cases op
  case NP2_EDIT_ERROR => left; rfl
  case NP2_EDIT_NONE => left; rfl
  case NP2_EDIT_MERGE =>
    exact Or.inr ⟨.set_item ds (String.mk path) none .SR_EDIT_DEFAULT, rfl, rfl⟩
  case NP2_EDIT_REPLACE =>
    exact Or.inr ⟨.set_item ds (String.mk path) none .SR_EDIT_DEFAULT, rfl, rfl⟩
  case NP2_EDIT_CREATE =>
    exact Or.inr ⟨.set_item ds (String.mk path) none .SR_EDIT_STRICT, rfl, rfl⟩
  case NP2_EDIT_DELETE =>
    exact Or.inr ⟨.delete_item ds (String.mk path) .SR_EDIT_STRICT, rfl, rfl⟩
  case NP2_EDIT_REMOVE =>
    exact Or.inr ⟨.delete_item ds (String.mk path) .SR_EDIT_DEFAULT, rfl, rfl⟩

/-- The backend call and the check of its result form a correct stretch. -/
theorem edit_apply_check_ok (sr : Backend) (ds : Option sr_session_ctx) (op : NP2_EDIT_OP)
    (path : List Char) (w : World) :
    edit_calls_ok sr w (edit_apply sr ds op path w).2
      (edit_check (edit_apply sr ds op path w).1 path) := by
  rcases edit_apply_cases sr ds op path w with h | ⟨c, hp, h⟩
  · rw [h]; exact edit_calls_ok_refl sr w
  · rw [h]
    refine ⟨[c], rfl, ?_⟩
    cases hrc : sr w.calls c with
    | SR_ERR_OK => simp [edit_check, calls_status, hrc]
    | SR_ERR_UNAUTHORIZED =>
      exact ⟨[], c, rfl, by simp [calls_status], by simp [hrc],
        by simp [edit_error_of, hrc, hp]⟩
    | SR_ERR_DATA_EXISTS =>
      exact ⟨[], c, rfl, by simp [calls_status], by simp [hrc],
        by simp [edit_error_of, hrc, hp]⟩
    | SR_ERR_DATA_MISSING =>
      exact ⟨[], c, rfl, by simp [calls_status], by simp [hrc],
        by simp [edit_error_of, hrc, hp]⟩
    | SR_ERR_OTHER code =>
      exact ⟨[], c, rfl, by simp [calls_status], by simp [hrc],
        by simp [edit_error_of, hrc]⟩

/-- A visit forms a correct stretch. -/
theorem edit_visit_calls_ok (sr : Backend) (ds : Option sr_session_ctx) (d : NP2_EDIT_DEFOP)
    (parent : Option lyd_info) (iter : lyd_info) (st : edit_state) (w : World) :
    edit_calls_ok sr w (edit_visit sr ds d parent iter st w).2
      (edit_result_error (edit_visit sr ds d parent iter st w).1) := by
  rcases edit_visit_cases sr ds d parent iter st w with hc | ⟨mk, p, hc⟩
  · rw [hc]
    have := edit_apply_check_ok sr ds ((edit_enter d parent iter st).op
      (edit_enter d parent iter st).op_index) (edit_enter d parent iter st).path w
    split <;> rename_i heq <;> rw [heq] at this <;> exact this
  · rw [hc]; exact edit_calls_ok_refl sr w

/-- The whole walk forms a correct stretch. -/
theorem edit_walk_calls_ok (sr : Backend) (ds : Option sr_session_ctx) (d : NP2_EDIT_DEFOP)
    (n : lyd_node) :
    ∀ (parent : Option lyd_info) (st : edit_state) (w : World),
      edit_calls_ok sr w (edit_walk sr ds d parent n st w).2
        (edit_result_error (edit_walk sr ds d parent n st w).1) := by
  induction n with
  | null => intro parent st w; exact edit_calls_ok_refl sr w
  | node iter child next ihc ihn =>
    intro parent st w
    have hv := edit_visit_calls_ok sr ds d parent iter st w
    unfold edit_walk
    rcases hvr : edit_visit sr ds d parent iter st w with ⟨res, w1⟩
    rw [hvr] at hv
    cases res with
    | error e => exact hv
    | ok st1 =>
      simp only []
      by_cases hl : iter.nodetype.leaflike = true
      · simp only [hl, if_true]
        exact edit_calls_ok_trans sr w w1 _ _ hv (ihn parent (edit_pop st1) w1)
      · simp only [hl, Bool.false_eq_true, if_false]
        have hc := ihc (some iter) st1 w1
        rcases hcr : edit_walk sr ds d (some iter) child st1 w1 with ⟨res2, w2⟩
        rw [hcr] at hc
        cases res2 with
        | error e => exact edit_calls_ok_trans sr w w1 _ _ hv hc
        | ok st2 =>
          simp only []
          exact edit_calls_ok_trans sr w w1 _ _ hv
            (edit_calls_ok_trans sr w1 w2 _ _ hc (ihn parent (edit_pop st2) w2))

/-- `op_editconfig` on a non-empty edit tree: the walk from the initial state, with the
reply made from its result. -/
theorem op_editconfig_tree (sr : Backend) (target : String) (dop : Option defop_leaf)
    (iter : lyd_info) (child next : lyd_node) (ncs : nc_session) (w : World) :
    ∃ ds d, op_editconfig sr ⟨target, dop, some (.tree (.node iter child next))⟩ ncs w
      = ((match (edit_walk sr ds d none (.node iter child next) edit_state_init w).1 with
          | .error e => .err e
          | .ok _ => .ok),
         (edit_walk sr ds d none (.node iter child next) edit_state_init w).2) := by
  refine ⟨if target = "running" then some ncs.data.running else none,
    match dop with
    | some .merge => .NP2_EDIT_DEFOP_MERGE
    | some .replace => .NP2_EDIT_DEFOP_REPLACE
    | some .none => .NP2_EDIT_DEFOP_NONE
    | none => .NP2_EDIT_DEFOP_MERGE, ?_⟩
  simp only [op_editconfig, edit_state_init]
  split <;> rename_i heq <;> rw [heq]

/-- C19: at the dispatch step the backend call is fixed by the operation alone. Merge and
replace call `sr_set_item` on the path without the strict flag, create calls it with the
strict flag, delete calls `sr_delete_item` with the strict flag, remove calls it without,
none makes no call; the value argument of `sr_set_item` is `NULL`. A visit that is not
the visit of a list or of a key leaf does to the backend exactly what the dispatch of
the noted operation on the current path does. -/
theorem edit_dispatch_by_operation (sr : Backend) (ds : Option sr_session_ctx)
    (path : List Char) (w : World) :
    edit_apply sr ds .NP2_EDIT_MERGE path w
      = (some (sr w.calls (.set_item ds (String.mk path) none .SR_EDIT_DEFAULT)),
         ⟨w.dslock, w.calls ++ [.set_item ds (String.mk path) none .SR_EDIT_DEFAULT]⟩) ∧
    edit_apply sr ds .NP2_EDIT_REPLACE path w
      = (some (sr w.calls (.set_item ds (String.mk path) none .SR_EDIT_DEFAULT)),
         ⟨w.dslock, w.calls ++ [.set_item ds (String.mk path) none .SR_EDIT_DEFAULT]⟩) ∧
    edit_apply sr ds .NP2_EDIT_CREATE path w
      = (some (sr w.calls (.set_item ds (String.mk path) none .SR_EDIT_STRICT)),
         ⟨w.dslock, w.calls ++ [.set_item ds (String.mk path) none .SR_EDIT_STRICT]⟩) ∧
    edit_apply sr ds .NP2_EDIT_DELETE path w
      = (some (sr w.calls (.delete_item ds (String.mk path) .SR_EDIT_STRICT)),
         ⟨w.dslock, w.calls ++ [.delete_item ds (String.mk path) .SR_EDIT_STRICT]⟩) ∧
    edit_apply sr ds .NP2_EDIT_REMOVE path w
      = (some (sr w.calls (.delete_item ds (String.mk path) .SR_EDIT_DEFAULT)),
         ⟨w.dslock, w.calls ++ [.delete_item ds (String.mk path) .SR_EDIT_DEFAULT]⟩) ∧
    edit_apply sr ds .NP2_EDIT_NONE path w = (none, w) ∧
    (∀ (d : NP2_EDIT_DEFOP) (parent : Option lyd_info) (iter : lyd_info) (st : edit_state),
      iter.nodetype ≠ .LYS_LIST → (iter.nodetype = .LYS_LEAF → st.missing_keys = 0) →
      (edit_visit sr ds d parent iter st w).2
        = (edit_apply sr ds ((edit_enter d parent iter st).op
            (edit_enter d parent iter st).op_index) (edit_enter d parent iter st).path w).2) := by
  refine ⟨rfl, rfl, rfl, rfl, rfl, rfl, ?_⟩
  intro d parent iter st hlist hleaf
  have hop : (edit_enter d parent iter st).op (edit_enter d parent iter st).op_index
      = get_edit_op iter (st.op (st.op_index + 1 - 1)) d := by
    simp [edit_enter]
  rw [hop]
  cases hnt : iter.nodetype
  case LYS_LIST => exact absurd hnt hlist
  case LYS_LEAF =>
    have hk := hleaf hnt
    simp only [edit_visit, edit_enter, hnt, hk, ne_eq, not_true_eq_false, if_false]
    split <;> rfl
  case LYS_CONTAINER =>
    simp only [edit_visit, edit_enter, hnt]
    split_ifs <;> split <;> rfl
  all_goals
    simp only [edit_visit, edit_enter, hnt]
    split <;> rfl

/-- Witness of C19: the visit of the leaf `x` of `ex_leaf_x` with default operation merge
calls `sr_set_item` on `/ex:x` without the strict flag. -/
theorem edit_dispatch_by_operation_witness :
    (edit_visit sr_ok (some 10) .NP2_EDIT_DEFOP_MERGE none
        ⟨"ex", "x", .LYS_LEAF, false, 0, "1", []⟩ edit_state_init World.init).2
      = ⟨dslock_init, [.set_item (some 10) "/ex:x" none .SR_EDIT_DEFAULT]⟩ :=
  ((edit_dispatch_by_operation sr_ok (some 10) [] World.init).2.2.2.2.2.2
    .NP2_EDIT_DEFOP_MERGE none ⟨"ex", "x", .LYS_LEAF, false, 0, "1", []⟩ edit_state_init
    (by decide) (fun _ => rfl)).trans (by decide)

/-- C20: for every edit tree and backend, the calls `op_editconfig` adds are all OK
except possibly the last one. If a call returns a status other than OK it is the last
call made, and the reply is the error for that status: access-denied for unauthorized,
data-exists for data-exists, data-missing for data-missing, each of protocol type with
the path of the failing call, and operation-failed of application type for any other
status. If every call returns OK the reply is ok. With a backend that remembers created
nodes, a create of `/ex:x` replies ok and the same request again replies data-exists with
path `/ex:x`. -/
theorem op_editconfig_stops_at_first_error (sr : Backend) (target : String)
    (dop : Option defop_leaf) (config : lyd_node) (ncs : nc_session) (w : World) :
    (∃ cs, (op_editconfig sr ⟨target, dop, some (.tree config)⟩ ncs w).2.calls
        = w.calls ++ cs ∧
      (((op_editconfig sr ⟨target, dop, some (.tree config)⟩ ncs w).1 = .ok ∧
          ∀ s ∈ calls_status sr w.calls cs, s = .SR_ERR_OK) ∨
       (∃ pre c, cs = pre ++ [c] ∧
          (∀ s ∈ calls_status sr w.calls pre, s = .SR_ERR_OK) ∧
          sr (w.calls ++ pre) c ≠ .SR_ERR_OK ∧
          (op_editconfig sr ⟨target, dop, some (.tree config)⟩ ncs w).1
            = .err (edit_error_of (sr (w.calls ++ pre) c) c.path))) ∧
      ((∀ s ∈ calls_status sr w.calls cs, s = .SR_ERR_OK) →
        (op_editconfig sr ⟨target, dop, some (.tree config)⟩ ncs w).1 = .ok)) ∧
    (∀ p, edit_error_of .SR_ERR_UNAUTHORIZED p
        = .typed .NC_ERR_ACCESS_DENIED .NC_ERR_TYPE_PROT p ∧
      edit_error_of .SR_ERR_DATA_EXISTS p = .typed .NC_ERR_DATA_EXISTS .NC_ERR_TYPE_PROT p ∧
      edit_error_of .SR_ERR_DATA_MISSING p = .typed .NC_ERR_DATA_MISSING .NC_ERR_TYPE_PROT p ∧
      ∀ code, edit_error_of (.SR_ERR_OTHER code) p
        = .typed .NC_ERR_OP_FAILED .NC_ERR_TYPE_APP none) ∧
    (op_editconfig sr_exists ex_rpc_create ex_S1 World.init).1 = .ok ∧
    (op_editconfig sr_exists ex_rpc_create ex_S1
        (op_editconfig sr_exists ex_rpc_create ex_S1 World.init).2).1
      = .err (.typed .NC_ERR_DATA_EXISTS .NC_ERR_TYPE_PROT (some "/ex:x")) := by
  refine ⟨?_, fun p => ⟨rfl, rfl, rfl, fun _ => rfl⟩, by decide, by decide⟩
  cases config with
  | null =>
    exact ⟨[], by simp [op_editconfig], Or.inl ⟨rfl, by simp [calls_status]⟩, fun _ => rfl⟩
  | node iter child next =>
    obtain ⟨ds, d, heq⟩ := op_editconfig_tree sr target dop iter child next ncs w
    rw [heq]
    have h := edit_walk_calls_ok sr ds d (.node iter child next) none edit_state_init w
    obtain ⟨cs, hcs, hres⟩ := h
    refine ⟨cs, hcs, ?_⟩
    rcases hw : (edit_walk sr ds d none (.node iter child next) edit_state_init w).1 with e | st
    · rw [hw] at hres
      simp only [edit_result_error] at hres
      obtain ⟨pre, c, h1, h2, h3, h4⟩ := hres
      refine ⟨Or.inr ⟨pre, c, h1, h2, h3, by rw [h4]⟩, fun hall => ?_⟩
      have hmem : sr (w.calls ++ pre) c ∈ calls_status sr w.calls cs := by
        rw [h1, calls_status_append]
        simp [calls_status]
      exact absurd (hall _ hmem) h3
    · rw [hw] at hres
      simp only [edit_result_error] at hres
      exact ⟨Or.inl ⟨rfl, hres⟩, fun _ => rfl⟩

/-- Witness of C20: a create of `/ex:x` on a backend that already holds `/ex:x` makes one
call, which returns data-exists, and replies data-exists with that path. -/
theorem op_editconfig_stops_at_first_error_witness :
    ∃ cs, (op_editconfig sr_exists ⟨"running", none, some (.tree (.node
          ⟨"ex", "x", .LYS_LEAF, false, 0, "1", [⟨"operation", "ietf-netconf", "create"⟩]⟩
          .null .null))⟩ ex_S1
        ⟨dslock_init, [.set_item (some 10) "/ex:x" none .SR_EDIT_STRICT]⟩).2.calls
      = [.set_item (some 10) "/ex:x" none .SR_EDIT_STRICT] ++ cs :=
  (op_editconfig_stops_at_first_error sr_exists "running" none
    (.node ⟨"ex", "x", .LYS_LEAF, false, 0, "1", [⟨"operation", "ietf-netconf", "create"⟩]⟩
      .null .null) ex_S1
    ⟨dslock_init, [.set_item (some 10) "/ex:x" none .SR_EDIT_STRICT]⟩).1.elim
    (fun cs h => ⟨cs, h.1⟩)


/-- Witness of C18: in `ex_edit_tree` with default operation merge, the visit noted for
the leaf `l` under the container carrying `delete` has the operation delete. -/
theorem edit_walk_effective_op_witness :
    (⟨[⟨"ex", "l", .LYS_LEAF, false, 0, "1", []⟩,
        ⟨"ex", "c", .LYS_CONTAINER, true, 0, "", [⟨"operation", "ietf-netconf", "delete"⟩]⟩],
      .NP2_EDIT_DELETE, "/ex:c/l".toList⟩ : edit_visit_rec).op
      = effective_op .NP2_EDIT_DEFOP_MERGE
          [⟨"ex", "l", .LYS_LEAF, false, 0, "1", []⟩,
           ⟨"ex", "c", .LYS_CONTAINER, true, 0, "",
             [⟨"operation", "ietf-netconf", "delete"⟩]⟩] :=
  (edit_walk_effective_op sr_ok none .NP2_EDIT_DEFOP_MERGE ex_edit_tree World.init).1
    ⟨[⟨"ex", "l", .LYS_LEAF, false, 0, "1", []⟩,
        ⟨"ex", "c", .LYS_CONTAINER, true, 0, "", [⟨"operation", "ietf-netconf", "delete"⟩]⟩],
      .NP2_EDIT_DELETE, "/ex:c/l".toList⟩ (by decide)

/-- Witness of C15: the attribute `a="1"` in namespace `urn:ex` appended to `/ex:top`. -/
theorem xpath_buf_add_attrs_appends_witness :
    xpath_buf_add_attrs ex_ctx [⟨true, some "urn:ex", "a", "1"⟩] "/ex:top".toList 8
      = (8 + 11, "/ex:top".toList ++ "[@ex:a='1']".toList) :=
  (xpath_buf_add_attrs_appends ex_ctx [⟨true, some "urn:ex", "a", "1"⟩] "/ex:top".toList 8
    (by decide)).1

/-! ## Theorems: calls and path of the edit walk -/

/-- The walk with a record of its calls has the result of the walk. -/
theorem edit_walk_trace_result (sr : Backend) (ds : Option sr_session_ctx)
    (defop : NP2_EDIT_DEFOP) (n : lyd_node) :
    ∀ (anc : List lyd_info) (st : edit_state) (w : World),
      (edit_walk_trace sr ds defop anc n st w).2 = edit_walk sr ds defop anc.head? n st w := by
  induction n with
  | null => intro anc st w; rfl
  | node iter child next ihc ihn =>
    intro anc st w
    unfold edit_walk_trace edit_walk
    rcases hv : edit_visit sr ds defop anc.head? iter st w with ⟨res, w1⟩
    cases res with
    | error e => rfl
    | ok st1 =>
      simp only []
      by_cases hl : iter.nodetype.leaflike = true
      · simp only [hl, if_true]
        exact ihn anc (edit_pop st1) w1
      · simp only [hl]
        have hc := ihc (iter :: anc) st1 w1
        simp only [List.head?_cons] at hc
        rcases hcl : edit_walk_trace sr ds defop (iter :: anc) child st1 w1 with ⟨l1, res2, w2⟩
        rw [hcl] at hc
        simp only at hc
        rw [← hc]
        cases res2 with
        | error e => rfl
        | ok st2 => simp only []; exact ihn anc (edit_pop st2) w2

/-- The dispatch makes no call, or one call on the path, without a value. -/
theorem edit_apply_call (sr : Backend) (ds : Option sr_session_ctx) (op : NP2_EDIT_OP)
    (path : List Char) (w : World) :
    (edit_apply sr ds op path w).2.calls = w.calls ∨
    ∃ c, c.path = some (String.mk path) ∧ c.value = none ∧
      (edit_apply sr ds op path w).2.calls = w.calls ++ [c] := by
  cases op
  case NP2_EDIT_ERROR => left; rfl
  case NP2_EDIT_NONE => left; rfl
  case NP2_EDIT_MERGE =>
    exact Or.inr ⟨.set_item ds (String.mk path) none .SR_EDIT_DEFAULT, rfl, rfl, rfl⟩
  case NP2_EDIT_REPLACE =>
    exact Or.inr ⟨.set_item ds (String.mk path) none .SR_EDIT_DEFAULT, rfl, rfl, rfl⟩
  case NP2_EDIT_CREATE =>
    exact Or.inr ⟨.set_item ds (String.mk path) none .SR_EDIT_STRICT, rfl, rfl, rfl⟩
  case NP2_EDIT_DELETE =>
    exact Or.inr ⟨.delete_item ds (String.mk path) .SR_EDIT_STRICT, rfl, rfl, rfl⟩
  case NP2_EDIT_REMOVE =>
    exact Or.inr ⟨.delete_item ds (String.mk path) .SR_EDIT_DEFAULT, rfl, rfl, rfl⟩

/-- A visit makes no call, or one call on the path of the node, without a value. -/
theorem edit_visit_call (sr : Backend) (ds : Option sr_session_ctx) (d : NP2_EDIT_DEFOP)
    (parent : Option lyd_info) (iter : lyd_info) (st : edit_state) (w : World) :
    (edit_visit sr ds d parent iter st w).2.calls = w.calls ∨
    ∃ c, c.path = some (String.mk (edit_path parent iter st.missing_keys st.path)) ∧
      c.value = none ∧ (edit_visit sr ds d parent iter st w).2.calls = w.calls ++ [c] := by
  rcases edit_visit_cases sr ds d parent iter st w with hc | ⟨mk, p, hc⟩
  · have hw : (edit_visit sr ds d parent iter st w).2 = (edit_apply sr ds
        ((edit_enter d parent iter st).op (edit_enter d parent iter st).op_index)
        (edit_enter d parent iter st).path w).2 := by
      rw [hc]; split <;> rfl
    rw [hw]
    exact edit_apply_call sr ds _ _ w
  · left; rw [hc]

/-- The calls of a walk are the calls noted down for its visits, in the order of the
visits, and every visit has no call or one call on its path, without a value. -/
theorem edit_walk_trace_calls (sr : Backend) (ds : Option sr_session_ctx) (d : NP2_EDIT_DEFOP)
    (n : lyd_node) :
    ∀ (anc : List lyd_info) (st : edit_state) (w : World),
      (edit_walk_trace sr ds d anc n st w).2.2.calls
        = w.calls ++ ((edit_walk_trace sr ds d anc n st w).1.map (fun r => r.calls)).flatten ∧
      ∀ r ∈ (edit_walk_trace sr ds d anc n st w).1,
        r.calls = [] ∨ ∃ c, r.calls = [c] ∧ c.path = some (String.mk r.path) ∧ c.value = none := by
  induction n with
  | null => intro anc st w; simp [edit_walk_trace]
  | node iter child next ihc ihn =>
    intro anc st w
    have hv := edit_visit_call sr ds d anc.head? iter st w
    unfold edit_walk_trace
    rcases hvr : edit_visit sr ds d anc.head? iter st w with ⟨res, w1⟩
    rw [hvr] at hv
    simp only at hv
    have hdrop : w1.calls = w.calls ++ w1.calls.drop w.calls.length ∧
        (w1.calls.drop w.calls.length = [] ∨ ∃ c, w1.calls.drop w.calls.length = [c] ∧
          c.path = some (String.mk (edit_path anc.head? iter st.missing_keys st.path)) ∧
          c.value = none) := by
      rcases hv with hv | ⟨c, hc1, hc2, hv⟩
      · rw [hv]; simp
      · rw [hv]; simp only [List.drop_left, true_and]
        exact Or.inr ⟨c, rfl, hc1, hc2⟩
    cases res with
    | error e =>
      simp only [List.map_cons, List.map_nil, List.flatten_cons, List.flatten_nil, List.append_nil,
        List.mem_singleton, forall_eq]
      exact hdrop
    | ok st1 =>
      simp only []
      by_cases hl : iter.nodetype.leaflike = true
      · simp only [hl, if_true]
        have hn := ihn anc (edit_pop st1) w1
        rcases hnr : edit_walk_trace sr ds d anc next (edit_pop st1) w1 with ⟨l, r⟩
        rw [hnr] at hn
        simp only [List.map_cons, List.flatten_cons, List.mem_cons, forall_eq_or_imp] at hn ⊢
        refine ⟨?_, hdrop.2, hn.2⟩
        rw [hn.1, ← List.append_assoc, ← hdrop.1]
      · simp only [hl, Bool.false_eq_true, if_false]
        have hc := ihc (iter :: anc) st1 w1
        rcases hcr : edit_walk_trace sr ds d (iter :: anc) child st1 w1 with ⟨l1, res2, w2⟩
        rw [hcr] at hc
        simp only at hc
        cases res2 with
        | error e =>
          simp only [List.map_cons, List.flatten_cons, List.mem_cons, forall_eq_or_imp]
          refine ⟨?_, hdrop.2, hc.2⟩
          rw [hc.1, ← List.append_assoc, ← hdrop.1]
        | ok st2 =>
          simp only []
          have hn := ihn anc (edit_pop st2) w2
          rcases hnr : edit_walk_trace sr ds d anc next (edit_pop st2) w2 with ⟨l2, r⟩
          rw [hnr] at hn
          simp only [List.map_cons, List.flatten_cons, List.mem_cons, forall_eq_or_imp,
            List.map_append, List.flatten_append, List.mem_append] at hn ⊢
          refine ⟨?_, hdrop.2, ?_⟩
          · rw [hn.1, hc.1, ← List.append_assoc, ← List.append_assoc, ← hdrop.1,
              List.append_assoc]
          · intro r hr
            rcases hr with hr | hr
            · exact hc.2 r hr
            · exact hn.2 r hr

/-- With a backend that returns OK for every call, the dispatch and its check let the
walk go on. -/
theorem edit_apply_check_always_ok (sr : Backend) (hok : ∀ calls c, sr calls c = .SR_ERR_OK)
    (ds : Option sr_session_ctx) (op : NP2_EDIT_OP) (path : List Char) (w : World) :
    edit_check (edit_apply sr ds op path w).1 path = none := by
  cases op <;> simp [edit_apply, sr_do, hok, edit_check]

/-- With a backend that returns OK for every call, a visit lets the walk go on. -/
theorem edit_visit_always_ok (sr : Backend) (hok : ∀ calls c, sr calls c = .SR_ERR_OK)
    (ds : Option sr_session_ctx) (d : NP2_EDIT_DEFOP)
    (parent : Option lyd_info) (iter : lyd_info) (st : edit_state) (w : World) :
    ∃ st1, (edit_visit sr ds d parent iter st w).1 = .ok st1 := by
  rcases edit_visit_cases sr ds d parent iter st w with hc | ⟨mk, p, hc⟩
  · rw [hc, edit_apply_check_always_ok sr hok]
    exact ⟨_, rfl⟩
  · rw [hc]; exact ⟨_, rfl⟩

/-- With a backend that returns OK for every call, the walk visits every node of the tree
in depth-first pre-order and comes to its end. -/
theorem edit_walk_trace_preorder (sr : Backend) (hok : ∀ calls c, sr calls c = .SR_ERR_OK)
    (ds : Option sr_session_ctx) (d : NP2_EDIT_DEFOP) (n : lyd_node) :
    ∀ (anc : List lyd_info) (st : edit_state) (w : World),
      (edit_walk_trace sr ds d anc n st w).1.map (fun r => r.node) = lyd_preorder n ∧
      ∃ st2, (edit_walk_trace sr ds d anc n st w).2.1 = .ok st2 := by
  induction n with
  | null => intro anc st w; exact ⟨rfl, st, rfl⟩
  | node iter child next ihc ihn =>
    intro anc st w
    obtain ⟨st1, hv⟩ := edit_visit_always_ok sr hok ds d anc.head? iter st w
    unfold edit_walk_trace lyd_preorder
    rcases hvr : edit_visit sr ds d anc.head? iter st w with ⟨res, w1⟩
    rw [hvr] at hv
    simp only at hv
    subst hv
    simp only []
    by_cases hl : iter.nodetype.leaflike = true
    · simp only [hl, if_true]
      have hn := ihn anc (edit_pop st1) w1
      rcases hnr : edit_walk_trace sr ds d anc next (edit_pop st1) w1 with ⟨l, r⟩
      rw [hnr] at hn
      simp only [List.map_cons, List.nil_append]
      exact ⟨by rw [hn.1], hn.2⟩
    · simp only [hl, Bool.false_eq_true, if_false]
      have hc := ihc (iter :: anc) st1 w1
      rcases hcr : edit_walk_trace sr ds d (iter :: anc) child st1 w1 with ⟨l1, res2, w2⟩
      rw [hcr] at hc
      obtain ⟨hc1, st2, hc2⟩ := hc
      simp only at hc1 hc2
      subst hc2
      simp only []
      have hn := ihn anc (edit_pop st2) w2
      rcases hnr : edit_walk_trace sr ds d anc next (edit_pop st2) w2 with ⟨l2, r⟩
      rw [hnr] at hn
      simp only [List.map_cons, List.map_append]
      exact ⟨by rw [hn.1, hc1], hn.2⟩

/-- Cutting a text at its last `'/'` removes that character and what follows it. -/
theorem cut_last_slash (P body : List Char) (h : ∀ c ∈ body, c ≠ '/') :
    (((P ++ '/' :: body).reverse.dropWhile (fun c => c ≠ '/')).drop 1).reverse = P := by
  have hrev : (P ++ '/' :: body).reverse = body.reverse ++ '/' :: P.reverse := by simp
  rw [hrev, List.dropWhile_append_of_pos, List.dropWhile_cons_of_neg]
  · simp
  · simp
  · intro c hc
    simp only [decide_eq_true_eq]
    exact h c (List.mem_reverse.mp hc)

/-- The pop of a state whose path ends with a step free of `'/'`. -/
theorem edit_pop_cut (st : edit_state) (P body : List Char) (hp : st.path = P ++ '/' :: body)
    (h : ∀ c ∈ body, c ≠ '/') :
    (edit_pop st).path = P ∧ (edit_pop st).missing_keys = st.missing_keys := by
  refine ⟨?_, rfl⟩
  simp only [edit_pop, hp]
  exact cut_last_slash P body h

/-- The characters of a string free of `'/'`. -/
theorem slash_free_mem (s : String) (h : slash_free s = true) : ∀ c ∈ s.toList, c ≠ '/' := by
  intro c hc
  simp only [slash_free, List.all_eq_true, decide_eq_true_eq] at h
  exact h c hc

/-- The key predicates of a chain of the shape `lyd_plain` are free of `'/'`. -/
theorem key_preds_slash_free (n : lyd_node) :
    ∀ (mk : Nat) (pmod : String), lyd_plain mk pmod n = true →
      ∀ c ∈ key_preds mk n, c ≠ '/' := by
  induction n with
  | null => intro mk pmod _ c hc; cases mk <;> simp [key_preds] at hc
  | node iter child next _ ihn =>
    intro mk pmod hp c hc
    cases mk with
    | zero => simp [key_preds] at hc
    | succ m =>
      simp only [lyd_plain, Bool.and_eq_true, ne_eq, Nat.add_one_ne_zero, not_false_eq_true,
        if_true, decide_eq_true_eq, Nat.add_sub_cancel] at hp
      obtain ⟨⟨_, hname⟩, ⟨⟨_, hval⟩, hnext⟩⟩ := hp
      simp only [key_preds, List.cons_append, List.mem_cons, List.mem_append,
        List.append_assoc] at hc
      rcases hc with hc | hc | hc | hc | hc | hc
      · subst hc; decide
      · exact slash_free_mem _ hname c hc
      · subst hc; decide
      · subst hc; decide
      · exact slash_free_mem _ hval c hc
      · simp only [List.mem_cons, List.mem_singleton, List.not_mem_nil, or_false] at hc
        rcases hc with hc | hc | hc
        · subst hc; decide
        · subst hc; decide
        · exact ihn m pmod hnext c (by simpa using hc)

/-- The ancestors noted down by a walk end with the ancestors it was started with. -/
theorem edit_walk_trace_anc (sr : Backend) (ds : Option sr_session_ctx) (d : NP2_EDIT_DEFOP)
    (n : lyd_node) :
    ∀ (anc : List lyd_info) (st : edit_state) (w : World),
      ∀ r ∈ (edit_walk_trace sr ds d anc n st w).1, ∃ l, r.anc = l ++ anc := by
  induction n with
  | null => intro anc st w r hr; simp [edit_walk_trace] at hr
  | node iter child next ihc ihn =>
    intro anc st w r hr
    unfold edit_walk_trace at hr
    rcases hvr : edit_visit sr ds d anc.head? iter st w with ⟨res, w1⟩
    rw [hvr] at hr
    cases res with
    | error e =>
      simp only [List.mem_singleton] at hr
      subst hr; exact ⟨[], rfl⟩
    | ok st1 =>
      simp only [] at hr
      by_cases hl : iter.nodetype.leaflike = true
      · simp only [hl, if_true] at hr
        rcases hnr : edit_walk_trace sr ds d anc next (edit_pop st1) w1 with ⟨l, res⟩
        rw [hnr] at hr
        simp only [List.mem_cons] at hr
        rcases hr with hr | hr
        · subst hr; exact ⟨[], rfl⟩
        · exact ihn anc (edit_pop st1) w1 r (by rw [hnr]; exact hr)
      · simp only [hl, Bool.false_eq_true, if_false] at hr
        have hc := ihc (iter :: anc) st1 w1
        rcases hcr : edit_walk_trace sr ds d (iter :: anc) child st1 w1 with ⟨l1, res2, w2⟩
        rw [hcr] at hr hc
        have hdeep : r ∈ l1 → ∃ l, r.anc = l ++ anc := by
          intro h1
          obtain ⟨l, hl1⟩ := hc r h1
          exact ⟨l ++ [iter], by rw [hl1]; simp⟩
        cases res2 with
        | error e =>
          simp only [List.mem_cons] at hr
          rcases hr with hr | hr
          · subst hr; exact ⟨[], rfl⟩
          · exact hdeep hr
        | ok st2 =>
          simp only [] at hr
          rcases hnr : edit_walk_trace sr ds d anc next (edit_pop st2) w2 with ⟨l2, res3⟩
          rw [hnr] at hr
          simp only [List.mem_cons, List.mem_append] at hr
          rcases hr with hr | hr | hr
          · subst hr; exact ⟨[], rfl⟩
          · exact hdeep hr
          · exact ihn anc (edit_pop st2) w2 r (by rw [hnr]; exact hr)

/-- The records of the children of a node are not records of the level of the node. -/
theorem edit_walk_trace_deeper (sr : Backend) (ds : Option sr_session_ctx)
    (d : NP2_EDIT_DEFOP) (n : lyd_node) (iter : lyd_info) (anc : List lyd_info)
    (st : edit_state) (w : World) :
    ∀ r ∈ (edit_walk_trace sr ds d (iter :: anc) n st w).1, r.anc ≠ anc := by
  intro r hr h
  obtain ⟨l, hl⟩ := edit_walk_trace_anc sr ds d n (iter :: anc) st w r hr
  have := congrArg List.length hl
  rw [h] at this
  simp at this
  omega

/-- The step printed for a node visited while no key is missing: a `'/'` and a text free
of `'/'`. -/
theorem edit_path_plain (parent : Option lyd_info) (iter : lyd_info) (P : List Char)
    (hm : slash_free iter.module = true) (hn : slash_free iter.name = true) :
    ∃ body, edit_path parent iter 0 P = P ++ '/' :: body ∧ ∀ c ∈ body, c ≠ '/' := by
  unfold edit_path
  by_cases h : parent.all (fun p => decide (iter.module ≠ p.module)) = true
  · rw [if_pos h]
    refine ⟨_, rfl, ?_⟩
    intro c hc
    simp only [List.mem_append, List.mem_cons] at hc
    rcases hc with hc | hc | hc
    · exact slash_free_mem _ hm c hc
    · subst hc; decide
    · exact slash_free_mem _ hn c hc
  · rw [if_neg h]
    simp only [ne_eq, not_true_eq_false, if_false]
    exact ⟨_, rfl, slash_free_mem _ hn⟩

/-- A visit made while no key is missing, when it lets the walk go on: the path holds
the step of the node, and a list asks for its keys. -/
theorem edit_visit_plain (sr : Backend) (ds : Option sr_session_ctx) (d : NP2_EDIT_DEFOP)
    (parent : Option lyd_info) (iter : lyd_info) (st st1 : edit_state) (w w1 : World)
    (hmk : st.missing_keys = 0)
    (h : edit_visit sr ds d parent iter st w = (.ok st1, w1)) :
    st1.path = edit_path parent iter 0 st.path ∧
    st1.missing_keys = (if iter.nodetype = .LYS_LIST then iter.keys_size else 0) := by
  unfold edit_visit at h
  rw [hmk] at h
  cases hnt : iter.nodetype <;> rw [hnt] at h <;> simp only [ne_eq, not_true_eq_false,
    if_false, Bool.not_eq_true', ite_self, reduceCtorEq] at h ⊢
  all_goals
    first
    | (simp only [Prod.mk.injEq, Except.ok.injEq] at h
       obtain ⟨h1, _⟩ := h
       subst h1
       exact ⟨rfl, rfl⟩)
    | (split at h
       · simp at h
       · simp only [Prod.mk.injEq, Except.ok.injEq] at h
         obtain ⟨h1, _⟩ := h
         subst h1
         exact ⟨rfl, rfl⟩)

/-- The visit of a key leaf: no backend call, the predicate of the key and a `'/'` are
appended to the path, and one key less is missing. -/
theorem edit_visit_key (sr : Backend) (ds : Option sr_session_ctx) (d : NP2_EDIT_DEFOP)
    (parent : Option lyd_info) (p iter : lyd_info) (st : edit_state) (w : World)
    (hnt : iter.nodetype = .LYS_LEAF) (hk : st.missing_keys ≠ 0) (hp : parent = some p)
    (hm : iter.module = p.module) :
    ∃ s1, edit_visit sr ds d parent iter st w = (.ok s1, w) ∧
      s1.path = st.path ++ '[' :: (iter.name.toList ++ '=' :: '\'' ::
        (iter.value_str.toList ++ ['\'', ']'])) ++ ['/'] ∧
      s1.missing_keys = st.missing_keys - 1 ∧
      edit_path parent iter st.missing_keys st.path = st.path ++ '[' :: (iter.name.toList
        ++ '=' :: '\'' :: (iter.value_str.toList ++ ['\'', ']'])) := by
  have hpath : edit_path parent iter st.missing_keys st.path = st.path ++ '[' ::
      (iter.name.toList ++ '=' :: '\'' :: (iter.value_str.toList ++ ['\'', ']'])) := by
    unfold edit_path
    subst hp
    simp only [Option.all_some, hm, ne_eq, not_true_eq_false, decide_False,
      Bool.false_eq_true, if_false, hk, not_false_eq_true, if_true]
  refine ⟨{ edit_enter d parent iter st with
      missing_keys := st.missing_keys - 1
      path := edit_path parent iter st.missing_keys st.path ++ ['/'] }, ?_, ?_, rfl, hpath⟩
  · unfold edit_visit
    simp only [hnt, hk, ne_eq, not_false_eq_true, if_true]
    rfl
  · simp only [hpath]

/-- The walk over a sibling chain of the shape `lyd_plain`, started while `mk` keys are
missing: when it comes to its end the path holds what it held before, followed by the
predicates of the keys, and no key is missing; the nodes of the chain after the keys are
visited with that path followed by their step; the keys are visited without backend
call. -/
theorem edit_walk_trace_plain (sr : Backend) (ds : Option sr_session_ctx) (d : NP2_EDIT_DEFOP)
    (n : lyd_node) :
    ∀ (mk : Nat) (pmod : String) (anc : List lyd_info) (st : edit_state) (w : World),
      lyd_plain mk pmod n = true → st.missing_keys = mk →
      (mk ≠ 0 → ∃ p, anc.head? = some p ∧ p.module = pmod) →
      (∀ st2 w2, (edit_walk_trace sr ds d anc n st w).2 = (.ok st2, w2) →
        st2.path = st.path ++ key_preds mk n ∧ st2.missing_keys = 0) ∧
      (∀ r ∈ (edit_walk_trace sr ds d anc n st w).1.drop mk, r.anc = anc →
        r.path = edit_path anc.head? r.node 0 (st.path ++ key_preds mk n)) ∧
      ((edit_walk_trace sr ds d anc n st w).1.take mk).map (fun r => (r.node, r.calls))
        = (lyd_first mk n).map (fun k => (k, [])) := by
  induction n with
  | null =>
    intro mk pmod anc st w hp hmk _
    simp only [lyd_plain, decide_eq_true_eq] at hp
    subst hp
    refine ⟨?_, ?_, ?_⟩
    · intro st2 w2 h
      simp only [edit_walk_trace, Prod.mk.injEq, Except.ok.injEq] at h
      obtain ⟨h1, _⟩ := h
      subst h1
      simp [key_preds, hmk]
    · intro r hr; simp [edit_walk_trace] at hr
    · simp [edit_walk_trace, lyd_first]
  | node iter child next ihc ihn =>
    intro mk pmod anc st w hp hmk hpar
    simp only [lyd_plain, Bool.and_eq_true] at hp
    obtain ⟨⟨hmod, hname⟩, hrest⟩ := hp
    cases mk with
    | succ m =>
      simp only [ne_eq, Nat.add_one_ne_zero, not_false_eq_true, if_true, Bool.and_eq_true,
        decide_eq_true_eq, Nat.add_sub_cancel] at hrest
      obtain ⟨⟨⟨hnt, hpm⟩, hval⟩, hnext⟩ := hrest
      obtain ⟨p, hph, hpmod⟩ := hpar (Nat.succ_ne_zero m)
      have hk : st.missing_keys ≠ 0 := by rw [hmk]; exact Nat.succ_ne_zero m
      obtain ⟨s1, hv, hs1p, hs1k, hpath⟩ := edit_visit_key sr ds d anc.head? p iter st w hnt hk
        hph (by rw [hpm, hpmod])
      have hpop := edit_pop_cut s1 _ [] hs1p (by simp)
      rw [hs1k, hmk, Nat.add_sub_cancel] at hpop
      have ih := ihn m pmod anc (edit_pop s1) w hnext hpop.2 (fun _ => ⟨p, hph, hpmod⟩)
      rw [hpop.1] at ih
      unfold edit_walk_trace
      rw [hv]
      simp only [hnt, LYS_NODE.leaflike, if_true]
      rcases hnr : edit_walk_trace sr ds d anc next (edit_pop s1) w with ⟨l, res⟩
      rw [hnr] at ih
      simp only [List.drop_succ_cons, List.take_succ_cons, List.map_cons, key_preds, lyd_first,
        List.drop_length, List.append_assoc] at ih ⊢
      refine ⟨ih.1, ih.2.1, ?_⟩
      rw [ih.2.2]
    | zero =>
      simp only [ne_eq, not_true_eq_false, if_false, Bool.and_eq_true] at hrest
      obtain ⟨hch, hnext⟩ := hrest
      obtain ⟨body, hbody, hfree⟩ := edit_path_plain anc.head? iter st.path hmod hname
      unfold edit_walk_trace
      rw [hmk]
      simp only [key_preds, List.append_nil, List.drop_zero, List.take_zero, List.map_nil,
        lyd_first]
      rcases hvr : edit_visit sr ds d anc.head? iter st w with ⟨res, w1⟩
      cases res with
      | error e =>
        simp only [List.mem_singleton]
        refine ⟨?_, ?_, trivial⟩
        · intro st2 w2 h; simp at h
        · intro r hr _; subst hr; rfl
      | ok st1 =>
        obtain ⟨h1p, h1k⟩ := edit_visit_plain sr ds d anc.head? iter st st1 w w1 hmk hvr
        simp only []
        by_cases hl : iter.nodetype.leaflike = true
        · simp only [hl, if_true]
          have hnl : iter.nodetype ≠ .LYS_LIST := by
            intro h; rw [h] at hl; simp [LYS_NODE.leaflike] at hl
          rw [if_neg hnl] at h1k
          have hpop := edit_pop_cut st1 st.path body (by rw [h1p, hbody]) hfree
          rw [h1k] at hpop
          have ih := ihn 0 pmod anc (edit_pop st1) w1 hnext hpop.2 (fun h => absurd rfl h)
          rw [hpop.1] at ih
          rcases hnr : edit_walk_trace sr ds d anc next (edit_pop st1) w1 with ⟨l, res⟩
          rw [hnr] at ih
          simp only [key_preds, List.append_nil, List.drop_zero, List.mem_cons] at ih ⊢
          refine ⟨ih.1, ?_, trivial⟩
          intro r hr ha
          rcases hr with hr | hr
          · subst hr; rfl
          · exact ih.2.1 r hr ha
        · simp only [hl, Bool.false_eq_true, if_false]
          have hchild : lyd_plain (if iter.nodetype = .LYS_LIST then iter.keys_size else 0)
              iter.module child = true := by
            cases hnt : iter.nodetype <;>
              simp only [hnt, LYS_NODE.leaflike, reduceCtorEq, if_true, if_false,
                not_true_eq_false] at hch hl ⊢ <;>
              exact hch
          have ihc1 := ihc _ iter.module (iter :: anc) st1 w1 hchild h1k
            (fun _ => ⟨iter, rfl, rfl⟩)
          have hdeep := edit_walk_trace_deeper sr ds d child iter anc st1 w1
          rcases hcr : edit_walk_trace sr ds d (iter :: anc) child st1 w1 with ⟨l1, res2, w2⟩
          rw [hcr] at ihc1 hdeep
          simp only at hdeep
          cases res2 with
          | error e =>
            simp only [List.mem_cons]
            refine ⟨?_, ?_, trivial⟩
            · intro st2 w2 h; simp at h
            · intro r hr ha
              rcases hr with hr | hr
              · subst hr; rfl
              · exact absurd ha (hdeep r hr)
          | ok st2 =>
            obtain ⟨h2p, h2k⟩ := ihc1.1 st2 w2 rfl
            have hpop := edit_pop_cut st2 st.path
              (body ++ key_preds (if iter.nodetype = .LYS_LIST then iter.keys_size else 0) child)
              (by rw [h2p, h1p, hbody]; simp)
              (by
                intro c hc
                rcases List.mem_append.mp hc with hc | hc
                · exact hfree c hc
                · exact key_preds_slash_free child _ _ hchild c hc)
            rw [h2k] at hpop
            have ih := ihn 0 pmod anc (edit_pop st2) w2 hnext hpop.2 (fun h => absurd rfl h)
            rw [hpop.1] at ih
            simp only []
            rcases hnr : edit_walk_trace sr ds d anc next (edit_pop st2) w2 with ⟨l, res⟩
            rw [hnr] at ih
            simp only [key_preds, List.append_nil, List.drop_zero, List.mem_cons,
              List.mem_append] at ih ⊢
            refine ⟨ih.1, ?_, trivial⟩
            intro r hr ha
            rcases hr with hr | hr | hr
            · subst hr; rfl
            · exact absurd ha (hdeep r hr)
            · exact ih.2.1 r hr ha

/-- C21 (code defect): on an edit of running that consists of the container `c` of module
`ex`, which has no presence statement, with the default operation merge, `op_editconfig`
calls `sr_set_item` on `/ex:c`, whatever the backend answers: the `break` taken for a
container without presence leaves the switch on the node type and the dispatch runs. -/
theorem op_editconfig_container_without_presence (sr : Backend) (ncs : nc_session)
    (w : World) :
    (op_editconfig sr ⟨"running", none, some (.tree ex_edit_container)⟩ ncs w).2.calls
      = w.calls ++ [.set_item (some ncs.data.running) "/ex:c" none .SR_EDIT_DEFAULT] := by
  rcases h : sr w.calls (.set_item (some ncs.data.running) "/ex:c" none .SR_EDIT_DEFAULT) <;>
  simp [op_editconfig, ex_edit_container, edit_walk, edit_visit, edit_apply, sr_do, get_edit_op,
    get_edit_op_attr, NP2_EDIT_OP.val, NP2_EDIT_DEFOP.cast, edit_path, h, edit_check]

/-- C22 (counterexample): the one call made for the list instance `item` with the keys
`k1 = a`, `k2 = b` and the leaf `v = 1` is an `sr_set_item` without value (`NULL`), not
an `sr_set_item` with the value `1`. -/
theorem edit_list_item_value_counterexample :
    (edit_walk sr_ok (some 10) .NP2_EDIT_DEFOP_MERGE none ex_edit_item edit_state_init
        World.init).2.calls
      = [.set_item (some 10) "/ex:item[k1='a'][k2='b']/v" none .SR_EDIT_DEFAULT] ∧
    (edit_walk sr_ok (some 10) .NP2_EDIT_DEFOP_MERGE none ex_edit_item edit_state_init
        World.init).2.calls
      ≠ [.set_item (some 10) "/ex:item[k1='a'][k2='b']/v" (some "1") .SR_EDIT_DEFAULT] := by
  decide

/-- C22 (as amended): for the list instance `item` of module `ex` with the keys `k1 = a`,
`k2 = b` and the leaf `v = 1`, walked with the default operation merge, the walk makes
exactly one backend call, whatever the backend answers: an `sr_set_item` on the path
`/ex:item[k1='a'][k2='b']/v` without value and without flag; no call is made for the
list node or its key leaves. In every walk, every backend call is made without value. -/
theorem edit_list_item_one_call (sr : Backend) (ds : Option sr_session_ctx) (w : World)
    (d : NP2_EDIT_DEFOP) (parent : Option lyd_info) (config : lyd_node) (st : edit_state) :
    (edit_walk sr ds .NP2_EDIT_DEFOP_MERGE none ex_edit_item edit_state_init w).2.calls
      = w.calls ++ [.set_item ds "/ex:item[k1='a'][k2='b']/v" none .SR_EDIT_DEFAULT] ∧
    (edit_walk_trace sr ds .NP2_EDIT_DEFOP_MERGE [] ex_edit_item edit_state_init w).1.map
        (fun r => (r.node.name, r.calls))
      = [("item", []), ("k1", []), ("k2", []),
         ("v", [.set_item ds "/ex:item[k1='a'][k2='b']/v" none .SR_EDIT_DEFAULT])] ∧
    ∃ cs, (edit_walk sr ds d parent config st w).2.calls = w.calls ++ cs ∧
      ∀ c ∈ cs, c.value = none := by
  refine ⟨?_, ?_, ?_⟩
  · rcases h : sr w.calls (.set_item ds "/ex:item[k1='a'][k2='b']/v" none .SR_EDIT_DEFAULT) <;>
    simp [ex_edit_item, edit_state_init, edit_walk, edit_visit, edit_apply, sr_do, get_edit_op,
      get_edit_op_attr, NP2_EDIT_OP.val, NP2_EDIT_DEFOP.cast, edit_path, h, edit_check,
      LYS_NODE.leaflike, edit_pop]
  · rcases h : sr w.calls (.set_item ds "/ex:item[k1='a'][k2='b']/v" none .SR_EDIT_DEFAULT) <;>
    simp [ex_edit_item, edit_state_init, edit_walk_trace, edit_visit, edit_apply, sr_do,
      get_edit_op, get_edit_op_attr, NP2_EDIT_OP.val, NP2_EDIT_DEFOP.cast, edit_path, h,
      edit_check, LYS_NODE.leaflike, edit_pop]
  · have h := edit_walk_trace_calls sr ds d config parent.toList st w
    have hr := edit_walk_trace_result sr ds d config parent.toList st w
    have hp : parent.toList.head? = parent := by cases parent <;> rfl
    rw [hp] at hr
    rw [← hr]
    refine ⟨_, h.1, ?_⟩
    intro c hc
    simp only [List.mem_flatten, List.mem_map, exists_exists_and_eq_and] at hc
    obtain ⟨r, hr1, hr2⟩ := hc
    rcases h.2 r hr1 with h0 | ⟨c1, h1, _, h3⟩
    · rw [h0] at hr2; simp at hr2
    · rw [h1] at hr2
      simp only [List.mem_singleton] at hr2
      subst hr2; exact h3

/-- C23 (counterexample): in `<lp><k>1</k><l><j>2</j><c>3</c></l></lp>` the path is
`/ex:lp` when `lp`, the parent of the list `l`, is visited, and `/ex:lp[k='1']/l[j='2']/c`
when `c` is visited: that is not the path of the parent followed by the step of `l`, its
key predicate and `/c`, as the predicate of the key of `lp` stands in between. -/
theorem edit_list_child_path_counterexample :
    (edit_walk_trace sr_ok (some 10) .NP2_EDIT_DEFOP_MERGE [] ex_edit_nested_list
        edit_state_init World.init).1.map (fun r => (r.node.name, String.mk r.path))
      = [("lp", "/ex:lp"), ("k", "/ex:lp[k='1']"), ("l", "/ex:lp[k='1']/l"),
         ("j", "/ex:lp[k='1']/l[j='2']"), ("c", "/ex:lp[k='1']/l[j='2']/c")] ∧
    "/ex:lp[k='1']/l[j='2']/c" ≠ "/ex:lp" ++ "/l" ++ "[j='2']" ++ "/c" := by
  decide

/-- C23 (as amended): let the list instance `L` be visited while no key is missing, with
`P` the text of the path just before the visit, and let the subtree of `L` be shaped by
the schema (`lyd_plain`): the first `keys_size` children of `L` are leaves of the module
of `L`, its keys; every list below starts with its keys; no module name, node name or key
value holds a `'/'`. Then every child `c` of `L` after the keys that is in the module of
`L` is visited with the path `P`, the step of `L`, the predicates `[k='v']` of the keys in
their order, and `/c`; and `L` and its keys are visited without any backend call. -/
theorem edit_list_child_path (sr : Backend) (ds : Option sr_session_ctx)
    (d : NP2_EDIT_DEFOP) (anc : List lyd_info) (L : lyd_info) (child : lyd_node)
    (st : edit_state) (w : World)
    (hL : L.nodetype = .LYS_LIST)
    (hplain : lyd_plain L.keys_size L.module child = true)
    (hmk : st.missing_keys = 0) :
    (∀ r ∈ (edit_walk_trace sr ds d anc (.node L child .null) st w).1.drop (1 + L.keys_size),
      r.anc = L :: anc → r.node.module = L.module →
        r.path = edit_path anc.head? L 0 st.path ++ key_preds L.keys_size child
          ++ '/' :: r.node.name.toList) ∧
    ((edit_walk_trace sr ds d anc (.node L child .null) st w).1.take (1 + L.keys_size)).map
        (fun r => (r.node, r.calls))
      = (L, []) :: (lyd_first L.keys_size child).map (fun k => (k, [])) := by
  have hv : edit_visit sr ds d anc.head? L st w
      = (.ok { edit_enter d anc.head? L st with missing_keys := L.keys_size }, w) := by
    simp only [edit_visit, hL, edit_enter]
  have h := edit_walk_trace_plain sr ds d child L.keys_size L.module (L :: anc)
    { edit_enter d anc.head? L st with missing_keys := L.keys_size } w hplain rfl
    (fun _ => ⟨L, rfl, rfl⟩)
  unfold edit_walk_trace
  rw [hv]
  simp only [hL, LYS_NODE.leaflike, Bool.false_eq_true, if_false]
  rcases hcr : edit_walk_trace sr ds d (L :: anc) child
    { edit_enter d anc.head? L st with missing_keys := L.keys_size } w with ⟨l1, res2, w2⟩
  rw [hcr] at h
  obtain ⟨_, h2, h3⟩ := h
  simp only [edit_enter, hmk, List.head?_cons] at h2
  have hstep : ∀ (r : edit_trace_rec) (P : List Char), r.node.module = L.module →
      edit_path (some L) r.node 0 P = P ++ '/' :: r.node.name.toList := by
    intro r P hm
    simp [edit_path, hm]
  have hdrop : ∀ (l : List edit_trace_rec) (v : edit_trace_rec),
      (v :: l).drop (1 + L.keys_size) = l.drop L.keys_size := by
    intro l v; rw [Nat.add_comm]; rfl
  have htake : ∀ (l : List edit_trace_rec) (v : edit_trace_rec),
      (v :: l).take (1 + L.keys_size) = v :: l.take L.keys_size := by
    intro l v; rw [Nat.add_comm]; rfl
  cases res2 with
  | error e =>
    simp only [hdrop, htake, List.map_cons, List.drop_length, List.nil_append]
    refine ⟨?_, ?_⟩
    · intro r hr ha hm
      rw [h2 r hr ha, hstep r _ hm]
    · rw [h3]
  | ok st2 =>
    simp only [edit_walk_trace, List.append_nil, hdrop, htake, List.map_cons, List.drop_length,
      List.nil_append]
    refine ⟨?_, ?_⟩
    · intro r hr ha hm
      rw [h2 r hr ha, hstep r _ hm]
    · rw [h3]

/-- C24: with a backend that returns OK for every call, the walk visits the nodes of the
edit tree, a forest of root siblings, in depth-first pre-order with siblings left to
right; every visit makes no backend call or one call, on the path of the visited node;
and the calls of the walk are the calls of the visits in the order of the visits. So the
calls follow the pre-order of the nodes they are made for, at most one for each node. -/
theorem edit_walk_calls_in_preorder (sr : Backend) (hok : ∀ calls c, sr calls c = .SR_ERR_OK)
    (ds : Option sr_session_ctx) (d : NP2_EDIT_DEFOP) (config : lyd_node) (w : World) :
    (edit_walk_trace sr ds d [] config edit_state_init w).1.map (fun r => r.node)
      = lyd_preorder config ∧
    (∀ r ∈ (edit_walk_trace sr ds d [] config edit_state_init w).1,
      r.calls = [] ∨ ∃ c, r.calls = [c] ∧ c.path = some (String.mk r.path)) ∧
    (edit_walk sr ds d none config edit_state_init w).2.calls
      = w.calls ++ ((edit_walk_trace sr ds d [] config edit_state_init w).1.map
          (fun r => r.calls)).flatten ∧
    ∃ st2, (edit_walk sr ds d none config edit_state_init w).1 = .ok st2 := by
  have h1 := edit_walk_trace_preorder sr hok ds d config [] edit_state_init w
  have h2 := edit_walk_trace_calls sr ds d config [] edit_state_init w
  have h3 := edit_walk_trace_result sr ds d config [] edit_state_init w
  simp only [List.head?_nil] at h3
  rw [← h3]
  refine ⟨h1.1, ?_, h2.1, h1.2⟩
  intro r hr
  rcases h2.2 r hr with h | ⟨c, hc1, hc2, _⟩
  · exact Or.inl h
  · exact Or.inr ⟨c, hc1, hc2⟩

/-- A key leaf keeps its predicate: in the list instance `item` with the keys `k1 = a`,
`k2 = b` the path is `/ex:item` when `item` is visited; when the walk has finished the key
leaf `k1` and moves on to its sibling `k2`, the path is `/ex:item[k1='a']`, as the cut
only removes the `'/'` written after the key predicate. -/
theorem edit_walk_key_leaf_keeps_predicate :
    (match (edit_visit sr_ok none .NP2_EDIT_DEFOP_MERGE none
        ⟨"ex", "item", .LYS_LIST, false, 2, "", []⟩ edit_state_init World.init).1 with
      | .ok sL =>
        (String.mk sL.path,
          match (edit_walk sr_ok none .NP2_EDIT_DEFOP_MERGE
              (some ⟨"ex", "item", .LYS_LIST, false, 2, "", []⟩)
              (.node ⟨"ex", "k1", .LYS_LEAF, false, 0, "a", []⟩ .null .null) sL World.init).1 with
          | .ok s2 => String.mk s2.path
          | .error _ => "")
      | .error _ => ("", ""))
      = ("/ex:item", "/ex:item[k1='a']") := by
  decide

/-- Path-stack discipline on trees without `'/'`: let a sibling chain of an edit tree be
shaped by the schema (`lyd_plain`): it starts with the `mk` keys its parent still misses,
every list below starts with its keys, and no module name, node name or key value holds a
`'/'`. When the walk over the chain comes to its end, the path is the path of before the
chain followed by the predicates of these keys, and no key is missing. So for a node that
is not a key (`mk = 0`, chain of one node) the cut at the last `'/'` removes exactly the
step of the node with its key predicates, and for a key leaf it leaves the predicate of
the key. -/
theorem edit_walk_path_discipline (sr : Backend) (ds : Option sr_session_ctx)
    (d : NP2_EDIT_DEFOP) (parent : Option lyd_info) (n : lyd_node) (mk : Nat) (pmod : String)
    (st : edit_state) (w : World)
    (hplain : lyd_plain mk pmod n = true) (hmk : st.missing_keys = mk)
    (hpar : mk ≠ 0 → ∃ p, parent = some p ∧ p.module = pmod) :
    match (edit_walk sr ds d parent n st w).1 with
    | .ok st2 => st2.path = st.path ++ key_preds mk n ∧ st2.missing_keys = 0
    | .error _ => True := by
  have hp : parent.toList.head? = parent := by cases parent <;> rfl
  have h := edit_walk_trace_plain sr ds d n mk pmod parent.toList st w hplain hmk
    (by rw [hp]; exact hpar)
  have hr := edit_walk_trace_result sr ds d n parent.toList st w
  rw [hp] at hr
  rw [← hr]
  rcases hres : (edit_walk_trace sr ds d parent.toList n st w).2 with ⟨res, w2⟩
  cases res with
  | error e => trivial
  | ok st2 => exact h.1 st2 w2 hres

/-- C28 (code defect): for `<l><k>a/b</k></l><x>1</x>`, a list instance whose key value
holds a `'/'` followed by a leaf at the root, the cut at the last `'/'` made when the walk
leaves `l` lands inside the key predicate: the walk moves on with the path `/ex:l[k='a`,
not with the empty path of before `l`; the leaf `x` is visited with `/ex:l[k='a/ex:x`, and
that is the path of the one backend call, whatever the backend answers. -/
theorem edit_walk_slash_key_cut (sr : Backend) (ds : Option sr_session_ctx) (w : World) :
    (edit_walk sr ds .NP2_EDIT_DEFOP_MERGE none ex_edit_slash_key edit_state_init w).2.calls
      = w.calls ++ [.set_item ds "/ex:l[k='a/ex:x" none .SR_EDIT_DEFAULT] ∧
    (edit_walk_trace sr ds .NP2_EDIT_DEFOP_MERGE [] ex_edit_slash_key edit_state_init w).1.map
        (fun r => (r.node.name, String.mk r.path))
      = [("l", "/ex:l"), ("k", "/ex:l[k='a/b']"), ("x", "/ex:l[k='a/ex:x")] ∧
    (match (edit_walk sr ds .NP2_EDIT_DEFOP_MERGE none
        (.node ⟨"ex", "l", .LYS_LIST, false, 1, "", []⟩
          (.node ⟨"ex", "k", .LYS_LEAF, false, 0, "a/b", []⟩ .null .null) .null)
        edit_state_init w).1 with
      | .ok st2 => String.mk st2.path = "/ex:l[k='a"
      | .error _ => False) := by
  refine ⟨?_, ?_, ?_⟩
  · rcases h : sr w.calls (.set_item ds "/ex:l[k='a/ex:x" none .SR_EDIT_DEFAULT) <;>
    simp [ex_edit_slash_key, edit_state_init, edit_walk, edit_visit, edit_apply, sr_do,
      get_edit_op, get_edit_op_attr, NP2_EDIT_OP.val, NP2_EDIT_DEFOP.cast, edit_path, h,
      edit_check, LYS_NODE.leaflike, edit_pop]
  · rcases h : sr w.calls (.set_item ds "/ex:l[k='a/ex:x" none .SR_EDIT_DEFAULT) <;>
    simp [ex_edit_slash_key, edit_state_init, edit_walk_trace, edit_visit, edit_apply, sr_do,
      get_edit_op, get_edit_op_attr, NP2_EDIT_OP.val, NP2_EDIT_DEFOP.cast, edit_path, h,
      edit_check, LYS_NODE.leaflike, edit_pop]
  · simp [edit_state_init, edit_walk, edit_visit, edit_path, LYS_NODE.leaflike, edit_pop]

/-- C29 (code defect): for the list instance `l` of module `ex` whose key `k` has a value
of `n` letters, the path holds `n + 11` characters when the key is visited, and one more
after the `'/'` written behind the predicate; nothing in the walk compares `path_index`
with the 1024 bytes of `path`. For `n = 1100` the text does not fit the buffer. -/
theorem edit_walk_path_exceeds_buffer (sr : Backend) (ds : Option sr_session_ctx)
    (d : NP2_EDIT_DEFOP) (n : Nat) (w : World) :
    (edit_walk_trace sr ds d [] (ex_edit_long_key n) edit_state_init w).1.map
        (fun r => (r.node.name, r.path.length))
      = [("l", 5), ("k", n + 11)] ∧
    (match (edit_visit sr ds d (some ⟨"ex", "l", .LYS_LIST, false, 1, "", []⟩)
        ⟨"ex", "k", .LYS_LEAF, false, 0, String.mk (List.replicate n 'a'), []⟩
        { edit_state_init with path := "/ex:l".toList, missing_keys := 1, op_index := 1 } w).1 with
      | .ok s1 => s1.path_index = n + 12
      | .error _ => False) ∧
    1023 < 1100 + 11 := by
  refine ⟨?_, ?_, by decide⟩
  · simp [ex_edit_long_key, edit_state_init, edit_walk_trace, edit_visit, edit_path,
      LYS_NODE.leaflike, edit_pop]
  · simp [edit_state_init, edit_visit, edit_path, edit_state.path_index]

/-- Witness of C23: the list instance `item` with the keys `k1 = a`, `k2 = b` and the
leaf `v`, visited at the root. -/
theorem edit_list_child_path_witness :
    (∀ r ∈ (edit_walk_trace sr_ok (some 10) .NP2_EDIT_DEFOP_MERGE [] ex_edit_item
        edit_state_init World.init).1.drop (1 + 2),
      r.anc = [⟨"ex", "item", .LYS_LIST, false, 2, "", []⟩] → r.node.module = "ex" →
        r.path = "/ex:item[k1='a'][k2='b']".toList ++ '/' :: r.node.name.toList) ∧
    ((edit_walk_trace sr_ok (some 10) .NP2_EDIT_DEFOP_MERGE [] ex_edit_item
        edit_state_init World.init).1.take (1 + 2)).map (fun r => (r.node.name, r.calls))
      = [("item", []), ("k1", []), ("k2", [])] :=
  ⟨(edit_list_child_path sr_ok (some 10) .NP2_EDIT_DEFOP_MERGE []
      ⟨"ex", "item", .LYS_LIST, false, 2, "", []⟩
      (.node ⟨"ex", "k1", .LYS_LEAF, false, 0, "a", []⟩ .null
        (.node ⟨"ex", "k2", .LYS_LEAF, false, 0, "b", []⟩ .null
          (.node ⟨"ex", "v", .LYS_LEAF, false, 0, "1", []⟩ .null .null)))
      edit_state_init World.init rfl (by decide) rfl).1, by decide⟩

/-- Witness of C24: the tree `ex_edit_tree` with a backend that accepts every call. -/
theorem edit_walk_calls_in_preorder_witness :
    (edit_walk_trace sr_ok (some 10) .NP2_EDIT_DEFOP_MERGE [] ex_edit_tree edit_state_init
        World.init).1.map (fun r => r.node)
      = lyd_preorder ex_edit_tree :=
  (edit_walk_calls_in_preorder sr_ok (fun _ _ => rfl) (some 10) .NP2_EDIT_DEFOP_MERGE
    ex_edit_tree World.init).1

/-- The discipline on the list instance `item` with its two keys and the leaf `v`,
walked from the root. -/
theorem edit_walk_path_discipline_item :
    match (edit_walk sr_ok (some 10) .NP2_EDIT_DEFOP_MERGE none ex_edit_item edit_state_init
        World.init).1 with
    | .ok st2 => st2.path = edit_state_init.path ++ key_preds 0 ex_edit_item
        ∧ st2.missing_keys = 0
    | .error _ => True :=
  edit_walk_path_discipline sr_ok (some 10) .NP2_EDIT_DEFOP_MERGE none ex_edit_item 0 ""
    edit_state_init World.init (by decide) rfl (fun h => absurd rfl h)

/-- C27 (code defect): for `<top xmlns="urn:ex"><a xmlns="urn:other"/><b
xmlns="urn:other"/></top>` the compiler returns `/ex:top/other:a` and `/ex:top/b`, while
for the same filter without `a` it returns `/ex:top/other:b`: the step of `b` depends on
the sibling before it, as the loop over the children hands its own `last_ns` to
`xpath_buf_add_node`, which sets it to the namespace of `a`. -/
theorem build_xpath_sibling_dependent :
    build_xpath_from_subtree_filter ex_ctx ex_filter_two_ns []
      = (0, ["/ex:top/other:a", "/ex:top/b"]) ∧
    build_xpath_from_subtree_filter ex_ctx ex_filter_one_ns []
      = (0, ["/ex:top/other:b"]) := by
  decide

/-! ## Theorems: calls of `op_lock` that run at the same time -/

/-- The two critical sections of `op_lock`, run one after the other, are `op_lock`. -/
theorem op_lock_section_seq (sr : Backend) (dsname : String) (ncs : nc_session) (w : World) :
    op_lock_section sr dsname ncs (op_lock_section sr dsname ncs .start w).1
        (op_lock_section sr dsname ncs .start w).2
      = (.returned (op_lock sr dsname ncs w).1, (op_lock sr dsname ncs w).2) := by
  unfold op_lock
  simp only [op_lock_section]
  cases hT : lock_target dsname ncs.data with
  | none => rfl
  | some t =>
    obtain ⟨ds, dsl⟩ := t
    simp only []
    cases hg : dsl.get w.dslock with
    | some holder => rfl
    | none =>
      simp only [op_lock_section, hg]
      split_ifs <;> rfl

/-- What one critical section of `op_lock` does, for a call on the datastore whose entry
is `dsl`. -/
theorem op_lock_section_cases (sr : Backend) (dsname : String) (S : nc_session)
    (ds0 : sr_session_ctx) (dsl : dsl_ptr) (hT : lock_target dsname S.data = some (ds0, dsl))
    (pc : op_lock_pc) (w : World) (hpc : ∀ ds d, pc = .checked ds d → d = dsl) :
    (op_lock_section sr dsname S pc w).1.rank ≥ min 2 (pc.rank + 1) ∧
    (∀ ds d, (op_lock_section sr dsname S pc w).1 = .checked ds d → d = dsl) ∧
    (((op_lock_section sr dsname S pc w).1 = pc ∧ (op_lock_section sr dsname S pc w).2 = w) ∨
     ((∃ sid, (op_lock_section sr dsname S pc w).1 = .returned (.err (.lock_denied sid))) ∧
        (op_lock_section sr dsname S pc w).2.dslock = w.dslock) ∨
     ((∃ ds, (op_lock_section sr dsname S pc w).1 = .checked ds dsl) ∧
        (op_lock_section sr dsname S pc w).2 = w) ∨
     ((op_lock_section sr dsname S pc w).1 = .returned .ok ∧ dsl.get w.dslock = none ∧
        dsl.get (op_lock_section sr dsname S pc w).2.dslock ≠ none)) := by
  cases pc with
  | start =>
    simp only [op_lock_section, hT]
    cases hg : dsl.get w.dslock with
    | some holder =>
      refine ⟨by simp [op_lock_pc.rank], by intro ds d h; simp at h, ?_⟩
      exact Or.inr (Or.inl ⟨⟨holder.id, rfl⟩, rfl⟩)
    | none =>
      refine ⟨by simp [op_lock_pc.rank], ?_, ?_⟩
      · intro ds d h
        simp only [op_lock_pc.checked.injEq] at h
        exact h.2.symm
      · exact Or.inr (Or.inr (Or.inl ⟨⟨ds0, rfl⟩, rfl⟩))
  | checked ds d =>
    have hd := hpc ds d rfl
    subst hd
    simp only [op_lock_section]
    cases hg : d.get w.dslock with
    | some holder =>
      refine ⟨by simp [op_lock_pc.rank], by intro ds d h; simp at h, ?_⟩
      exact Or.inr (Or.inl ⟨⟨holder.id, rfl⟩, rfl⟩)
    | none =>
      simp only [sr_do]
      by_cases hrc : sr w.calls (.lock_datastore ds) ≠ .SR_ERR_OK
      · rw [if_pos hrc]
        refine ⟨by simp [op_lock_pc.rank], by intro ds d h; simp at h, ?_⟩
        exact Or.inr (Or.inl ⟨⟨0, rfl⟩, rfl⟩)
      · rw [if_neg hrc]
        refine ⟨by simp [op_lock_pc.rank], by intro ds d h; simp at h, ?_⟩
        refine Or.inr (Or.inr (Or.inr ⟨rfl, trivial, ?_⟩))
        cases d <;> simp [dsl_ptr.get, dsl_ptr.put]
  | returned r =>
    refine ⟨by simp [op_lock_section, op_lock_pc.rank], ?_, Or.inl ⟨rfl, rfl⟩⟩
    intro ds d h; simp [op_lock_section] at h

/-- A step of either call keeps `lock_race.inv`. -/
theorem lock_race_step_inv (sr : Backend) (dsname : String) (S1 S2 : nc_session)
    (ds1 ds2 : sr_session_ctx) (dsl : dsl_ptr)
    (hT1 : lock_target dsname S1.data = some (ds1, dsl))
    (hT2 : lock_target dsname S2.data = some (ds2, dsl))
    (first : Bool) (s : lock_race) (h : s.inv dsl) :
    (s.step sr dsname S1 S2 first).inv dsl := by
  obtain ⟨h1, h2, h3, h4, h5, h6, h7⟩ := h
  cases first with
  | true =>
    obtain ⟨_, c2, c3⟩ := op_lock_section_cases sr dsname S1 ds1 dsl hT1 s.pc1 s.world h1
    simp only [lock_race.step, if_true]
    rcases hsec : op_lock_section sr dsname S1 s.pc1 s.world with ⟨pc, w⟩
    rw [hsec] at c2 c3
    simp only at c2 c3
    refine ⟨c2, h2, ?_, ?_, ?_, ?_, h7⟩
    · intro hok
      rcases c3 with ⟨e1, e2⟩ | ⟨⟨sid, e1⟩, _⟩ | ⟨⟨ds, e1⟩, _⟩ | ⟨_, _, e3⟩
      · rw [e2]; exact h3 (e1 ▸ hok)
      · rw [e1] at hok; simp at hok
      · rw [e1] at hok; simp at hok
      · exact e3
    · intro hok
      rcases c3 with ⟨_, e2⟩ | ⟨_, e2⟩ | ⟨_, e2⟩ | ⟨_, _, e3⟩
      · rw [e2]; exact h4 hok
      · rw [e2]; exact h4 hok
      · rw [e2]; exact h4 hok
      · exact e3
    · rintro ⟨hok1, hok2⟩
      rcases c3 with ⟨e1, _⟩ | ⟨⟨sid, e1⟩, _⟩ | ⟨⟨ds, e1⟩, _⟩ | ⟨_, e2, _⟩
      · exact h5 ⟨e1 ▸ hok1, hok2⟩
      · rw [e1] at hok1; simp at hok1
      · rw [e1] at hok1; simp at hok1
      · exact h4 hok2 e2
    · intro r hr
      rcases c3 with ⟨e1, _⟩ | ⟨⟨sid, e1⟩, _⟩ | ⟨⟨ds, e1⟩, _⟩ | ⟨e1, _, _⟩
      · exact h6 r (e1 ▸ hr)
      · rw [e1] at hr
        simp only [op_lock_pc.returned.injEq] at hr
        exact Or.inr ⟨sid, hr.symm⟩
      · rw [e1] at hr; simp at hr
      · rw [e1] at hr
        simp only [op_lock_pc.returned.injEq] at hr
        exact Or.inl hr.symm
  | false =>
    obtain ⟨_, c2, c3⟩ := op_lock_section_cases sr dsname S2 ds2 dsl hT2 s.pc2 s.world h2
    simp only [lock_race.step, Bool.false_eq_true, if_false]
    rcases hsec : op_lock_section sr dsname S2 s.pc2 s.world with ⟨pc, w⟩
    rw [hsec] at c2 c3
    simp only at c2 c3
    refine ⟨h1, c2, ?_, ?_, ?_, h6, ?_⟩
    · intro hok
      rcases c3 with ⟨_, e2⟩ | ⟨_, e2⟩ | ⟨_, e2⟩ | ⟨_, _, e3⟩
      · rw [e2]; exact h3 hok
      · rw [e2]; exact h3 hok
      · rw [e2]; exact h3 hok
      · exact e3
    · intro hok
      rcases c3 with ⟨e1, e2⟩ | ⟨⟨sid, e1⟩, _⟩ | ⟨⟨ds, e1⟩, _⟩ | ⟨_, _, e3⟩
      · rw [e2]; exact h4 (e1 ▸ hok)
      · rw [e1] at hok; simp at hok
      · rw [e1] at hok; simp at hok
      · exact e3
    · rintro ⟨hok1, hok2⟩
      rcases c3 with ⟨e1, _⟩ | ⟨⟨sid, e1⟩, _⟩ | ⟨⟨ds, e1⟩, _⟩ | ⟨_, e2, _⟩
      · exact h5 ⟨hok1, e1 ▸ hok2⟩
      · rw [e1] at hok2; simp at hok2
      · rw [e1] at hok2; simp at hok2
      · exact h3 hok1 e2
    · intro r hr
      rcases c3 with ⟨e1, _⟩ | ⟨⟨sid, e1⟩, _⟩ | ⟨⟨ds, e1⟩, _⟩ | ⟨e1, _, _⟩
      · exact h7 r (e1 ▸ hr)
      · rw [e1] at hr
        simp only [op_lock_pc.returned.injEq] at hr
        exact Or.inr ⟨sid, hr.symm⟩
      · rw [e1] at hr; simp at hr
      · rw [e1] at hr
        simp only [op_lock_pc.returned.injEq] at hr
        exact Or.inl hr.symm

/-- Every schedule keeps `lock_race.inv`. -/
theorem lock_race_run_inv (sr : Backend) (dsname : String) (S1 S2 : nc_session)
    (ds1 ds2 : sr_session_ctx) (dsl : dsl_ptr)
    (hT1 : lock_target dsname S1.data = some (ds1, dsl))
    (hT2 : lock_target dsname S2.data = some (ds2, dsl))
    (sched : List Bool) :
    ∀ s : lock_race, s.inv dsl → (lock_race.run sr dsname S1 S2 sched s).inv dsl := by
  induction sched with
  | nil => intro s h; exact h
  | cons first rest ih =>
    intro s h
    exact ih _ (lock_race_step_inv sr dsname S1 S2 ds1 ds2 dsl hT1 hT2 first s h)

/-- A step of a call takes it one critical section further, up to its return, and leaves
the other call where it is. -/
theorem lock_race_step_rank (sr : Backend) (dsname : String) (S1 S2 : nc_session)
    (ds1 ds2 : sr_session_ctx) (dsl : dsl_ptr)
    (hT1 : lock_target dsname S1.data = some (ds1, dsl))
    (hT2 : lock_target dsname S2.data = some (ds2, dsl))
    (first : Bool) (s : lock_race) (h : s.inv dsl) :
    (s.step sr dsname S1 S2 first).pc1.rank
        ≥ min 2 (s.pc1.rank + (if first then 1 else 0)) ∧
    (s.step sr dsname S1 S2 first).pc2.rank
        ≥ min 2 (s.pc2.rank + (if first then 0 else 1)) := by
  cases first with
  | true =>
    obtain ⟨c1, _, _⟩ := op_lock_section_cases sr dsname S1 ds1 dsl hT1 s.pc1 s.world h.1
    simp only [lock_race.step, if_true]
    rcases hsec : op_lock_section sr dsname S1 s.pc1 s.world with ⟨pc, w⟩
    rw [hsec] at c1
    simp only at c1 ⊢
    exact ⟨c1, by omega⟩
  | false =>
    obtain ⟨c1, _, _⟩ := op_lock_section_cases sr dsname S2 ds2 dsl hT2 s.pc2 s.world h.2.1
    simp only [lock_race.step, Bool.false_eq_true, if_false]
    rcases hsec : op_lock_section sr dsname S2 s.pc2 s.world with ⟨pc, w⟩
    rw [hsec] at c1
    simp only at c1 ⊢
    exact ⟨by omega, c1⟩

/-- Under a schedule a call gets as far as the number of its steps, up to its return. -/
theorem lock_race_run_rank (sr : Backend) (dsname : String) (S1 S2 : nc_session)
    (ds1 ds2 : sr_session_ctx) (dsl : dsl_ptr)
    (hT1 : lock_target dsname S1.data = some (ds1, dsl))
    (hT2 : lock_target dsname S2.data = some (ds2, dsl))
    (sched : List Bool) :
    ∀ s : lock_race, s.inv dsl →
      (lock_race.run sr dsname S1 S2 sched s).pc1.rank
          ≥ min 2 (s.pc1.rank + sched.count true) ∧
      (lock_race.run sr dsname S1 S2 sched s).pc2.rank
          ≥ min 2 (s.pc2.rank + sched.count false) := by
  induction sched with
  | nil => intro s _; simp [lock_race.run]
  | cons first rest ih =>
    intro s h
    have hs := lock_race_step_rank sr dsname S1 S2 ds1 ds2 dsl hT1 hT2 first s h
    have hi := ih _ (lock_race_step_inv sr dsname S1 S2 ds1 ds2 dsl hT1 hT2 first s h)
    simp only [lock_race.run]
    cases first <;> simp only [List.count_cons, if_true, if_false, Bool.false_eq_true,
      beq_self_eq_true, Bool.true_eq_false, beq_iff_eq] at hs hi ⊢ <;> omega

/-- A call of rank 2 has returned. -/
theorem op_lock_pc_rank_two (pc : op_lock_pc) (h : pc.rank ≥ 2) : ∃ r, pc = .returned r := by
  cases pc with
  | start => simp [op_lock_pc.rank] at h
  | checked ds d => simp [op_lock_pc.rank] at h
  | returned r => exact ⟨r, rfl⟩

/-- C26: two calls of `op_lock` on the same datastore `running` or `startup`, free at the
start, by the sessions `S1` and `S2`, interleaved in any way at the borders of their
critical sections (the section under the read lock and the section under the write lock,
which taken one after the other are `op_lock`). A call that gets two steps has returned.
At no point have both calls replied ok, and when both have returned and one has replied
ok, the other has replied lock-denied. -/
theorem op_lock_race_one_winner (sr : Backend) (dsname : String) (S1 S2 : nc_session)
    (w : World) (sched : List Bool)
    (hD : dsname = "running" ∨ dsname = "startup")
    (hfree : w.dslock.entry dsname = none) :
    (∀ (S : nc_session) (w0 : World),
      op_lock_section sr dsname S (op_lock_section sr dsname S .start w0).1
          (op_lock_section sr dsname S .start w0).2
        = (.returned (op_lock sr dsname S w0).1, (op_lock sr dsname S w0).2)) ∧
    (2 ≤ sched.count true →
      ∃ r, (lock_race.run sr dsname S1 S2 sched ⟨.start, .start, w⟩).pc1 = .returned r) ∧
    (2 ≤ sched.count false →
      ∃ r, (lock_race.run sr dsname S1 S2 sched ⟨.start, .start, w⟩).pc2 = .returned r) ∧
    ¬ ((lock_race.run sr dsname S1 S2 sched ⟨.start, .start, w⟩).pc1 = .returned .ok ∧
       (lock_race.run sr dsname S1 S2 sched ⟨.start, .start, w⟩).pc2 = .returned .ok) ∧
    (∀ r1 r2,
      (lock_race.run sr dsname S1 S2 sched ⟨.start, .start, w⟩).pc1 = .returned r1 →
      (lock_race.run sr dsname S1 S2 sched ⟨.start, .start, w⟩).pc2 = .returned r2 →
      (r1 = .ok → ∃ sid, r2 = .err (.lock_denied sid)) ∧
      (r2 = .ok → ∃ sid, r1 = .err (.lock_denied sid))) := by
  have hT : ∃ dsl : dsl_ptr, (∀ S : nc_session, ∃ ds, lock_target dsname S.data = some (ds, dsl))
      ∧ dsl.get w.dslock = none := by
    rcases hD with hD | hD
    · subst hD
      exact ⟨.running, fun S => ⟨S.data.running, rfl⟩, by simpa [dslock_t.entry] using hfree⟩
    · subst hD
      exact ⟨.startup, fun S => ⟨S.data.startup, rfl⟩, by simpa [dslock_t.entry] using hfree⟩
  obtain ⟨dsl, hTS, _⟩ := hT
  obtain ⟨ds1, hT1⟩ := hTS S1
  obtain ⟨ds2, hT2⟩ := hTS S2
  have h0 : (⟨.start, .start, w⟩ : lock_race).inv dsl := by
    refine ⟨?_, ?_, ?_, ?_, ?_, ?_, ?_⟩ <;> simp
  have hinv := lock_race_run_inv sr dsname S1 S2 ds1 ds2 dsl hT1 hT2 sched _ h0
  have hrank := lock_race_run_rank sr dsname S1 S2 ds1 ds2 dsl hT1 hT2 sched _ h0
  obtain ⟨_, _, _, _, h5, h6, h7⟩ := hinv
  refine ⟨fun S w0 => op_lock_section_seq sr dsname S w0, ?_, ?_, h5, ?_⟩
  · intro hc
    apply op_lock_pc_rank_two
    have := hrank.1
    simp only [op_lock_pc.rank] at this
    omega
  · intro hc
    apply op_lock_pc_rank_two
    have := hrank.2
    simp only [op_lock_pc.rank] at this
    omega
  · intro r1 r2 hr1 hr2
    constructor
    · intro hok
      subst hok
      rcases h7 r2 hr2 with h | h
      · subst h; exact absurd ⟨hr1, hr2⟩ h5
      · exact h
    · intro hok
      subst hok
      rcases h6 r1 hr1 with h | h
      · subst h; exact absurd ⟨hr1, hr2⟩ h5
      · exact h

/-- Witness of C26: `ex_S1` and `ex_S2` ask for running at start-up, and both pass the
section under the read lock before either takes the write lock: `ex_S1` replies ok and
`ex_S2` replies lock-denied with the id of `ex_S1`. -/
theorem op_lock_race_one_winner_witness :
    ¬ ((lock_race.run sr_ok "running" ex_S1 ex_S2 [true, false, true, false]
          ⟨.start, .start, World.init⟩).pc1 = .returned .ok ∧
       (lock_race.run sr_ok "running" ex_S1 ex_S2 [true, false, true, false]
          ⟨.start, .start, World.init⟩).pc2 = .returned .ok) ∧
    lock_race.run sr_ok "running" ex_S1 ex_S2 [true, false, true, false]
        ⟨.start, .start, World.init⟩
      = ⟨.returned .ok, .returned (.err (.lock_denied 1)),
         ⟨⟨some ex_S1, none, none⟩, [.lock_datastore 10]⟩⟩ :=
  ⟨(op_lock_race_one_winner sr_ok "running" ex_S1 ex_S2 World.init [true, false, true, false]
    (Or.inl rfl) (by decide)).2.2.2.1, by decide⟩

/-! ## Theorems: `get_srval_value` on integer kinds -/

/-- The digit characters: their value, and none of them is the minus sign. -/
theorem decimal_digit_digitChar :
    ∀ m, m < 10 → decimal_digit (Nat.digitChar m) = some m ∧ Nat.digitChar m ≠ '-' ∧
      (Nat.digitChar m = '0' → m = 0) := by
  decide

/-- The digits printed before an accumulator. -/
theorem toDigitsCore_append (fuel : Nat) :
    ∀ (n : Nat) (ds : List Char),
      Nat.toDigitsCore 10 fuel n ds = Nat.toDigitsCore 10 fuel n [] ++ ds := by
  induction fuel with
  | zero => intro n ds; simp [Nat.toDigitsCore]
  | succ f ih =>
    intro n ds
    simp only [Nat.toDigitsCore]
    by_cases h : n / 10 = 0
    · simp [h]
    · simp only [h, if_false]
      rw [ih (n / 10) (Nat.digitChar (n % 10) :: ds), ih (n / 10) [Nat.digitChar (n % 10)]]
      simp

/-- Reading digits after digits. -/
theorem parse_digits_append (xs ys : List Char) :
    ∀ acc, parse_digits (xs ++ ys) acc = (parse_digits xs acc).bind (parse_digits ys) := by
  induction xs with
  | nil => intro acc; rfl
  | cons c cs ih =>
    intro acc
    simp only [List.cons_append, parse_digits]
    cases decimal_digit c with
    | none => rfl
    | some v => exact ih _

/-- The digits that `Nat.toDigitsCore` prints with enough fuel: they denote the number,
all are digits, and the first one is not `0` unless the number is 0. -/
theorem toDigitsCore_spec (fuel : Nat) :
    ∀ n, n < fuel →
      parse_digits (Nat.toDigitsCore 10 fuel n []) 0 = some n ∧
      (Nat.toDigitsCore 10 fuel n []).all (fun c => (decimal_digit c).isSome) = true ∧
      ∃ c rest, Nat.toDigitsCore 10 fuel n [] = c :: rest ∧ (c = '0' → n = 0 ∧ rest = []) := by
  induction fuel with
  | zero => intro n h; omega
  | succ f ih =>
    intro n hn
    have hd := decimal_digit_digitChar (n % 10) (Nat.mod_lt n (by decide))
    simp only [Nat.toDigitsCore]
    by_cases h : n / 10 = 0
    · have hlt : n < 10 := by omega
      have hmod : n % 10 = n := Nat.mod_eq_of_lt hlt
      simp only [h, if_true, parse_digits, hd.1, List.all_cons, List.all_nil, Option.isSome_some,
        Bool.and_self, Nat.mul_zero, Nat.zero_add, true_and]
      refine ⟨by rw [hmod], _, _, rfl, ?_⟩
      intro h0
      exact ⟨by rw [← hmod]; exact hd.2.2 h0, rfl⟩
    · simp only [h, if_false]
      have hlt : n / 10 < f := by omega
      obtain ⟨i1, i2, c, rest, i3, i4⟩ := ih (n / 10) hlt
      rw [toDigitsCore_append f (n / 10) [Nat.digitChar (n % 10)]]
      refine ⟨?_, ?_, ?_⟩
      · rw [parse_digits_append, i1]
        simp only [Option.some_bind, parse_digits, hd.1]
        congr 1
        omega
      · simp only [List.all_append, i2, List.all_cons, hd.1, Option.isSome_some, List.all_nil,
          Bool.and_self]
      · rw [i3]
        refine ⟨c, rest ++ [Nat.digitChar (n % 10)], rfl, ?_⟩
        intro h0
        exact absurd (i4 h0).1 h

/-- The text of `%u`: it denotes the number, is canonical, and has at most `e` characters
for a number below `10 ^ e`. -/
theorem printf_u_spec (n : Nat) :
    parse_digits (printf_u n) 0 = some n ∧
    canonical_digits true (printf_u n) = true ∧
    (0 < n → canonical_digits false (printf_u n) = true) ∧
    (∃ c rest, printf_u n = c :: rest ∧ c ≠ '-') ∧
    ∀ e, 0 < e → n < 10 ^ e → (printf_u n).length ≤ e := by
  obtain ⟨h1, h2, c, rest, h3, h4⟩ := toDigitsCore_spec (n + 1) n (Nat.lt_succ_self n)
  have hc : (decimal_digit c).isSome = true := by
    have := h2
    rw [h3] at this
    simp only [List.all_cons, Bool.and_eq_true] at this
    exact this.1
  have hminus : c ≠ '-' := by
    intro h; rw [h] at hc; revert hc; decide
  have h2c := h2
  rw [h3] at h2c
  simp only [printf_u, Nat.toDigits]
  refine ⟨h1, ?_, ?_, ⟨c, rest, h3, hminus⟩, ?_⟩
  · rw [h3]
    simp only [canonical_digits, h2c, Bool.true_and]
    by_cases h0 : c = '0'
    · simp [(h4 h0).2]
    · simp [h0]
  · intro hpos
    rw [h3]
    simp only [canonical_digits, h2c, Bool.true_and]
    have h0 : c ≠ '0' := fun h => by have := (h4 h).1; omega
    simp [h0]
  · intro e he hlt
    exact Nat.toDigitsCore_length 10 (by decide) (n + 1) n e hlt he

/-- The text of `%u` as a decimal numeral. -/
theorem printf_u_decimal (n e : Nat) (he : 0 < e) (hn : n < 10 ^ e) :
    parse_decimal (printf_u n) = some (n : Int) ∧ canonical_decimal (printf_u n) = true ∧
    (printf_u n).length ≤ e := by
  obtain ⟨h1, h2, _, ⟨c, rest, h4, h5⟩, h6⟩ := printf_u_spec n
  refine ⟨?_, ?_, h6 e he hn⟩
  · rw [h4] at h1 ⊢
    simp only [parse_decimal, h5, if_false, h1]
  · rw [h4] at h2 ⊢
    simp only [canonical_decimal, h5, if_false, h2]

/-- The text of `%d` as a decimal numeral. -/
theorem printf_d_decimal (i : Int) (e : Nat) (he : 0 < e) (hi : i.natAbs < 10 ^ e) :
    parse_decimal (printf_d i) = some i ∧ canonical_decimal (printf_d i) = true ∧
    (printf_d i).length ≤ e + 1 := by
  by_cases hneg : i < 0
  · obtain ⟨h1, _, h3, ⟨c, rest, h4, _⟩, h6⟩ := printf_u_spec i.natAbs
    have hpos : 0 < i.natAbs := by omega
    have hne : printf_u i.natAbs ≠ [] := by rw [h4]; simp
    have hval : -((i.natAbs : Nat) : Int) = i := by omega
    simp only [printf_d, hneg, if_true]
    refine ⟨?_, ?_, ?_⟩
    · show parse_decimal ('-' :: printf_u i.natAbs) = some i
      simp only [parse_decimal, if_true, hne, if_false, h1, hval]
    · show canonical_decimal ('-' :: printf_u i.natAbs) = true
      simp only [canonical_decimal, if_true, h3 hpos]
    · show ('-' :: printf_u i.natAbs).length ≤ e + 1
      simp only [List.length_cons]
      exact Nat.succ_le_succ (h6 e he hi)
  · have hval : ((i.toNat : Nat) : Int) = i := by omega
    have hlt : i.toNat < 10 ^ e := by
      have : i.toNat = i.natAbs := by omega
      rw [this]; exact hi
    obtain ⟨h1, h2, h3⟩ := printf_u_decimal i.toNat e he hlt
    simp only [printf_d, hneg, if_false]
    refine ⟨?_, h2, by exact Nat.le_succ_of_le h3⟩
    show parse_decimal (printf_u i.toNat) = some i
    rw [h1, hval]

/-- C25: for every value of an integer kind (uint8, uint16, uint32, uint64, int8, int16,
int32, int64) whose member is within the range of its width, `get_srval_value` returns a
string, and that string is the canonical decimal numeral of the value: a minus sign for a
negative value, then digits without leading zero, the single digit `0` for zero; read as
a decimal numeral it gives back the value; it has at most 20 characters, so that with its
terminator it fits the 21 bytes of the caller's buffer. -/
theorem get_srval_value_integer (fraction_digits : String → Option Nat)
    (printf_f : Nat → c_double → List Char) (v : sr_val_t) (i : Int)
    (h : v.integer = some i) :
    ∃ s, get_srval_value fraction_digits printf_f (some v) = some s ∧
      parse_decimal s.toList = some i ∧ canonical_decimal s.toList = true ∧
      s.length ≤ 20 := by
  have hu : ∀ n : Nat, n < 2 ^ 64 →
      parse_decimal (String.mk (printf_u n)).toList = some (n : Int) ∧
      canonical_decimal (String.mk (printf_u n)).toList = true ∧
      (String.mk (printf_u n)).length ≤ 20 := by
    intro n hn
    exact printf_u_decimal n 20 (by decide) (by
      have : (2 : Nat) ^ 64 < 10 ^ 20 := by norm_num
      omega)
  have hd : ∀ j : Int, -(2 ^ 63) ≤ j → j < 2 ^ 63 →
      parse_decimal (String.mk (printf_d j)).toList = some j ∧
      canonical_decimal (String.mk (printf_d j)).toList = true ∧
      (String.mk (printf_d j)).length ≤ 20 := by
    intro j h1 h2
    exact printf_d_decimal j 19 (by decide) (by
      have : (2 : Nat) ^ 63 < 10 ^ 19 := by norm_num
      omega)
  unfold sr_val_t.integer at h
  unfold get_srval_value
  cases ht : v.type <;> simp only [ht, reduceCtorEq] at h ⊢
  case SR_UINT8_T =>
    split at h
    · rename_i hr
      simp only [Option.some.injEq] at h
      subst h
      exact ⟨_, rfl, hu _ (by omega)⟩
    · simp at h
  case SR_UINT16_T =>
    split at h
    · rename_i hr
      simp only [Option.some.injEq] at h
      subst h
      exact ⟨_, rfl, hu _ (by omega)⟩
    · simp at h
  case SR_UINT32_T =>
    split at h
    · rename_i hr
      simp only [Option.some.injEq] at h
      subst h
      exact ⟨_, rfl, hu _ (by omega)⟩
    · simp at h
  case SR_UINT64_T =>
    split at h
    · rename_i hr
      simp only [Option.some.injEq] at h
      subst h
      exact ⟨_, rfl, hu _ (by omega)⟩
    · simp at h
  case SR_INT8_T =>
    split at h
    · rename_i hr
      simp only [Option.some.injEq] at h
      subst h
      exact ⟨_, rfl, hd _ (by omega) (by omega)⟩
    · simp at h
  case SR_INT16_T =>
    split at h
    · rename_i hr
      simp only [Option.some.injEq] at h
      subst h
      exact ⟨_, rfl, hd _ (by omega) (by omega)⟩
    · simp at h
  case SR_INT32_T =>
    split at h
    · rename_i hr
      simp only [Option.some.injEq] at h
      subst h
      exact ⟨_, rfl, hd _ (by omega) (by omega)⟩
    · simp at h
  case SR_INT64_T =>
    split at h
    · rename_i hr
      simp only [Option.some.injEq] at h
      subst h
      exact ⟨_, rfl, hd _ (by omega) (by omega)⟩
    · simp at h

/-- Witness of C25: the least `int64` value is returned as `-9223372036854775808`, a
string of 20 characters. -/
theorem get_srval_value_integer_witness :
    (∃ s, get_srval_value (fun _ => none) (fun _ _ => []) (some ex_srval_int64_min) = some s ∧
      parse_decimal s.toList = some (-(2 ^ 63)) ∧ canonical_decimal s.toList = true ∧
      s.length ≤ 20) ∧
    get_srval_value (fun _ => none) (fun _ _ => []) (some ex_srval_int64_min)
      = some "-9223372036854775808" :=
  ⟨get_srval_value_integer (fun _ => none) (fun _ _ => []) ex_srval_int64_min (-(2 ^ 63))
    (by decide), by decide⟩

/-! ## Theorems: one XPath for every leaf of the pruned filter -/

/-- A module found by its namespace is a module of the registry. -/
theorem ly_ctx_get_module_by_ns_mem (ctx : ly_ctx) (ns : String) (m : lys_module)
    (h : ly_ctx_get_module_by_ns ctx ns = some m) : m ∈ ctx.modules :=
  List.mem_of_find?_eq_some h

/-- The module name that the namespace step prints is the one it was given or the name of
a module of the registry. -/
theorem xpath_resolve_step_module (ctx : ly_ctx) (e : lyxml_info) (emn : Option String)
    (ns : String) (emn1 : Option String) (ns1 : String) (h0 : step_module ctx emn)
    (h : xpath_resolve ctx e emn ns = some (emn1, ns1)) : step_module ctx emn1 := by
  cases emn with
  | some name0 =>
    simp only [xpath_resolve, Option.some.injEq, Prod.mk.injEq] at h
    rw [← h.1]
    exact h0
  | none =>
    cases hns : e.ns with
    | none =>
      simp only [xpath_resolve, hns, Option.some.injEq, Prod.mk.injEq] at h
      rw [← h.1]
      exact h0
    | some ns0 =>
      simp only [xpath_resolve, hns] at h
      split_ifs at h with hcond
      · cases hm : ly_ctx_get_module_by_ns ctx ns0 with
        | none => simp [hm] at h
        | some m =>
          simp only [hm, Option.some.injEq, Prod.mk.injEq] at h
          intro name hn
          rw [← h.1] at hn
          simp only [Option.some.injEq] at hn
          exact ⟨m, ly_ctx_get_module_by_ns_mem ctx ns0 m hm, hn⟩
      · simp only [Option.some.injEq, Prod.mk.injEq] at h
        rw [← h.1]
        exact h0

/-- The tree pruned of its content-match elements is empty when the chain is empty once
its content-match elements are unlinked. -/
theorem lyxml_prune_eq_null (chain : lyxml_elem) :
    lyxml_prune chain = .null ↔ lyxml_unlink_content chain = .null := by
  induction chain with
  | null => simp [lyxml_prune, lyxml_unlink_content]
  | node c cc next _ ihn =>
    simp only [lyxml_prune, lyxml_unlink_content]
    by_cases h : content_match c cc = true
    · simp only [h, if_true]; exact ihn
    · simp [h]

/-- The text printed for the content of a content-match element is its content without
the white space around it. -/
theorem content_match_trimmed (c : lyxml_info) (cc : lyxml_elem)
    (h : content_match c cc = true) :
    trimmed (c.content.getD "") = strip_ws (c.content.getD "").toList := by
  simp only [content_match, Bool.and_eq_true, decide_eq_true_eq] at h
  obtain ⟨_, h2⟩ := h
  cases hcont : c.content with
  | none => rw [hcont] at h2; simp at h2
  | some s =>
    rw [hcont] at h2
    simp only [Bool.not_eq_true'] at h2
    simp only [Option.getD_some]
    exact (trimmed_eq_strip s ((strws_eq_false_iff s.toList).mp h2)).2

/-- The first loop of `xpath_buf_add` prints the predicates of the content-match
children. -/
theorem content_preds_predicates (ctx : ly_ctx) (emn : Option String)
    (h0 : step_module ctx emn) (chain : lyxml_elem) :
    ∀ (ns : String) (t : List Char) (ns2 : String),
      content_preds ctx emn chain ns = some (t, ns2) → content_predicates ctx chain t := by
  induction chain with
  | null =>
    intro ns t ns2 h
    simp only [content_preds, Option.some.injEq, Prod.mk.injEq] at h
    rw [← h.1]
    exact .null
  | node c cc next _ ihn =>
    intro ns t ns2 h
    unfold content_preds at h
    by_cases hc : content_match c cc = true
    · simp only [hc, if_true] at h
      cases hr : xpath_resolve ctx c emn ns with
      | none => simp [hr] at h
      | some p1 =>
        obtain ⟨emn1, ns1⟩ := p1
        simp only [hr] at h
        cases hp : content_preds ctx emn next ns1 with
        | none => simp [hp] at h
        | some p2 =>
          obtain ⟨t2, ns3⟩ := p2
          simp only [hp, Option.some.injEq, Prod.mk.injEq] at h
          rw [← h.1, content_match_trimmed c cc hc]
          exact .content c cc next emn1 t2 hc
            (xpath_resolve_step_module ctx c emn ns emn1 ns1 h0 hr) (ihn ns1 t2 ns3 hp)
    · simp only [hc, Bool.false_eq_true, if_false] at h
      exact .other c cc next t (by simpa using hc) (ihn ns t ns2 h)

/-- No module name is a module name a step can be printed with. -/
theorem step_module_none (ctx : ly_ctx) : step_module ctx none := by
  intro name h; simp at h

/-- The second loop of `xpath_buf_add` adds the XPaths of the leaves of the pruned tree
of a chain that can be resolved. -/
theorem xpath_branch_ref_leaf_xpaths (ctx : ly_ctx) (chain : lyxml_elem) :
    ∀ (ns : String) (buf : List Char), lyxml_resolvable ctx chain = true →
      leaf_xpaths ctx chain buf (xpath_branch_ref ctx chain ns buf).1 := by
  induction chain with
  | null => intro ns buf _; exact .null buf
  | node c cc next ihc ihn =>
    intro ns buf hres
    simp only [lyxml_resolvable, Bool.and_eq_true] at hres
    obtain ⟨⟨hrc, hrcc⟩, hrn⟩ := hres
    unfold xpath_branch_ref
    cases hc : content_match c cc with
    | true =>
      simp only [if_true]
      exact .content c cc next buf _ hc (ihn ns buf hrn)
    | false =>
      simp only [Bool.false_eq_true, if_false]
      obtain ⟨⟨emn1, ns1⟩, hr⟩ := xpath_resolve_some ctx c none ns (Or.inr hrc)
      have hsm := xpath_resolve_step_module ctx c none ns emn1 ns1 (step_module_none ctx) hr
      by_cases hcc : cc = .null
      · subst hcc
        simp only [ne_eq, not_true_eq_false, if_false, hr]
        have := leaf_xpaths.leaf c .null next buf emn1 [] _ hc rfl hsm .null (ihn ns1 buf hrn)
        simpa using this
      · obtain ⟨⟨t, ns2⟩, hp⟩ := content_preds_some ctx none cc ns1 (Or.inr hrcc)
        have hpred := content_preds_predicates ctx none (step_module_none ctx) cc ns1 t ns2 hp
        simp only [hcc, ne_eq, not_false_eq_true, if_true, hr, hp]
        by_cases hu : lyxml_unlink_content cc = .null
        · simp only [hu, if_true]
          exact .leaf c cc next buf emn1 t _ hc ((lyxml_prune_eq_null cc).mpr hu) hsm hpred
            (ihn ns buf hrn)
        · simp only [hu, if_false]
          exact .inner c cc next buf emn1 t _ _ hc
            (fun h => hu ((lyxml_prune_eq_null cc).mp h)) hsm hpred
            (ihc ns2 _ hrcc) (ihn ns buf hrn)

/-- The XPaths of a chain are as many as the leaves of its pruned tree. -/
theorem leaf_xpaths_length (ctx : ly_ctx) (chain : lyxml_elem) (path : List Char)
    (out : List String) (h : leaf_xpaths ctx chain path out) :
    out.length = lyxml_leaves (lyxml_prune chain) := by
  induction h with
  | null path => rfl
  | content c cc next path out hc _ ih =>
    simp only [lyxml_prune, hc, if_true]
    exact ih
  | leaf c cc next path p t out hc hp _ _ _ ih =>
    simp only [lyxml_prune, hc, Bool.false_eq_true, if_false, lyxml_leaves, hp, if_true,
      List.length_cons, ih]
    omega
  | inner c cc next path p t out1 out2 hc hp _ _ _ _ ih1 ih2 =>
    simp only [lyxml_prune, hc, Bool.false_eq_true, if_false, lyxml_leaves, hp,
      List.length_append, ih1, ih2]

/-- The modules a top-level element is compiled for are modules of the registry. -/
theorem filter_modules_mem (ctx : ly_ctx) (e : lyxml_info) (ms : List lys_module)
    (h : filter_modules ctx e = some ms) : ∀ m ∈ ms, m ∈ ctx.modules := by
  intro m hm
  cases hns : e.ns with
  | none =>
    simp only [filter_modules, hns, Option.some.injEq] at h
    rw [← h] at hm
    exact (List.mem_filter.mp hm).1
  | some ns =>
    simp only [filter_modules, hns] at h
    split_ifs at h with hb
    · cases hf : ly_ctx_get_module_by_ns ctx ns with
      | none => simp [hf] at h
      | some m1 =>
        simp only [hf, Option.some.injEq] at h
        rw [← h] at hm
        simp only [List.mem_singleton] at hm
        rw [hm]
        exact ly_ctx_get_module_by_ns_mem ctx ns m1 hf
    · simp only [Option.some.injEq] at h
      rw [← h] at hm
      exact (List.mem_filter.mp hm).1

/-- Every XPath of a chain starts with the path the chain stands under. -/
theorem leaf_xpaths_start (ctx : ly_ctx) (chain : lyxml_elem) (path : List Char)
    (out : List String) (h : leaf_xpaths ctx chain path out) :
    ∀ s ∈ out, ∃ rest, s.toList = path ++ rest := by
  induction h with
  | null path => intro s hs; simp at hs
  | content c cc next path out _ _ ih => exact ih
  | leaf c cc next path p t out _ _ _ _ _ ih =>
    intro s hs
    rcases List.mem_cons.mp hs with hs | hs
    · subst hs
      exact ⟨'/' :: xpath_step_text p c.name ++ attrs_text ctx c.attr ++ t, by simp⟩
    · exact ih s hs
  | inner c cc next path p t out1 out2 _ _ _ _ _ _ ih1 ih2 =>
    intro s hs
    rcases List.mem_append.mp hs with hs | hs
    · obtain ⟨rest, hrest⟩ := ih1 s hs
      exact ⟨'/' :: xpath_step_text p c.name ++ attrs_text ctx c.attr ++ t ++ rest, by
        rw [hrest]; simp⟩
    · exact ih2 s hs

/-- C30 (counterexample): the top-level element `<top xmlns="urn:ex">7</top>` is a
content-match element, so the tree pruned of the content-match elements has no leaf; the
compiler returns one XPath for it, `/ex:top[text()='7']`, which is not the step `/ex:top`
either. -/
theorem build_xpath_top_content_counterexample :
    build_xpath_from_subtree_filter ex_ctx ex_filter_top_content []
      = (0, ["/ex:top[text()='7']"]) ∧
    lyxml_leaves (lyxml_prune ex_filter_top_content) = 0 ∧
    lyxml_resolvable ex_ctx ex_filter_top_content = true ∧
    "/ex:top[text()='7']" ≠ "/ex:top" := by
  decide

/-- C30 (as amended): let `E` be a top-level filter element that is not itself a
content-match element and is compiled for the one module `m` (the module of its
namespace), with all its descendants in namespaces that can be resolved. Then the
compiler returns 0 and the XPaths `leaf_xpaths` describes: one for every leaf of the tree
of `E` pruned of its content-match elements, in document order, each the concatenation
along the way from `E` to the leaf of the step of the element, its attribute predicates
and one predicate for each of its content-match children in document order. The step of
`E` is `/m:E`; which module name the other steps carry is left open. -/
theorem build_xpath_one_per_leaf (ctx : ly_ctx) (E : lyxml_info) (child : lyxml_elem)
    (m : lys_module) (hm : filter_modules ctx E = some [m])
    (hc : content_match E child = false) (hr : lyxml_resolvable ctx child = true) :
    (build_xpath_from_subtree_filter ctx (.node E child .null) []).1 = 0 ∧
    leaf_xpaths ctx (.node E child .null) []
      (build_xpath_from_subtree_filter ctx (.node E child .null) []).2 ∧
    (build_xpath_from_subtree_filter ctx (.node E child .null) []).2.length
      = lyxml_leaves (lyxml_prune (.node E child .null)) ∧
    ∀ s ∈ (build_xpath_from_subtree_filter ctx (.node E child .null) []).2,
      ∃ rest, s.toList = '/' :: (m.name.toList ++ ':' :: E.name.toList) ++ rest := by
  have hmem : m ∈ ctx.modules := filter_modules_mem ctx E [m] hm m (List.mem_singleton.mpr rfl)
  have hsm : step_module ctx (some m.name) := by
    intro name hn
    simp only [Option.some.injEq] at hn
    exact ⟨m, hmem, hn⟩
  rw [build_xpath_single ctx E child m hm hc]
  obtain ⟨⟨t, ns2⟩, hp⟩ := content_preds_some ctx (some m.name) child m.ns (Or.inl rfl)
  have hpred := content_preds_predicates ctx (some m.name) hsm child m.ns t ns2 hp
  have hres : xpath_resolve ctx E (some m.name) m.ns = some (some m.name, m.ns) := by
    simp [xpath_resolve]
  have hrel : leaf_xpaths ctx (.node E child .null) []
      (xpath_buf_add_ref ctx E child (some m.name) m.ns []) ∧
      ∀ s ∈ xpath_buf_add_ref ctx E child (some m.name) m.ns [],
        ∃ rest, s.toList = '/' :: (m.name.toList ++ ':' :: E.name.toList) ++ rest := by
    unfold xpath_buf_add_ref
    simp only [hres, hp]
    by_cases hu : lyxml_unlink_content child = .null
    · simp only [hu, if_true]
      refine ⟨.leaf E child .null [] (some m.name) t [] hc
        ((lyxml_prune_eq_null child).mpr hu) hsm hpred (.null []), ?_⟩
      intro s hs
      simp only [List.mem_singleton] at hs
      subst hs
      exact ⟨attrs_text ctx E.attr ++ t, by simp [xpath_step_text]⟩
    · simp only [hu, if_false]
      have hb := xpath_branch_ref_leaf_xpaths ctx child ns2
        ([] ++ '/' :: xpath_step_text (some m.name) E.name ++ attrs_text ctx E.attr ++ t) hr
      refine ⟨?_, ?_⟩
      · have := leaf_xpaths.inner E child .null [] (some m.name) t _ [] hc
          (fun h => hu ((lyxml_prune_eq_null child).mp h)) hsm hpred hb (.null [])
        simpa using this
      · intro s hs
        obtain ⟨rest, hrest⟩ := leaf_xpaths_start ctx child _ _ hb s hs
        exact ⟨attrs_text ctx E.attr ++ t ++ rest, by
          rw [hrest]; simp [xpath_step_text]⟩
  exact ⟨rfl, hrel.1, leaf_xpaths_length ctx _ _ _ hrel.1, hrel.2⟩

/-- Witness of C30: the filter `<top xmlns="urn:ex"><a><b>7</b></a></top>`, for which the
compiler returns the one XPath `/ex:top/a[b='7']`. -/
theorem build_xpath_one_per_leaf_witness :
    ((build_xpath_from_subtree_filter ex_ctx ex_filter_content []).1 = 0 ∧
      leaf_xpaths ex_ctx ex_filter_content []
        (build_xpath_from_subtree_filter ex_ctx ex_filter_content []).2 ∧
      (build_xpath_from_subtree_filter ex_ctx ex_filter_content []).2.length
        = lyxml_leaves (lyxml_prune ex_filter_content) ∧
      ∀ s ∈ (build_xpath_from_subtree_filter ex_ctx ex_filter_content []).2,
        ∃ rest, s.toList = '/' :: ("ex".toList ++ ':' :: "top".toList) ++ rest) ∧
    build_xpath_from_subtree_filter ex_ctx ex_filter_content [] = (0, ["/ex:top/a[b='7']"]) :=
  ⟨build_xpath_one_per_leaf ex_ctx ⟨"top", some "urn:ex", [], none⟩
    (xml_elem "a" (some "urn:ex") none
      (xml_elem "b" (some "urn:ex") (some "7") .null .null) .null)
    ⟨"ex", "urn:ex", [⟨"top", .LYS_CONTAINER⟩]⟩ (by decide) (by decide) (by decide),
   by decide⟩

end Netopeer2
